import Mathlib

/-!
Verification development for the streamy-json-parser repository.

The repository contains a streaming JSON parser split into a character-driven
lexer and a token-driven parser.  Several variants of the lexer are present in
the sources; we embed:

* the token-list lexer together with the parser that consumes it (the
  production pipeline), in namespace Pipe;
* the four-mode lexer (modes MAIN / STRING / ESCAPE_SEQUENCE /
  UNICODE_ESCAPE_SEQUENCE), in namespace L4;
* the escape-sequence-buffer lexer variant with the fixed two-token output
  area, in namespace EscL.

JavaScript strings are sequences of UTF-16 code units; we model them as lists
of natural numbers so that lone surrogates are representable.  JavaScript
numbers are modelled as exact rationals with an explicit finiteness cutoff at
2^1024 (the double-precision overflow threshold); rounding to the nearest
double is not modelled.  Mutation of shared tree nodes is modelled by a
zipper: each stack frame owns the container it is filling, and the container
is written back into the parent slot when the frame is popped (in JavaScript
the write-back is implicit through aliasing, and the parent key cannot change
while a child frame is open).
-/

/-- A JavaScript string: a list of UTF-16 code units. -/
abbrev JStr := List Nat

/-- Encode a Lean string (assumed to contain only BMP code points) as a list
of UTF-16 code units. -/
def jstr (s : String) : JStr := s.data.map Char.toNat

/-- Source location: index, line and column, as in the lexer state.  The
fields are integers because the location-rewinding arithmetic in the source
is ordinary JavaScript number arithmetic. -/
structure Loc where
  index : Int
  line : Int
  column : Int

/-- An exact rational number with explicit numerator and positive
denominator, kept unnormalised so that all arithmetic is structurally
computable.  JavaScript numbers are modelled by these exact values; rounding
to the nearest double is not modelled, only overflow to Infinity. -/
structure JNum where
  num : Int
  den : Nat

/-- The integer n as a JNum. -/
def JNum.ofInt (n : Int) : JNum := ⟨n, 1⟩

/-- Negation of a JNum. -/
def JNum.neg (q : JNum) : JNum := ⟨-q.num, q.den⟩

/-- Whether the value is zero. -/
def JNum.isZero (q : JNum) : Bool := q.num == 0

/-- The JSON value tree built by the parser.  Arrays are dense lists and
objects are insertion-ordered association lists, mirroring JavaScript arrays
and plain objects as used by the source. -/
inductive JsonValue where
  | null
  | bool (b : Bool)
  | num (q : JNum)
  | str (s : JStr)
  | arr (elems : List JsonValue)
  | obj (fields : List (JStr × JsonValue))

/-- JavaScript truthiness of a value, as used by the expression
getValue(context) || defaultContainer in the parser. -/
def JsonValue.jsTruthy : JsonValue → Bool
  | .null => false
  | .bool b => b
  | .num q => !q.isZero
  | .str s => !s.isEmpty
  | .arr _ => true
  | .obj _ => true

/-- Whether typeof value === 'object' holds in JavaScript.  Note that
typeof null is 'object'. -/
def JsonValue.typeofIsObject : JsonValue → Bool
  | .null => true
  | .arr _ => true
  | .obj _ => true
  | .bool _ => false
  | .num _ => false
  | .str _ => false

/-- Errors thrown by the embedded code. -/
inductive Err where
  /-- SyntaxError carrying a structured location and a message. -/
  | synErr (loc : Loc) (msg : JStr)
  /-- SyntaxError carrying an integer location (the lexer variant that counts
  characters only). -/
  | synErrI (loc : Int) (msg : JStr)
  /-- A thrown plain string for programmer faults. -/
  | usage (msg : JStr)
  /-- A JavaScript runtime TypeError, e.g. reading a property of undefined or
  assigning a property on a primitive in strict mode. -/
  | jsTypeError
  /-- Failure of the CHECK assertion helper: new Error with message
  Assertion failed. -/
  | assertionFailed
  /-- JavaScript behavior that leaves the JsonValue data model (sparse arrays
  created by holes, non-index properties attached to arrays).  These states
  are only reachable through degenerate placeholder reuse. -/
  | unmodeled

/-- Whitespace recognised by the JavaScript numeric conversions Number and
parseInt (the common characters; exotic Unicode space separators are not
modelled). -/
def jsIsWs (c : Nat) : Bool :=
  c == 9 || c == 10 || c == 11 || c == 12 || c == 13 || c == 32 ||
  c == 0xa0 || c == 0xfeff

/-- Decimal digit value of a code unit. -/
def decVal (c : Nat) : Option Nat :=
  if 48 ≤ c ∧ c ≤ 57 then some (c - 48) else none

/-- Hexadecimal digit value of a code unit. -/
def hexVal (c : Nat) : Option Nat :=
  if 48 ≤ c ∧ c ≤ 57 then some (c - 48)
  else if 97 ≤ c ∧ c ≤ 102 then some (c - 87)
  else if 65 ≤ c ∧ c ≤ 70 then some (c - 55)
  else none

/-- Binary digit value of a code unit. -/
def binVal (c : Nat) : Option Nat :=
  if 48 ≤ c ∧ c ≤ 49 then some (c - 48) else none

/-- Octal digit value of a code unit. -/
def octVal (c : Nat) : Option Nat :=
  if 48 ≤ c ∧ c ≤ 55 then some (c - 48) else none

/-- Longest prefix of digits recognised by the given digit-value function,
together with the rest of the string. -/
def takeDigits (val : Nat → Option Nat) : JStr → (List Nat × JStr)
  | [] => ([], [])
  | c :: cs =>
    match val c with
    | some d =>
      let r := takeDigits val cs
      (d :: r.1, r.2)
    | none => ([], c :: cs)

/-- Value of a digit list in the given base, most significant digit first. -/
def digitsToNat (base : Nat) (ds : List Nat) : Nat :=
  ds.foldl (fun a d => a * base + d) 0

/-- The double-precision overflow threshold 2^1024, written out as a numeral
so that evaluation does not have to unfold an exponentiation. -/
def jsOverflowNat : Nat :=
  179769313486231590772930519078902473361797697894230657273430081157732675805500963132708477322407536021120113879871393357658789768814416622492847430639474124377767893424865485276302219601246094119453082952085005768838150682342462881473913110540827237163350510684586298239947245938479716304835356329624224137216

/-- Finiteness filter for a rational produced by a numeric parse: values of
magnitude at least 2^1024 (the double-precision overflow threshold) convert
to Infinity and are rejected by Number.isFinite. -/
def jsFinite (q : JNum) : Option JNum :=
  if q.num.natAbs < jsOverflowNat * q.den then some q else none

/-- Radix literal part of Number conversion: all remaining characters must be
digits of the base and at least one digit must be present. -/
def jsRadixLiteral (val : Nat → Option Nat) (base : Nat) (s : JStr) : Option JNum :=
  let r := takeDigits val s
  if r.1.isEmpty then none
  else if r.2.isEmpty then jsFinite (JNum.ofInt (digitsToNat base r.1 : ℕ))
  else none

/-- Exponent part of a decimal literal: an optional sign followed by at least
one digit, consuming the whole rest of the string. -/
def jsExponent (s : JStr) : Option Int :=
  let signed : Int × JStr :=
    match s with
    | c :: cs =>
      if c == '+'.toNat then (1, cs)
      else if c == '-'.toNat then (-1, cs)
      else (1, s)
    | [] => (1, [])
  let r := takeDigits decVal signed.2
  if r.1.isEmpty then none
  else if r.2.isEmpty then some (signed.1 * (digitsToNat 10 r.1 : ℕ)) else none

/-- Apply a power-of-ten exponent to a rational, exactly. -/
def applyExp (m : JNum) (e : Int) : JNum :=
  if 0 ≤ e then ⟨m.num * ((10 ^ e.toNat : ℕ) : Int), m.den⟩
  else ⟨m.num, m.den * 10 ^ (-e).toNat⟩

/-- Unsigned decimal literal of Number conversion: digits, an optional
fraction, and an optional exponent; Infinity converts to a non-finite
value. -/
def jsDecimalLiteral (s : JStr) : Option JNum :=
  if s = jstr "Infinity" then none
  else
    let ip := takeDigits decVal s
    let hasDot : Bool := ip.2.head? == some '.'.toNat
    let fp := if hasDot then takeDigits decVal (ip.2.drop 1) else ([], ip.2)
    if ip.1.isEmpty ∧ (hasDot = false ∨ fp.1.isEmpty) then none
    else
      let scale : Nat := 10 ^ fp.1.length
      let mant : JNum :=
        ⟨(digitsToNat 10 ip.1 * scale + digitsToNat 10 fp.1 : ℕ), scale⟩
      match fp.2 with
      | [] => jsFinite mant
      | e :: rest =>
        if e == 'e'.toNat || e == 'E'.toNat then
          match jsExponent rest with
          | some ex => jsFinite (applyExp mant ex)
          | none => none
        else none

/-- The JavaScript Number conversion of a string, returning some finite
rational or none when the result is NaN or infinite.  An empty or
whitespace-only string converts to 0. -/
def jsNumber (s : JStr) : Option JNum :=
  let t := ((s.dropWhile jsIsWs).reverse.dropWhile jsIsWs).reverse
  match t with
  | [] => some (JNum.ofInt 0)
  | c :: rest =>
    if c == '+'.toNat then jsDecimalLiteral rest
    else if c == '-'.toNat then (jsDecimalLiteral rest).map JNum.neg
    else if c == '0'.toNat ∧ (rest.head? == some 'x'.toNat ∨ rest.head? == some 'X'.toNat) then
      jsRadixLiteral hexVal 16 (rest.drop 1)
    else if c == '0'.toNat ∧ (rest.head? == some 'o'.toNat ∨ rest.head? == some 'O'.toNat) then
      jsRadixLiteral octVal 8 (rest.drop 1)
    else if c == '0'.toNat ∧ (rest.head? == some 'b'.toNat ∨ rest.head? == some 'B'.toNat) then
      jsRadixLiteral binVal 2 (rest.drop 1)
    else jsDecimalLiteral t

/-- Decode a buffered literal, as in getLiteralBufferValue: null, true and
false are keywords, everything else goes through the Number conversion with
a finiteness check.  none means the literal is unknown (the lexers then
throw Unknown literal value). -/
def getLiteralBufferValue (buf : JStr) : Option JsonValue :=
  if buf = jstr "null" then some .null
  else if buf = jstr "true" then some (.bool true)
  else if buf = jstr "false" then some (.bool false)
  else (jsNumber buf).map .num

/-- The parseInt conversion with radix 16: skip leading whitespace, an
optional sign, an optional 0x or 0X prefix, then the longest prefix of hex
digits; NaN (none) exactly when no digit is found. -/
def jsParseIntHex (s : JStr) : Option Int :=
  let t := s.dropWhile jsIsWs
  let signed : Int × JStr :=
    match t with
    | c :: cs =>
      if c == '+'.toNat then (1, cs)
      else if c == '-'.toNat then (-1, cs)
      else (1, t)
    | [] => (1, [])
  let t2 : JStr :=
    match signed.2 with
    | a :: b :: cs =>
      if a == '0'.toNat ∧ (b == 'x'.toNat ∨ b == 'X'.toNat) then cs else signed.2
    | _ => signed.2
  let r := takeDigits hexVal t2
  if r.1.isEmpty then none else some (signed.1 * (digitsToNat 16 r.1 : ℕ))

/-- ToUint16, the conversion applied by String.fromCharCode. -/
def toUint16 (n : Int) : Nat := (n % 65536).toNat

/-- String.fromCharCode(parseInt(s, 16)): NaN converts to code unit 0. -/
def fromCharCodeOfParseInt (s : JStr) : Nat :=
  match jsParseIntHex s with
  | some n => toUint16 n
  | none => 0

/-- The ESCAPE_SEQUENCES table: the character denoted by a single-character
escape. -/
def escChar (c : Nat) : Option Nat :=
  if c == '"'.toNat then some '"'.toNat
  else if c == '\\'.toNat then some '\\'.toNat
  else if c == '/'.toNat then some '/'.toNat
  else if c == 'b'.toNat then some 8
  else if c == 'f'.toNat then some 12
  else if c == 'n'.toNat then some 10
  else if c == 'r'.toNat then some 13
  else if c == 't'.toNat then some 9
  else none

/-- Result of getCharFromEscapeSequence: a decoded code unit, an incomplete
sequence (undefined in the source), or ESCAPE_SEQUENCE_ERROR. -/
inductive EscRes where
  | unit (u : Nat)
  | pending
  | illegal

/-- Convert an escape sequence without the leading backslash into a code
unit, as in the escape-buffer lexers.  A unicode escape of length five is
converted with fromCharCode(parseInt(..., 16)), which silently maps an
unparseable payload to code unit 0. -/
def getCharFromEscapeSequence (esc : JStr) : EscRes :=
  match esc with
  | [] => .pending
  | [c] =>
    match escChar c with
    | some u => .unit u
    | none => if c == 'u'.toNat then .pending else .illegal
  | c :: _ =>
    if c == 'u'.toNat then
      if esc.length == 5 then .unit (fromCharCodeOfParseInt (esc.drop 1)) else .pending
    else .illegal

/-- Stringification of a JavaScript array of single characters by string
concatenation: the elements joined with commas. -/
def jsArrayStr : JStr → JStr
  | [] => []
  | [c] => [c]
  | c :: rest => c :: ','.toNat :: jsArrayStr rest

/-- Whitespace characters recognised by the lexers in MAIN mode. -/
def isWsMainChar (c : Nat) : Bool :=
  c == 32 || c == 9 || c == 13 || c == 10

namespace Pipe

/-!
The production pipeline: the token-list lexer of src/src/lexer.js (the
variant whose push(text) lexes every character and then flushes the pending
string chunk) and the parser of the repository that consumes its tokens
list.
-/

/-- Token payloads, as in TOKEN_TYPE.  In this lexer variant END_STRING
carries no payload; partial string content always travels in STRING_CHUNK
tokens. -/
inductive TokV where
  | lit (v : JsonValue)
  | startObject
  | endObject
  | startArray
  | endArray
  | colonT
  | comaT
  | startString
  | strChunk (s : JStr)
  | endString

/-- A token together with the location recorded when it was pushed. -/
structure Tok where
  val : TokV
  loc : Loc

/-- TOKEN_TYPE_NAME, the lexical display of a token kind used in Unexpected
token messages. -/
def getTokenTypeName : TokV → JStr
  | .lit _ => jstr "literal value"
  | .startObject => jstr "\x7b"
  | .endObject => jstr "\x7d"
  | .startArray => jstr "["
  | .endArray => jstr "]"
  | .colonT => jstr ":"
  | .comaT => jstr ","
  | .startString => jstr "\""
  | .strChunk _ => jstr "string chunk"
  | .endString => jstr "\""

/-- Lexer state.  stringBuffer is null outside of strings;
escapeSequenceBuffer is null outside of escape sequences. -/
structure LexState where
  stringBuffer : Option JStr
  escapeSequenceBuffer : Option JStr
  literalBuffer : Option JStr
  lastCharIsCR : Bool
  loc : Loc
  literalBufferStartLocation : Option Loc
  isClosed : Bool

/-- The freshly constructed lexer state. -/
def LexState.initial : LexState :=
  ⟨none, none, none, false, ⟨0, 1, 0⟩, none, false⟩

/-- flushState: emit a LITERAL token for the pending literal buffer, if any,
throwing Unknown literal value when it does not decode; the lastCharIsCR
flag is also cleared. -/
def flushState (s : LexState) : Except Err (LexState × List Tok) :=
  match s.literalBuffer with
  | none => .ok ({ s with lastCharIsCR := false }, [])
  | some buf =>
    match getLiteralBufferValue buf with
    | some v =>
      .ok ({ s with literalBuffer := none, lastCharIsCR := false },
        [⟨.lit v, s.literalBufferStartLocation.getD s.loc⟩])
    | none =>
      .error (.synErr (s.literalBufferStartLocation.getD s.loc)
        (jstr "Unknown literal value: " ++ buf))

/-- flushString: emit a STRING_CHUNK token for the string buffer whenever it
is non-null (also when its content is empty), and reset it. -/
def flushString (s : LexState) : LexState × List Tok :=
  match s.stringBuffer with
  | none => (s, [])
  | some b => ({ s with stringBuffer := some [] }, [⟨.strChunk b, s.loc⟩])

/-- updateLocation: advance index and column, and handle line breaks.  Note
that the lastCharIsCR flag set here for a carriage return is cleared again
by the flushState call in the same character step, faithfully to the
source. -/
def updateLocation (s : LexState) (c : Nat) : LexState :=
  let s := { s with loc := { s.loc with index := s.loc.index + 1, column := s.loc.column + 1 } }
  if c == 13 then
    { s with loc := { s.loc with line := s.loc.line + 1, column := 0 }, lastCharIsCR := true }
  else if c == 10 then
    let s :=
      if s.lastCharIsCR then s
      else { s with loc := { s.loc with line := s.loc.line + 1, column := 0 } }
    { s with lastCharIsCR := false }
  else { s with lastCharIsCR := false }

/-- Helper for flushing the literal state and pushing a structural token at
the current location. -/
def flushStateAndPushToken (s : LexState) (tv : TokV) : Except Err (LexState × List Tok) := do
  let r ← flushState s
  .ok (r.1, r.2 ++ [⟨tv, r.1.loc⟩])

/-- Character dispatch outside of strings. -/
def lexMain (s : LexState) (c : Nat) : Except Err (LexState × List Tok) :=
  if c == '{'.toNat then flushStateAndPushToken s .startObject
  else if c == '}'.toNat then flushStateAndPushToken s .endObject
  else if c == '['.toNat then flushStateAndPushToken s .startArray
  else if c == ']'.toNat then flushStateAndPushToken s .endArray
  else if c == ','.toNat then flushStateAndPushToken s .comaT
  else if c == ':'.toNat then flushStateAndPushToken s .colonT
  else if c == '"'.toNat then do
    let r ← flushState s
    let s1 := { r.1 with stringBuffer := some [] }
    .ok (s1, r.2 ++ [⟨.startString, s1.loc⟩])
  else if isWsMainChar c then do
    let r ← flushState s
    .ok (r.1, r.2)
  else
    match s.literalBuffer with
    | none =>
      .ok ({ s with literalBuffer := some [c], literalBufferStartLocation := some s.loc }, [])
    | some b => .ok ({ s with literalBuffer := some (b ++ [c]) }, [])

/-- Character dispatch inside a string, outside of an escape sequence. -/
def lexString (s : LexState) (strBuf : JStr) (c : Nat) : Except Err (LexState × List Tok) :=
  if c == '\\'.toNat then do
    let r ← flushState s
    .ok ({ r.1 with escapeSequenceBuffer := some [] }, r.2)
  else if c == '"'.toNat then
    let r := flushString s
    .ok ({ r.1 with stringBuffer := none }, r.2 ++ [⟨.endString, r.1.loc⟩])
  else do
    let r ← flushState s
    .ok ({ r.1 with stringBuffer := some (strBuf ++ [c]) }, r.2)

/-- Character dispatch inside an escape sequence.  A double quote aborts with
Incomplete escape sequence (the buffer, being an array, is always truthy in
the source condition); otherwise the accumulated sequence is resolved with
getCharFromEscapeSequence. -/
def lexEscape (s : LexState) (strBuf escBuf : JStr) (c : Nat) :
    Except Err (LexState × List Tok) :=
  if c == '"'.toNat then
    .error (.synErr s.loc (jstr "Incomplete escape sequence: \\" ++ escBuf))
  else
    let eb := escBuf ++ [c]
    match getCharFromEscapeSequence eb with
    | .illegal =>
      .error (.synErr s.loc (jstr "Illegal escape sequence: \\" ++ jsArrayStr eb))
    | .unit u =>
      .ok ({ s with stringBuffer := some (strBuf ++ [u]), escapeSequenceBuffer := none }, [])
    | .pending => .ok ({ s with escapeSequenceBuffer := some eb }, [])

/-- lexChar: process a single character of input, producing tokens. -/
def lexChar (s0 : LexState) (c : Nat) : Except Err (LexState × List Tok) :=
  let s := updateLocation s0 c
  match s.stringBuffer with
  | none => lexMain s c
  | some strBuf =>
    match s.escapeSequenceBuffer with
    | none => lexString s strBuf c
    | some escBuf => lexEscape s strBuf escBuf c

/-- Lex a list of characters, accumulating tokens. -/
def lexChars (s : LexState) : JStr → Except Err (LexState × List Tok)
  | [] => .ok (s, [])
  | c :: cs => do
    let r1 ← lexChar s c
    let r2 ← lexChars r1.1 cs
    .ok (r2.1, r1.2 ++ r2.2)

/-- Lexer close: mark the lexer closed, flush a pending literal, and fail
with Unterminated string when a string is still open. -/
def lexClose (s : LexState) : Except Err (LexState × List Tok) := do
  let r ← flushState { s with isClosed := true }
  match r.1.stringBuffer with
  | some _ => .error (.synErr r.1.loc (jstr "Unterminated string"))
  | none => .ok r

end Pipe

namespace Pipe

/-- PIECE: the next lexical atom expected in a context. -/
inductive Piece where
  | propertyName
  | colonP
  | valueP
  | comaP
deriving DecidableEq

/-- A parser stack frame (CONTEXT_TYPE with its fields).  The value field
holds the container being filled; for an object context the key is absent
until the first property name has been consumed; propertyNames is the set of
property names already advanced past (a JavaScript Set, modelled as a
duplicate-free list in insertion order; the undefined key is representable
as none). -/
inductive Frame where
  | arrF (value : JsonValue) (key : Nat) (expected : Piece) (isEmpty : Bool)
  | objF (value : JsonValue) (key : Option JStr) (expected : Piece) (isEmpty : Bool)
      (propertyNames : List (Option JStr))
  | strF (value : JStr)

/-- Events recorded when track_events is set. -/
inductive EvT where
  | beginEv
  | setEv
  | endEv

/-- A path element: an array index or an object property name; none stands
for the undefined key of a string frame or of an object frame that has not
seen a property name yet. -/
abbrev PathEl := Option (Sum Nat JStr)

/-- An event: a kind and the path captured at emission time. -/
structure Event where
  t : EvT
  path : List PathEl

/-- Parser options: track_events and include_incomplete_strings.  The
include option is none when the JavaScript option value is falsy (false,
undefined or the empty string) and some suf when it is truthy; a truthy
non-string value contributes the empty suffix. -/
structure POpts where
  trackEvents : Bool
  includeIncompleteStrings : Option JStr

/-- The full parser state: the owned lexer, the context stack (head is the
top of the stack, the synthetic root frame is the last element), the event
list, the options and the placeholder flag. -/
structure PState where
  lex : LexState
  stack : List Frame
  events : List Event
  opts : POpts
  hasPlaceholder : Bool

/-- The synthetic root frame created by reset: an array context of length
one holding the root slot at index zero. -/
def rootFrame : Frame := .arrF (.arr []) 0 .valueP false

/-- A freshly constructed parser. -/
def PState.initial (opts : POpts) : PState :=
  ⟨LexState.initial, [rootFrame], [], opts, false⟩

/-- setPlaceholder before any input: writes the placeholder into the root
slot and records that a placeholder is installed. -/
def PState.withPlaceholder (p : PState) (v : JsonValue) : PState :=
  { p with stack := [.arrF (.arr [v]) 0 .valueP false], hasPlaceholder := true }

/-- canSetValue: the context is not a string context and expects a value. -/
def canSetValue : Frame → Bool
  | .arrF _ _ .valueP _ => true
  | .objF _ _ .valueP _ _ => true
  | _ => false

/-- expectObjectPropertyName: an object context expecting a property name. -/
def expectObjectPropertyName : Frame → Bool
  | .objF _ _ .propertyName _ _ => true
  | _ => false

/-- The key of a frame as a path element. -/
def Frame.pathKey : Frame → PathEl
  | .arrF _ k _ _ => some (.inl k)
  | .objF _ k _ _ _ => k.map .inr
  | .strF _ => none

/-- getPath: the keys of every frame above the root, from the bottom of the
stack to the top. -/
def getPath (stack : List Frame) : List PathEl :=
  (stack.dropLast.map Frame.pathKey).reverse

/-- pushEvent: append an event when tracking is enabled. -/
def pushEvent (p : PState) (t : EvT) : PState :=
  if p.opts.trackEvents then { p with events := p.events ++ [⟨t, getPath p.stack⟩] } else p

/-- Canonical array index denoted by a property name string, if any: a
non-empty digit string without a redundant leading zero. -/
def jstrToIndex (s : JStr) : Option Nat :=
  match s with
  | [] => none
  | c :: rest =>
    if (s.all fun d => (decVal d).isSome) ∧ (c = 48 → rest = []) then
      some (digitsToNat 10 (s.map fun d => d - 48))
    else none

/-- String conversion of an array index used when a numeric key is applied
to a plain object. -/
def natStr (n : Nat) : JStr := jstr (Nat.repr n)

/-- Lookup in an insertion-ordered association list. -/
def objGet (fields : List (JStr × JsonValue)) (k : JStr) : Option JsonValue :=
  match fields with
  | [] => none
  | (k', v) :: rest => if k' = k then some v else objGet rest k

/-- Update or append in an insertion-ordered association list; an existing
key keeps its position. -/
def objSet (fields : List (JStr × JsonValue)) (k : JStr) (v : JsonValue) :
    List (JStr × JsonValue) :=
  match fields with
  | [] => [(k, v)]
  | (k', v') :: rest => if k' = k then (k', v) :: rest else (k', v') :: objSet rest k v

/-- Property read value[n] for a numeric key.  Reading an index of a string
yields a one-character string; reads of absent properties yield undefined
(none); exotic properties of wrong-kind targets (such as length) are not
representable and read as undefined. -/
def valueIndexRead (v : JsonValue) (k : Nat) : Option JsonValue :=
  match v with
  | .arr xs => xs[k]?
  | .obj fields => objGet fields (natStr k)
  | .str s => (s[k]?).map fun u => .str [u]
  | _ => none

/-- Property read value[k] for a string key. -/
def valuePropRead (v : JsonValue) (k : JStr) : Option JsonValue :=
  match v with
  | .obj fields => objGet fields k
  | .arr xs =>
    match jstrToIndex k with
    | some n => xs[n]?
    | none => none
  | .str s =>
    match jstrToIndex k with
    | some n => (s[n]?).map fun u => .str [u]
    | none => none
  | _ => none

/-- Property write value[n] = x for a numeric key.  Writing one past the end
of an array appends; writing further would create a hole, which the
JsonValue model cannot represent; writing a property of a primitive throws a
TypeError in strict mode. -/
def valueIndexWrite (v : JsonValue) (k : Nat) (x : JsonValue) : Except Err JsonValue :=
  match v with
  | .arr xs =>
    if k < xs.length then .ok (.arr (xs.set k x))
    else if k = xs.length then .ok (.arr (xs ++ [x]))
    else .error .unmodeled
  | .obj fields => .ok (.obj (objSet fields (natStr k) x))
  | _ => .error .jsTypeError

/-- Property write value[k] = x for a string key. -/
def valuePropWrite (v : JsonValue) (k : JStr) (x : JsonValue) : Except Err JsonValue :=
  match v with
  | .obj fields => .ok (.obj (objSet fields k x))
  | .arr xs =>
    match jstrToIndex k with
    | some n =>
      if n < xs.length then .ok (.arr (xs.set n x))
      else if n = xs.length then .ok (.arr (xs ++ [x]))
      else .error .unmodeled
    | none => .error .unmodeled
  | _ => .error .jsTypeError

/-- getValue(context): CHECK that the context is not a string context, then
read the current slot.  An object context without a key reads the property
named undefined. -/
def frameGetSlot : Frame → Except Err (Option JsonValue)
  | .strF _ => .error .assertionFailed
  | .arrF v k _ _ => .ok (valueIndexRead v k)
  | .objF v k _ _ _ => .ok (valuePropRead v (k.getD (jstr "undefined")))

/-- Write into the current slot of a frame. -/
def frameSetSlot (f : Frame) (x : JsonValue) : Except Err Frame :=
  match f with
  | .arrF v k e ie => do
    let v' ← valueIndexWrite v k x
    .ok (.arrF v' k e ie)
  | .objF v k e ie pn => do
    let v' ← valuePropWrite v (k.getD (jstr "undefined")) x
    .ok (.objF v' k e ie pn)
  | .strF _ => .error .jsTypeError

/-- Set the isEmpty flag of a frame to false. -/
def clearIsEmpty : Frame → Frame
  | .arrF v k e _ => .arrF v k e false
  | .objF v k e _ pn => .objF v k e false pn
  | .strF v => .strF v

/-- Replace the expected piece of a frame. -/
def setExpected : Frame → Piece → Frame
  | .arrF v k _ ie, e => .arrF v k e ie
  | .objF v k _ ie pn, e => .objF v k e ie pn
  | .strF v, _ => .strF v

/-- The expected piece of a frame, if it has one. -/
def Frame.expectedOf : Frame → Option Piece
  | .arrF _ _ e _ => some e
  | .objF _ _ e _ _ => some e
  | .strF _ => none

/-- The isEmpty flag of a frame; undefined (falsy) for a string frame. -/
def frameIsEmpty : Frame → Bool
  | .arrF _ _ _ ie => ie
  | .objF _ _ _ ie _ => ie
  | .strF _ => false

/-- setIncompleteValue on a frame: throw Unexpected value unless the frame
can accept a value, then write the slot and clear isEmpty. -/
def setIncompleteValueF (f : Frame) (x : JsonValue) (errLoc : Loc) : Except Err Frame :=
  if canSetValue f then do
    let f' ← frameSetSlot f x
    .ok (clearIsEmpty f')
  else .error (.synErr errLoc (jstr "Unexpected value"))

/-- setValue: setIncompleteValue on the top frame, then expect a comma and
emit a begin or set event depending on typeof value === 'object'. -/
def setValue (p : PState) (x : JsonValue) (errLoc : Loc) : Except Err PState :=
  match p.stack with
  | [] => .error .jsTypeError
  | f :: rest => do
    let f' ← setIncompleteValueF f x errLoc
    let p := { p with stack := setExpected f' .comaP :: rest }
    .ok (pushEvent p (if x.typeofIsObject then .beginEv else .setEv))

/-- Insert a property name into the propertyNames set (JavaScript Set
semantics: no duplicates, insertion order). -/
def addPropertyName (pn : List (Option JStr)) (k : Option JStr) : List (Option JStr) :=
  if k ∈ pn then pn else pn ++ [k]

/-- nextArrayItemOrObjectProperty: advance an array context to the next
index, or record the current property name of an object context and expect
the next one.  A string context matches neither case and is unchanged. -/
def nextArrayItemOrObjectProperty : Frame → Frame
  | .arrF v k _ ie => .arrF v (k + 1) .valueP ie
  | .objF v k _ ie pn => .objF v k .propertyName ie (addPropertyName pn k)
  | .strF v => .strF v

/-- Trim on container close when a placeholder is installed.  For an array
context the value length is set to the key (a plain object target gains a
length property; an overlong key would create holes); for an object context
every property not in propertyNames is deleted (iteration over an array
value would delete indices and create holes; iteration over a primitive
does nothing). -/
def trimFrame : Frame → Except Err Frame
  | .arrF v k e ie =>
    match v with
    | .arr xs =>
      if k ≤ xs.length then .ok (.arrF (.arr (xs.take k)) k e ie)
      else .error .unmodeled
    | .obj fields => .ok (.arrF (.obj (objSet fields (jstr "length") (.num (JNum.ofInt k)))) k e ie)
    | _ => .error .jsTypeError
  | .objF v k e ie pn =>
    match v with
    | .obj fields =>
      .ok (.objF (.obj (fields.filter fun kv => decide (some kv.1 ∈ pn))) k e ie pn)
    | .arr _ => .error .unmodeled
    | _ => .ok (.objF v k e ie pn)
  | .strF v => .ok (.strF v)

/-- The container owned by a frame. -/
def Frame.valueOf : Frame → Except Err JsonValue
  | .arrF v _ _ _ => .ok v
  | .objF v _ _ _ _ => .ok v
  | .strF _ => .error .assertionFailed

/-- closeArrayOrObject: advance a non-empty context, trim when a placeholder
is installed, pop the frame (writing the container back into the slot of the
parent frame, which in JavaScript holds the same reference), and emit an end
event. -/
def closeArrayOrObject (p : PState) : Except Err PState :=
  match p.stack with
  | [] => .error .jsTypeError
  | f :: rest => do
    let f := if frameIsEmpty f then f else nextArrayItemOrObjectProperty f
    let f ← if p.hasPlaceholder then trimFrame f else .ok f
    let rest' ←
      match rest with
      | [] => .ok ([] : List Frame)
      | parent :: rs => do
        let v ← f.valueOf
        let parent' ← frameSetSlot parent v
        .ok (parent' :: rs)
    let p := { p with stack := rest' }
    .ok (pushEvent p .endEv)

/-- Unexpected token error for the token being processed. -/
def unexpectedTokenError (tk : Tok) : Err :=
  .synErr tk.loc (jstr "Unexpected token: \"" ++ getTokenTypeName tk.val ++ jstr "\"")

/-- Process one token of the lexer output (one iteration of the driver
loop).  With an empty stack every case dereferences the undefined context
and crashes with a TypeError. -/
def parseToken (p : PState) (tk : Tok) : Except Err PState :=
  match p.stack with
  | [] => .error .jsTypeError
  | ctx :: rest =>
    match tk.val with
    | .lit v => setValue p v tk.loc
    | .startObject => do
      let slot ← frameGetSlot ctx
      let newObject : JsonValue :=
        match slot with
        | some v => if v.jsTruthy then v else .obj []
        | none => .obj []
      let p ← setValue p newObject tk.loc
      .ok { p with stack := .objF newObject none .propertyName true [] :: p.stack }
    | .endObject =>
      match ctx with
      | .objF _ _ e ie _ =>
        if e = (if ie then Piece.propertyName else Piece.comaP) then closeArrayOrObject p
        else .error (unexpectedTokenError tk)
      | _ => .error (unexpectedTokenError tk)
    | .startArray => do
      let slot ← frameGetSlot ctx
      let newArray : JsonValue :=
        match slot with
        | some v => if v.jsTruthy then v else .arr []
        | none => .arr []
      let p ← setValue p newArray tk.loc
      .ok { p with stack := .arrF newArray 0 .valueP true :: p.stack }
    | .endArray =>
      match ctx with
      | .arrF _ _ e ie =>
        if ie = false ∧ e = Piece.valueP then .error (unexpectedTokenError tk)
        else closeArrayOrObject p
      | _ => .error (unexpectedTokenError tk)
    | .colonT =>
      match ctx with
      | .arrF _ _ _ _ => .error (unexpectedTokenError tk)
      | .objF v k e ie pn =>
        if e = Piece.colonP then .ok { p with stack := .objF v k .valueP ie pn :: rest }
        else .error (unexpectedTokenError tk)
      | .strF _ => .error .assertionFailed
    | .comaT =>
      match ctx with
      | .strF _ => .error .assertionFailed
      | _ =>
        if ctx.expectedOf = some Piece.comaP then
          .ok { p with stack := nextArrayItemOrObjectProperty ctx :: rest }
        else .error (unexpectedTokenError tk)
    | .startString =>
      if canSetValue ctx || expectObjectPropertyName ctx then
        .ok { p with stack := .strF [] :: p.stack }
      else .error (unexpectedTokenError tk)
    | .strChunk s =>
      match ctx with
      | .strF v => .ok { p with stack := .strF (v ++ s) :: rest }
      | _ => .error .assertionFailed
    | .endString =>
      match ctx with
      | .strF v =>
        match rest with
        | [] => .error .jsTypeError
        | parent :: rs =>
          if expectObjectPropertyName parent then
            match parent with
            | .objF pv _ _ ie pn =>
              .ok { p with stack := .objF pv (some v) .colonP ie pn :: rs }
            | _ => .error .assertionFailed
          else setValue { p with stack := rest } (.str v) tk.loc
      | _ => .error .assertionFailed

/-- Process a list of tokens in order. -/
def parseTokens (p : PState) : List Tok → Except Err PState
  | [] => .ok p
  | t :: ts => do
    let p' ← parseToken p t
    parseTokens p' ts

/-- The incomplete-string tail of the parse loop: when the include option is
truthy and the top of the stack is a string context whose parent is not an
object awaiting a property name, write the buffer plus the suffix into the
parent slot with setIncompleteValue. -/
def includeIncompleteStep (p : PState) : Except Err PState :=
  match p.opts.includeIncompleteStrings with
  | none => .ok p
  | some suffix =>
    match p.stack with
    | c1 :: c2 :: rs =>
      match c1 with
      | .strF v =>
        if expectObjectPropertyName c2 then .ok p
        else do
          let c2' ← setIncompleteValueF c2 (.str (v ++ suffix)) p.lex.loc
          .ok { p with stack := c1 :: c2' :: rs }
      | _ => .ok p
    | _ => .ok p

/-- Parser push: refuse a closed lexer, lex all characters, flush the
pending string chunk, consume the new tokens, then surface an incomplete
string. -/
def push (p : PState) (text : JStr) : Except Err PState := do
  if p.lex.isClosed then .error (.usage (jstr "Cannot push more text to a closed lexer."))
  else
    let r1 ← lexChars p.lex text
    let r2 := flushString r1.1
    let p ← parseTokens { p with lex := r2.1 } (r1.2 ++ r2.2)
    includeIncompleteStep p

/-- CONTEXT_TYPE_NAME: the display name of a context type. -/
def ctxTypeName : Frame → JStr
  | .objF _ _ _ _ _ => jstr "object"
  | .arrF _ _ _ _ => jstr "array"
  | .strF _ => jstr "string"

/-- throwSyntaxErrorIfStackIsNotEmpty: with only the root frame left return
normally; with an empty stack the undefined context crashes; otherwise throw
Unterminated object, array or string. -/
def stackCheck (p : PState) : Except Err PState :=
  match p.stack with
  | [_] => .ok p
  | [] => .error .jsTypeError
  | f :: _ => .error (.synErr p.lex.loc (jstr "Unterminated " ++ ctxTypeName f))

/-- Parser close: close the lexer, consume any final token, run the
incomplete-string tail, and check that the stack is back to the root
frame. -/
def close (p : PState) : Except Err PState := do
  let r ← lexClose p.lex
  let p ← parseTokens { p with lex := r.1 } r.2
  let p ← includeIncompleteStep p
  stackCheck p

/-- getValue: the current root value, stack[0].value[0].  Only used on
states whose stack is non-empty. -/
def PState.getValue (p : PState) : Option JsonValue :=
  match p.stack.getLast? with
  | some (.arrF v _ _ _) => valueIndexRead v 0
  | some (.objF v _ _ _ _) => valueIndexRead v 0
  | some (.strF s) => (s[0]?).map fun u => .str [u]
  | none => none

/-- Run a parser over a list of chunks: optional placeholder, one push per
chunk, then close; the result is the root value and the event list. -/
def runChunks (opts : POpts) (ph : Option JsonValue) (chunks : List JStr) :
    Except Err (Option JsonValue × List Event) := do
  let p0 :=
    match ph with
    | none => PState.initial opts
    | some v => (PState.initial opts).withPlaceholder v
  let p ← chunks.foldlM push p0
  let p ← close p
  .ok (p.getValue, p.events)

end Pipe

namespace Pipe

/-- The container chosen by the driver loop on START_OBJECT or START_ARRAY:
the expression getValue(context) || fresh reuses the existing slot value
whenever it is truthy in the JavaScript sense and falls back to the fresh
empty container otherwise. -/
def jsReuse (slot : Option JsonValue) (fresh : JsonValue) : JsonValue :=
  match slot with
  | some v => if v.jsTruthy then v else fresh
  | none => fresh

/-- One combined character step: lex one character and let the parser
consume the produced tokens immediately.  Because the parser never modifies
the lexer state and the lexer never reads the parser state, a push is
equivalent to this interleaved processing whenever it succeeds. -/
def stepChar (p : PState) (c : Nat) : Except Err PState := do
  let r ← lexChar p.lex c
  parseTokens { p with lex := r.1 } r.2

/-- Interleaved processing of a list of characters. -/
def stepChars (p : PState) : JStr → Except Err PState
  | [] => .ok p
  | c :: cs => do
    let p' ← stepChar p c
    stepChars p' cs

/-- The chunk-boundary work of a push: flush the pending string chunk into
the parser and surface an incomplete string. -/
def boundary (p : PState) : Except Err PState := do
  let r := flushString p.lex
  let p ← parseTokens { p with lex := r.1 } r.2
  includeIncompleteStep p

/-- Well-formedness tying the lexer to the parser stack: whenever the lexer
is inside a string, the top of the parser stack is the string context pushed
for it.  This holds in every reachable state. -/
def Wf (p : PState) : Prop :=
  p.lex.isClosed = false ∧
  ∀ sb, p.lex.stringBuffer = some sb →
    p.lex.literalBuffer = none ∧ ∃ v rest, p.stack = Frame.strF v :: rest

/-- Two parser states that differ only in how the content of the string
currently being lexed is split between the lexer buffer and the top string
context.  This is the coupling between a chunked run (which flushes at every
boundary) and an unchunked run. -/
def EqES (p q : PState) : Prop :=
  ∃ sb tb v1 v2 rest,
    p.lex.stringBuffer = some sb ∧
    q.lex = { p.lex with stringBuffer := some tb } ∧
    p.stack = .strF v1 :: rest ∧ q.stack = .strF v2 :: rest ∧
    v1 ++ sb = v2 ++ tb ∧
    p.events = q.events ∧ p.opts = q.opts ∧ p.hasPlaceholder = q.hasPlaceholder

/-- The simulation relation for chunking invariance: the states are equal,
or they are equal up to the split of the in-flight string content; both are
well-formed. -/
def Rel (p q : PState) : Prop :=
  Wf p ∧ Wf q ∧ (p = q ∨ EqES p q)

/-- Result correspondence for the chunking simulation: both runs succeed
with related states, or both fail. -/
def RelRes : Except Err PState → Except Err PState → Prop
  | .ok p, .ok q => Rel p q
  | .error _, .error _ => True
  | _, _ => False

/-- The chunked run in interleaved form: process each chunk character by
character and run the chunk-boundary work after each chunk. -/
def chainC (p : PState) : List JStr → Except Err PState
  | [] => .ok p
  | ch :: rest => do
    let m ← stepChars p ch
    let pb ← boundary m
    chainC pb rest

end Pipe

namespace L4

/-!
The four-mode lexer of the repository: modes MAIN, STRING, ESCAPE_SEQUENCE
and UNICODE_ESCAPE_SEQUENCE.  In this variant END_STRING carries the
remaining buffered string content, the literal start location is
reconstructed by rewinding columns, and tokens carry no locations (only
types and values are stored in the two-token output area).
-/

/-- MODE. -/
inductive Mode where
  | mainM
  | strM
  | escM
  | uniM
deriving DecidableEq

/-- Tokens: types with their payloads. -/
inductive Tok4 where
  | lit (v : JsonValue)
  | startObject
  | endObject
  | startArray
  | endArray
  | colonT
  | comaT
  | startString
  | strChunk (s : JStr)
  | endString (s : JStr)

/-- Lexer state. -/
structure St where
  mode : Mode
  stringBuffer : JStr
  unicodeBuffer : JStr
  literalBuffer : Option JStr
  loc : Loc
  lastLineLength : Int
  lastCharIsCR : Bool

/-- The state established by reset. -/
def initial : St := ⟨.mainM, [], [], none, ⟨0, 1, 0⟩, 0, false⟩

/-- getLocationMinusColumns: rewind the current location by a number of
columns, crossing at most one prior line boundary using the recorded length
of the previous line. -/
def getLocationMinusColumns (s : St) (n : Int) : Loc :=
  if n ≤ s.loc.column then { s.loc with column := s.loc.column - n }
  else ⟨s.loc.index - n, s.loc.line - 1, s.loc.column + s.lastLineLength - n⟩

/-- flushLiteral: emit a LITERAL token for the pending literal, throwing
Unknown literal value at the rewound start location when it does not
decode. -/
def flushLiteral (s : St) : Except Err (St × List Tok4) :=
  match s.literalBuffer with
  | none => .ok (s, [])
  | some buf =>
    match getLiteralBufferValue buf with
    | some v => .ok ({ s with literalBuffer := none }, [.lit v])
    | none =>
      .error (.synErr (getLocationMinusColumns s buf.length)
        (jstr "Unknown literal value: " ++ buf))

/-- flushString: outside MAIN mode emit the buffered content, as END_STRING
when the string is being terminated and as STRING_CHUNK at a chunk
boundary. -/
def flushStringTok (s : St) (isEnd : Bool) : St × List Tok4 :=
  if s.mode ≠ .mainM then
    ({ s with stringBuffer := [] },
     [if isEnd then .endString s.stringBuffer else .strChunk s.stringBuffer])
  else (s, [])

/-- updateLocationForNewLine: remember the length of the finished line and
move to the start of the next one. -/
def updateLocationForNewLine (s : St) : St :=
  { s with lastLineLength := s.loc.column,
           loc := { s.loc with line := s.loc.line + 1, column := 0 } }

/-- updateLocation: advance index and column, treating a carriage return
followed by a line feed as a single line break. -/
def updateLocation (s : St) (c : Nat) : St :=
  let s := { s with loc := { s.loc with index := s.loc.index + 1, column := s.loc.column + 1 } }
  if c == 13 then { updateLocationForNewLine s with lastCharIsCR := true }
  else if c == 10 then
    let s := if s.lastCharIsCR then s else updateLocationForNewLine s
    { s with lastCharIsCR := false }
  else { s with lastCharIsCR := false }

/-- Character dispatch in MAIN mode. -/
def lexMain4 (s : St) (c : Nat) : Except Err (St × List Tok4) :=
  if c == '{'.toNat then do let r ← flushLiteral s; .ok (r.1, r.2 ++ [.startObject])
  else if c == '}'.toNat then do let r ← flushLiteral s; .ok (r.1, r.2 ++ [.endObject])
  else if c == '['.toNat then do let r ← flushLiteral s; .ok (r.1, r.2 ++ [.startArray])
  else if c == ']'.toNat then do let r ← flushLiteral s; .ok (r.1, r.2 ++ [.endArray])
  else if c == ','.toNat then do let r ← flushLiteral s; .ok (r.1, r.2 ++ [.comaT])
  else if c == ':'.toNat then do let r ← flushLiteral s; .ok (r.1, r.2 ++ [.colonT])
  else if c == '"'.toNat then do
    let r ← flushLiteral s
    .ok ({ r.1 with stringBuffer := [], mode := .strM }, r.2 ++ [.startString])
  else if isWsMainChar c then flushLiteral s
  else
    match s.literalBuffer with
    | none => .ok ({ s with literalBuffer := some [c] }, [])
    | some b => .ok ({ s with literalBuffer := some (b ++ [c]) }, [])

/-- Character dispatch in STRING mode. -/
def lexStr4 (s : St) (c : Nat) : St × List Tok4 :=
  if c == '\\'.toNat then ({ s with mode := .escM }, [])
  else if c == '"'.toNat then
    let r := flushStringTok s true
    ({ r.1 with mode := .mainM }, r.2)
  else ({ s with stringBuffer := s.stringBuffer ++ [c] }, [])

/-- Character dispatch in ESCAPE_SEQUENCE mode.  Entering the unicode mode
does not clear the unicode buffer (only reset does), faithfully to the
source. -/
def lexEsc4 (s : St) (c : Nat) : Except Err (St × List Tok4) :=
  match escChar c with
  | some u => .ok ({ s with stringBuffer := s.stringBuffer ++ [u], mode := .strM }, [])
  | none =>
    if c == 'u'.toNat then .ok ({ s with mode := .uniM }, [])
    else .error (.synErr s.loc (jstr "Illegal escape sequence: \\" ++ [c]))

/-- Character dispatch in UNICODE_ESCAPE_SEQUENCE mode: accumulate, and when
the buffer reaches exactly four characters parse it as base-16, appending
the code unit on success and failing with Illegal escape sequence
otherwise. -/
def lexUni4 (s : St) (c : Nat) : Except Err (St × List Tok4) :=
  let ub := s.unicodeBuffer ++ [c]
  if ub.length == 4 then
    match jsParseIntHex ub with
    | some n =>
      .ok ({ s with
              unicodeBuffer := ub
              stringBuffer := s.stringBuffer ++ [toUint16 n]
              mode := .strM }, [])
    | none => .error (.synErr s.loc (jstr "Illegal escape sequence: \\u" ++ ub))
  else .ok ({ s with unicodeBuffer := ub }, [])

/-- lex: process one character. -/
def lex (s0 : St) (c : Nat) : Except Err (St × List Tok4) :=
  let s := updateLocation s0 c
  match s.mode with
  | .mainM => lexMain4 s c
  | .strM => .ok (lexStr4 s c)
  | .escM => lexEsc4 s c
  | .uniM => lexUni4 s c

/-- flush: the chunk-boundary call, emitting a STRING_CHUNK when inside a
string. -/
def flush (s : St) : St × List Tok4 := flushStringTok s false

/-- close: fail with Unterminated string outside MAIN mode, otherwise flush
the pending literal. -/
def close (s : St) : Except Err (St × List Tok4) :=
  if s.mode ≠ .mainM then .error (.synErr s.loc (jstr "Unterminated string"))
  else flushLiteral s

/-- Lex a list of characters. -/
def lexAll (s : St) : JStr → Except Err (St × List Tok4)
  | [] => .ok (s, [])
  | c :: cs => do
    let r1 ← lex s c
    let r2 ← lexAll r1.1 cs
    .ok (r2.1, r1.2 ++ r2.2)

/-- Lex a whole input and close, collecting every token. -/
def runTokens (input : JStr) : Except Err (List Tok4) := do
  let r1 ← lexAll initial input
  let r2 ← close r1.1
  .ok (r1.2 ++ r2.2)

/-- Feed a list of chunks: each chunk is lexed and followed by the
chunk-boundary flush. -/
def feedChunks (s : St) : List JStr → Except Err (St × List Tok4)
  | [] => .ok (s, [])
  | ch :: rest => do
    let r1 ← lexAll s ch
    let r2 := flush r1.1
    let r3 ← feedChunks r2.1 rest
    .ok (r3.1, r1.2 ++ r2.2 ++ r3.2)

/-- A flattened feed plan: some c is a character, none is a chunk-boundary
flush. -/
def feedPlan (s : St) : List (Option Nat) → Except Err (St × List Tok4)
  | [] => .ok (s, [])
  | some c :: rest => do
    let r1 ← lex s c
    let r2 ← feedPlan r1.1 rest
    .ok (r2.1, r1.2 ++ r2.2)
  | none :: rest =>
    let r1 := flush s
    (feedPlan r1.1 rest).map fun r2 => (r2.1, r1.2 ++ r2.2)

/-- The plan corresponding to a list of chunks. -/
def planOf (chunks : List JStr) : List (Option Nat) :=
  (chunks.map fun ch => ch.map some ++ [none]).flatten

/-- The characters of a plan. -/
def charsOf (plan : List (Option Nat)) : JStr := plan.filterMap id

/-- The string payload carried by a token (empty for non-string tokens). -/
def strPayload : Tok4 → JStr
  | .strChunk s => s
  | .endString s => s
  | _ => []

/-- Concatenation of the string payloads of a token list. -/
def strPayloads (ts : List Tok4) : JStr := (ts.map strPayload).flatten

end L4

/-- Pending state of the specification-side string decoder: inside the body,
inside an escape sequence, or inside a unicode escape with the hex digits
collected so far. -/
inductive Pend where
  | strP
  | escP
  | uniP (got : JStr)

/-- Specification-side definition, following the words of the specification:
the decoded content of a string body is the body with every escape sequence
replaced by the character it denotes (simple escapes through the escape
table, unicode escapes through fromCharCode of the base-16 parse).  An
unescaped double quote cannot occur inside a body, and an unterminated or
illegal escape sequence has no decoding. -/
def specDecodeFrom : Pend → JStr → Option JStr
  | .strP, [] => some []
  | .strP, c :: cs =>
    if c = '\\'.toNat then specDecodeFrom .escP cs
    else if c = '"'.toNat then none
    else (specDecodeFrom .strP cs).map (c :: ·)
  | .escP, [] => none
  | .escP, c :: cs =>
    if c = 'u'.toNat then specDecodeFrom (.uniP []) cs
    else
      match escChar c with
      | some u => (specDecodeFrom .strP cs).map (u :: ·)
      | none => none
  | .uniP _, [] => none
  | .uniP got, c :: cs =>
    if (got ++ [c]).length = 4 then
      match jsParseIntHex (got ++ [c]) with
      | some n => (specDecodeFrom .strP cs).map (toUint16 n :: ·)
      | none => none
    else specDecodeFrom (.uniP (got ++ [c])) cs

/-- Specification-side decoding of a complete string body. -/
def specStringDecode (body : JStr) : Option JStr := specDecodeFrom .strP body

namespace EscL

/-!
The escape-sequence-buffer lexer variant: no mode field (the nullness of
stringBuffer and escapeSequenceBuffer encodes the mode), an integer
character location, and a recorded literal start location.  The output area
stores token types and payloads only; END_STRING carries no payload and the
buffered content is always flushed as a preceding STRING_CHUNK.
-/

/-- Tokens: types with their payloads. -/
inductive TokE where
  | lit (v : JsonValue)
  | startObject
  | endObject
  | startArray
  | endArray
  | colonT
  | comaT
  | startString
  | strChunk (s : JStr)
  | endString

/-- Lexer state. -/
structure St where
  stringBuffer : Option JStr
  escapeSequenceBuffer : Option JStr
  literalBuffer : Option JStr
  loc : Int
  literalBufferStartLocation : Option Int

/-- The initial state. -/
def initial : St := ⟨none, none, none, 0, none⟩

/-- flushState: emit a LITERAL token for the pending literal, throwing
Unknown literal value at its recorded start location when it does not
decode. -/
def flushState (s : St) : Except Err (St × List TokE) :=
  match s.literalBuffer with
  | none => .ok (s, [])
  | some buf =>
    match getLiteralBufferValue buf with
    | some v => .ok ({ s with literalBuffer := none }, [.lit v])
    | none =>
      .error (.synErrI (s.literalBufferStartLocation.getD s.loc)
        (jstr "Unknown literal value: " ++ buf))

/-- flushString: emit a STRING_CHUNK whenever the string buffer is non-null
(also when its content is empty). -/
def flushString (s : St) : St × List TokE :=
  match s.stringBuffer with
  | none => (s, [])
  | some b => ({ s with stringBuffer := some [] }, [.strChunk b])

/-- lex: process one character. -/
def lexChar (s0 : St) (c : Nat) : Except Err (St × List TokE) :=
  let s := { s0 with loc := s0.loc + 1 }
  match s.stringBuffer with
  | none =>
    if c == '{'.toNat then do let r ← flushState s; .ok (r.1, r.2 ++ [.startObject])
    else if c == '}'.toNat then do let r ← flushState s; .ok (r.1, r.2 ++ [.endObject])
    else if c == '['.toNat then do let r ← flushState s; .ok (r.1, r.2 ++ [.startArray])
    else if c == ']'.toNat then do let r ← flushState s; .ok (r.1, r.2 ++ [.endArray])
    else if c == ','.toNat then do let r ← flushState s; .ok (r.1, r.2 ++ [.comaT])
    else if c == ':'.toNat then do let r ← flushState s; .ok (r.1, r.2 ++ [.colonT])
    else if c == '"'.toNat then do
      let r ← flushState s
      .ok ({ r.1 with stringBuffer := some [] }, r.2 ++ [.startString])
    else if isWsMainChar c then flushState s
    else
      match s.literalBuffer with
      | none =>
        .ok ({ s with literalBuffer := some [c], literalBufferStartLocation := some s.loc }, [])
      | some b => .ok ({ s with literalBuffer := some (b ++ [c]) }, [])
  | some strBuf =>
    match s.escapeSequenceBuffer with
    | none =>
      if c == '\\'.toNat then do
        let r ← flushState s
        .ok ({ r.1 with escapeSequenceBuffer := some [] }, r.2)
      else if c == '"'.toNat then
        let r := flushString s
        .ok ({ r.1 with stringBuffer := none }, r.2 ++ [.endString])
      else do
        let r ← flushState s
        .ok ({ r.1 with stringBuffer := some (strBuf ++ [c]) }, r.2)
    | some escBuf =>
      if c == '"'.toNat then
        .error (.synErrI s.loc (jstr "Incomplete escape sequence: \\" ++ escBuf))
      else
        let eb := escBuf ++ [c]
        match getCharFromEscapeSequence eb with
        | .illegal =>
          .error (.synErrI s.loc (jstr "Illegal escape sequence: \\" ++ jsArrayStr eb))
        | .unit u =>
          .ok ({ s with stringBuffer := some (strBuf ++ [u]), escapeSequenceBuffer := none }, [])
        | .pending => .ok ({ s with escapeSequenceBuffer := some eb }, [])

/-- close: flush the pending literal, then fail with Unterminated string
when a string is still open. -/
def close (s : St) : Except Err (St × List TokE) := do
  let r ← flushState s
  match r.1.stringBuffer with
  | some _ => .error (.synErrI r.1.loc (jstr "Unterminated string"))
  | none => .ok r

/-- Lex a list of characters. -/
def lexAll (s : St) : JStr → Except Err (St × List TokE)
  | [] => .ok (s, [])
  | c :: cs => do
    let r1 ← lexChar s c
    let r2 ← lexAll r1.1 cs
    .ok (r2.1, r1.2 ++ r2.2)

/-- Lex a whole input and close, collecting every token. -/
def runTokens (input : JStr) : Except Err (List TokE) := do
  let r1 ← lexAll initial input
  let r2 ← close r1.1
  .ok (r1.2 ++ r2.2)

end EscL

/-- Normalisation of four-mode tokens to the convention of the
escape-buffer lexer: a payload-carrying END_STRING becomes a STRING_CHUNK
followed by a bare END_STRING. -/
def l4Normalize (ts : List L4.Tok4) : List EscL.TokE :=
  ts.flatMap fun t =>
    match t with
    | .lit v => [.lit v]
    | .startObject => [.startObject]
    | .endObject => [.endObject]
    | .startArray => [.startArray]
    | .endArray => [.endArray]
    | .colonT => [.colonT]
    | .comaT => [.comaT]
    | .startString => [.startString]
    | .strChunk s => [.strChunk s]
    | .endString s => [.strChunk s, .endString]

/-- Sanity of the unicode buffer of a four-mode lexer state: it is empty or
already holds a completed payload of at least four characters.  Entering
unicode mode with such a stale completed payload makes the lexer swallow the
rest of the input (the buffer length can never equal four again), so no
string containing a second unicode escape can terminate. -/
def L4uok (s : L4.St) : Prop := s.unicodeBuffer = [] ∨ 4 ≤ s.unicodeBuffer.length

/-- Synchronisation between a four-mode lexer state inside a string literal
and a pending state of the specification-side decoder. -/
def L4sync (s : L4.St) : Pend → Prop
  | .strP => s.mode = .strM ∧ L4uok s
  | .escP => s.mode = .escM ∧ L4uok s
  | .uniP got => s.mode = .uniM ∧ s.unicodeBuffer = got ∧ got.length < 4

/-- The numeric TOKEN_TYPE code of a four-mode lexer token. -/
def l4TypeCode : L4.Tok4 → Nat
  | .lit _ => 1
  | .startObject => 2
  | .endObject => 3
  | .startArray => 4
  | .endArray => 5
  | .colonT => 6
  | .comaT => 7
  | .startString => 8
  | .strChunk _ => 9
  | .endString _ => 10

/-- The numeric TOKEN_TYPE code of an escape-buffer lexer token. -/
def escTypeCode : EscL.TokE → Nat
  | .lit _ => 1
  | .startObject => 2
  | .endObject => 3
  | .startArray => 4
  | .endArray => 5
  | .colonT => 6
  | .comaT => 7
  | .startString => 8
  | .strChunk _ => 9
  | .endString => 10

/-- Simulation between a four-mode lexer state and an escape-buffer lexer
state on inputs without backslashes: no escape sequence is pending, the
literal buffers agree, and the modes correspond (MAIN to a null string
buffer, STRING to the same buffered content with no pending literal). -/
def SimE (t : L4.St) (e : EscL.St) : Prop :=
  e.escapeSequenceBuffer = none ∧
  e.literalBuffer = t.literalBuffer ∧
  ((t.mode = .mainM ∧ e.stringBuffer = none) ∨
   (t.mode = .strM ∧ e.stringBuffer = some t.stringBuffer ∧ t.literalBuffer = none))

/-- Result correspondence for the two lexers: success with normalised
tokens and related states, or failure with the same message. -/
def ResSim : Except Err (L4.St × List L4.Tok4) → Except Err (EscL.St × List EscL.TokE) → Prop
  | .ok r4, .ok re => SimE r4.1 re.1 ∧ re.2 = l4Normalize r4.2
  | .error (.synErr _ m), .error (.synErrI _ m') => m' = m
  | _, _ => False

/-!
Helper lemmas about the Except monad, shared by the proofs below.
-/

/-- Decompose a successful bind. -/
theorem exceptBindOk {α β : Type} {x : Except Err α} {f : α → Except Err β} {b : β}
    (h : (x >>= f) = .ok b) : ∃ a, x = .ok a ∧ f a = .ok b := by
  cases x with
  | ok a => exact ⟨a, rfl, h⟩
  | error e => simp [Bind.bind, Except.bind] at h

/-- Bind of a success. -/
theorem exceptOkBind {α β : Type} {a : α} {f : α → Except Err β} :
    ((Except.ok a : Except Err α) >>= f) = f a := rfl

/-- Bind of an error. -/
theorem exceptErrBind {α β : Type} {e : Err} {f : α → Except Err β} :
    ((Except.error e : Except Err α) >>= f) = .error e := rfl

/-- C3: on the input from the specification scenario, get_value returns the
expected object, but the event emitted for the null value at path b,1 is a
begin event with no matching end event, not the Set event the claim
requires: the source decides between begin and set with
typeof value === 'object', and typeof null is 'object' in JavaScript.  The
rest of the event list is exactly as claimed. -/
theorem C3_event_kinds_eval :
    Pipe.runChunks ⟨true, none⟩ none [jstr "\x7b\"a\":1,\"b\":[true,null,\"x\"]\x7d"] =
      .ok (some (.obj [(jstr "a", .num ⟨1, 1⟩),
                       (jstr "b", .arr [.bool true, .null, .str (jstr "x")])]),
        [⟨.beginEv, []⟩,
         ⟨.setEv, [some (.inr (jstr "a"))]⟩,
         ⟨.beginEv, [some (.inr (jstr "b"))]⟩,
         ⟨.setEv, [some (.inr (jstr "b")), some (.inl 0)]⟩,
         ⟨.beginEv, [some (.inr (jstr "b")), some (.inl 1)]⟩,
         ⟨.setEv, [some (.inr (jstr "b")), some (.inl 2)]⟩,
         ⟨.endEv, [some (.inr (jstr "b"))]⟩,
         ⟨.endEv, []⟩]) := by
  set_option maxRecDepth 4000 in rfl

/-- C4: the root-frame stack invariant fails.  Pushing the input 1] pops the
synthetic root frame: the literal sets the root slot and leaves the root
frame expecting a comma, so the END_ARRAY guard (which only rejects a
non-empty array context expecting a value) lets closeArrayOrObject pop the
root, leaving an empty stack.  A subsequent close crashes with a TypeError
while reading the type of the undefined top context instead of reporting a
syntax error. -/
theorem C4_root_pop_eval :
    (Pipe.push (Pipe.PState.initial ⟨false, none⟩) (jstr "1]")).map
        (fun p => p.stack.length) = .ok 0 ∧
    Pipe.runChunks ⟨false, none⟩ none [jstr "1]"] = .error .jsTypeError := by
  refine ⟨?_, ?_⟩ <;> · set_option maxRecDepth 2000 in rfl

/-- C2 (counterexample): with the scalar placeholder true installed at the
root slot, parsing the empty object leaves the Boolean true as the final
value: START_OBJECT reuses the existing slot value because it is truthy,
although it is not an Object, so no fresh empty object is created, contrary
to the claim. -/
theorem C2_counterexample :
    Pipe.runChunks ⟨false, none⟩ (some (.bool true)) [jstr "\x7b\x7d"] =
      .ok (some (.bool true), []) ∧
    JsonValue.bool true ≠ JsonValue.obj [] := by
  refine ⟨by set_option maxRecDepth 2000 in rfl, fun h => JsonValue.noConfusion h⟩

/-- C2 (amended): when a START_OBJECT (respectively START_ARRAY) token
arrives at a slot, the value already present in the slot is reused as the
target container if and only if it is truthy in the JavaScript sense; for
every falsy slot value (undefined, null, false, zero or the empty string) a
fresh empty Object (respectively Array) is used.  In particular truthy
values of the wrong kind, such as Booleans, numbers, strings or containers
of the other kind, are also reused. -/
theorem C2_amended_reuse (p : Pipe.PState) (ctx : Pipe.Frame) (rest : List Pipe.Frame)
    (l : Loc) (slot : Option JsonValue) (p' q' : Pipe.PState)
    (hstack : p.stack = ctx :: rest)
    (hslot : Pipe.frameGetSlot ctx = .ok slot)
    (hobj : Pipe.parseToken p ⟨.startObject, l⟩ = .ok p')
    (harr : Pipe.parseToken p ⟨.startArray, l⟩ = .ok q') :
    (∃ t, p'.stack = .objF (Pipe.jsReuse slot (.obj [])) none .propertyName true [] :: t) ∧
    (∃ t, q'.stack = .arrF (Pipe.jsReuse slot (.arr [])) 0 .valueP true :: t) := by
  rw [Pipe.parseToken, hstack] at hobj harr
  simp only [hslot, exceptOkBind] at hobj harr
  constructor
  · obtain ⟨p1, hsv, hmk⟩ := exceptBindOk hobj
    cases hmk
    exact ⟨p1.stack, by simp [Pipe.jsReuse]⟩
  · obtain ⟨q1, hsv, hmk⟩ := exceptBindOk harr
    cases hmk
    exact ⟨q1.stack, by simp [Pipe.jsReuse]⟩

/-- Witness for the amended C2 theorem at a concrete state: an array context
whose current slot holds the Boolean true; both container-start tokens reuse
the Boolean. -/
theorem C2_amended_reuse_witness :
    (∃ t, (⟨Pipe.LexState.initial,
        [.objF (.bool true) none .propertyName true [],
         .arrF (.arr [.bool true]) 0 .comaP false, Pipe.rootFrame],
        [], ⟨false, none⟩, true⟩ : Pipe.PState).stack =
      .objF (Pipe.jsReuse (some (.bool true)) (.obj [])) none .propertyName true [] :: t) ∧
    (∃ t, (⟨Pipe.LexState.initial,
        [.arrF (.bool true) 0 .valueP true,
         .arrF (.arr [.bool true]) 0 .comaP false, Pipe.rootFrame],
        [], ⟨false, none⟩, true⟩ : Pipe.PState).stack =
      .arrF (Pipe.jsReuse (some (.bool true)) (.arr [])) 0 .valueP true :: t) :=
  C2_amended_reuse
    ⟨Pipe.LexState.initial, [.arrF (.arr [.bool true]) 0 .valueP false, Pipe.rootFrame],
      [], ⟨false, none⟩, true⟩
    (.arrF (.arr [.bool true]) 0 .valueP false) [Pipe.rootFrame] ⟨0, 1, 0⟩
    (some (.bool true)) _ _ rfl rfl rfl rfl

/-- C9 (counterexample): a trailing comma at the top level is accepted.  The
input consisting of the literal 1 followed by a comma and then the end of
the input parses successfully with value 1, because the synthetic root frame
is an array context and the comma merely advances it, after which close sees
a stack of length one and returns normally.  The claim requires a
SyntaxError for every comma that follows a complete value and is followed by
the end of the input. -/
theorem C9_counterexample :
    Pipe.runChunks ⟨false, none⟩ none [jstr "1,"] = .ok (some (.num ⟨1, 1⟩), []) := by
  set_option maxRecDepth 2000 in rfl

/-!
Projection and computation lemmas used to reason symbolically about the
pipeline steps.
-/

/-- updateLocation only changes the location and the CR flag. -/
theorem updateLocation_stringBuffer (s : Pipe.LexState) (c : Nat) :
    (Pipe.updateLocation s c).stringBuffer = s.stringBuffer := by
  simp only [Pipe.updateLocation]
  split_ifs <;> rfl

/-- updateLocation only changes the location and the CR flag. -/
theorem updateLocation_escBuffer (s : Pipe.LexState) (c : Nat) :
    (Pipe.updateLocation s c).escapeSequenceBuffer = s.escapeSequenceBuffer := by
  simp only [Pipe.updateLocation]
  split_ifs <;> rfl

/-- updateLocation only changes the location and the CR flag. -/
theorem updateLocation_literalBuffer (s : Pipe.LexState) (c : Nat) :
    (Pipe.updateLocation s c).literalBuffer = s.literalBuffer := by
  simp only [Pipe.updateLocation]
  split_ifs <;> rfl

/-- updateLocation only changes the location and the CR flag. -/
theorem updateLocation_litStart (s : Pipe.LexState) (c : Nat) :
    (Pipe.updateLocation s c).literalBufferStartLocation = s.literalBufferStartLocation := by
  simp only [Pipe.updateLocation]
  split_ifs <;> rfl

/-- updateLocation only changes the location and the CR flag. -/
theorem updateLocation_isClosed (s : Pipe.LexState) (c : Nat) :
    (Pipe.updateLocation s c).isClosed = s.isClosed := by
  simp only [Pipe.updateLocation]
  split_ifs <;> rfl

/-- flushState with no pending literal only clears the CR flag. -/
theorem flushState_noLit {s : Pipe.LexState} (h : s.literalBuffer = none) :
    Pipe.flushState s = .ok ({ s with lastCharIsCR := false }, []) := by
  rw [Pipe.flushState, h]

/-- flushString outside a string does nothing. -/
theorem flushString_noStr {s : Pipe.LexState} (h : s.stringBuffer = none) :
    Pipe.flushString s = (s, []) := by
  rw [Pipe.flushString, h]

/-- A whitespace character outside of a string and with no pending literal
produces no token and only updates the location. -/
theorem lexChar_ws {s : Pipe.LexState} {c : Nat} (hws : isWsMainChar c = true)
    (hsb : s.stringBuffer = none) (hlit : s.literalBuffer = none) :
    Pipe.lexChar s c = .ok ({ Pipe.updateLocation s c with lastCharIsCR := false }, []) := by
  have hsb' : (Pipe.updateLocation s c).stringBuffer = none := by
    rw [updateLocation_stringBuffer, hsb]
  have hlit' : (Pipe.updateLocation s c).literalBuffer = none := by
    rw [updateLocation_literalBuffer, hlit]
  rw [Pipe.lexChar]
  rw [hsb']
  have : ∀ s' : Pipe.LexState, s'.literalBuffer = none → Pipe.lexMain s' c =
      .ok ({ s' with lastCharIsCR := false }, []) := by
    intro s' h'
    simp only [isWsMainChar, Bool.or_eq_true, beq_iff_eq] at hws
    rcases hws with ((h | h) | h) | h <;> subst h <;>
      simp [Pipe.lexMain, flushState_noLit h', isWsMainChar, exceptOkBind]
  exact this _ hlit'

/-- Closing a lexer that has no pending literal and is outside of a string
succeeds with no tokens, only marking it closed. -/
theorem lexClose_clean {s : Pipe.LexState} (hlit : s.literalBuffer = none)
    (hstr : s.stringBuffer = none) :
    Pipe.lexClose s = .ok ({ s with isClosed := true, lastCharIsCR := false }, []) := by
  rw [Pipe.lexClose,
    flushState_noLit (show ({ s with isClosed := true } : Pipe.LexState).literalBuffer = none from hlit),
    exceptOkBind]
  simp only [hstr]

/-- The incomplete-string step does nothing when the top of the stack is not
a string context. -/
theorem includeIncompleteStep_notStr (p : Pipe.PState) (T : Pipe.Frame)
    (rest : List Pipe.Frame) (hstack : p.stack = T :: rest)
    (hnotstr : ∀ v, T ≠ .strF v) :
    Pipe.includeIncompleteStep p = .ok p := by
  rw [Pipe.includeIncompleteStep]
  cases hinc : p.opts.includeIncompleteStrings with
  | none => rfl
  | some suf =>
    simp only [hstack]
    cases rest with
    | nil => rfl
    | cons r rs =>
      cases T with
      | strF v => exact absurd rfl (hnotstr v)
      | arrF a b c d => rfl
      | objF a b c d e => rfl

/-- With a clean lexer (no pending literal, not inside a string) and a
non-string frame on top of at least two stack entries, close fails with
Unterminated followed by the context type name of the top frame. -/
theorem close_unterminated (p : Pipe.PState) (T r1 : Pipe.Frame) (rest1 : List Pipe.Frame)
    (hstack : p.stack = T :: r1 :: rest1)
    (hnotstr : ∀ v, T ≠ .strF v)
    (hlit : p.lex.literalBuffer = none) (hstr : p.lex.stringBuffer = none) :
    Pipe.close p = .error (.synErr p.lex.loc (jstr "Unterminated " ++ Pipe.ctxTypeName T)) := by
  rw [Pipe.close, lexClose_clean hlit hstr, exceptOkBind]
  rw [show Pipe.parseTokens { p with lex := { p.lex with isClosed := true, lastCharIsCR := false } } [] = .ok _ from rfl, exceptOkBind]
  rw [includeIncompleteStep_notStr _ T (r1 :: rest1) (by simpa using hstack) hnotstr, exceptOkBind]
  rw [Pipe.stackCheck]
  simp only [hstack]

/-- Processing an empty token list does nothing. -/
theorem parseTokens_nil (q : Pipe.PState) : Pipe.parseTokens q [] = .ok q := rfl

/-- Lexing no characters does nothing. -/
theorem lexChars_nil (s : Pipe.LexState) : Pipe.lexChars s [] = .ok (s, []) := rfl

/-- Unfolding lemma for lexing one more character. -/
theorem lexChars_cons (s : Pipe.LexState) (c : Nat) (cs : JStr) :
    Pipe.lexChars s (c :: cs) =
      (do
        let r1 ← Pipe.lexChar s c
        let r2 ← Pipe.lexChars r1.1 cs
        .ok (r2.1, r1.2 ++ r2.2)) := rfl

/-- Pushing a single whitespace character with a clean, open lexer and a
non-string frame on top changes nothing but the lexer location. -/
theorem push_ws (p : Pipe.PState) (c : Nat) (T : Pipe.Frame) (rest : List Pipe.Frame)
    (hstack : p.stack = T :: rest) (hnotstr : ∀ v, T ≠ .strF v)
    (hws : isWsMainChar c = true)
    (hlit : p.lex.literalBuffer = none) (hstr : p.lex.stringBuffer = none)
    (hopen : p.lex.isClosed = false) :
    Pipe.push p [c] =
      .ok { p with lex := { Pipe.updateLocation p.lex c with lastCharIsCR := false } } := by
  have hL : ({ Pipe.updateLocation p.lex c with lastCharIsCR := false} : Pipe.LexState).stringBuffer = none := by
    simp only [updateLocation_stringBuffer, hstr]
  rw [Pipe.push]
  simp only [hopen, Bool.false_eq_true, if_false]
  rw [lexChars_cons, lexChar_ws hws hstr hlit, exceptOkBind, lexChars_nil, exceptOkBind,
    exceptOkBind]
  simp only [List.append_nil]
  rw [flushString_noStr hL]
  simp only [parseTokens_nil, exceptOkBind]
  exact includeIncompleteStep_notStr _ T rest (by simpa using hstack) hnotstr

/-- C9 (amended): inside a proper array or object context (not the synthetic
root frame), a comma that follows a complete value and is followed, up to
whitespace, by the closing bracket or brace of its container or by the end
of the input is rejected with a SyntaxError: the matching END_ARRAY or
END_OBJECT token fails with Unexpected token, whitespace leaves the parser
state unchanged apart from the lexer location, and close fails with
Unterminated array or object.  At the top level, by contrast, a trailing
comma before the end of the input is accepted, as the counterexample
shows. -/
theorem C9_amended_trailing_comma (p : Pipe.PState) (f : Pipe.Frame)
    (rest : List Pipe.Frame) (l1 l2 : Loc) (p' : Pipe.PState)
    (hstack : p.stack = f :: rest)
    (hroot : rest ≠ [])
    (hcoma : Pipe.parseToken p ⟨.comaT, l1⟩ = .ok p')
    (hlit : p.lex.literalBuffer = none)
    (hstr : p.lex.stringBuffer = none)
    (hopen : p.lex.isClosed = false) :
    (∀ v k, f = .arrF v k .comaP false →
      Pipe.parseToken p' ⟨.endArray, l2⟩ = .error (Pipe.unexpectedTokenError ⟨.endArray, l2⟩) ∧
      Pipe.close p' = .error (.synErr p.lex.loc (jstr "Unterminated array"))) ∧
    (∀ v k pn, f = .objF v k .comaP false pn →
      Pipe.parseToken p' ⟨.endObject, l2⟩ = .error (Pipe.unexpectedTokenError ⟨.endObject, l2⟩) ∧
      Pipe.close p' = .error (.synErr p.lex.loc (jstr "Unterminated object"))) ∧
    (∀ c, isWsMainChar c = true → ∃ l', Pipe.push p' [c] = .ok { p' with lex := l' }) := by
  obtain ⟨r1, rest1, hrest⟩ : ∃ r1 rest1, rest = r1 :: rest1 := by
    cases rest with
    | nil => exact absurd rfl hroot
    | cons a b => exact ⟨a, b, rfl⟩
  subst hrest
  have hp' : p' = { p with stack := Pipe.nextArrayItemOrObjectProperty f :: r1 :: rest1 } ∧
      f.expectedOf = some .comaP := by
    rw [Pipe.parseToken, hstack] at hcoma
    cases f with
    | strF v => simp at hcoma
    | arrF v k e ie =>
      simp only [Pipe.Frame.expectedOf] at hcoma ⊢
      split at hcoma
      · cases hcoma
        exact ⟨rfl, by assumption⟩
      · cases hcoma
    | objF v k e ie pn =>
      simp only [Pipe.Frame.expectedOf] at hcoma ⊢
      split at hcoma
      · cases hcoma
        exact ⟨rfl, by assumption⟩
      · cases hcoma
  obtain ⟨hp', hexp⟩ := hp'
  subst hp'
  have hne : ∀ v, Pipe.nextArrayItemOrObjectProperty f ≠ .strF v := by
    intro v hv
    cases f with
    | strF w => simp [Pipe.Frame.expectedOf] at hexp
    | arrF a b c d => simp [Pipe.nextArrayItemOrObjectProperty] at hv
    | objF a b c d e => simp [Pipe.nextArrayItemOrObjectProperty] at hv
  refine ⟨?_, ?_, ?_⟩
  · rintro v k rfl
    refine ⟨rfl, ?_⟩
    exact close_unterminated
      { p with stack := Pipe.nextArrayItemOrObjectProperty (.arrF v k .comaP false) :: r1 :: rest1 }
      (Pipe.nextArrayItemOrObjectProperty (.arrF v k .comaP false)) r1 rest1 rfl
      (by intro w h; simp [Pipe.nextArrayItemOrObjectProperty] at h) hlit hstr
  · rintro v k pn rfl
    refine ⟨rfl, ?_⟩
    exact close_unterminated
      { p with stack := Pipe.nextArrayItemOrObjectProperty (.objF v k .comaP false pn) :: r1 :: rest1 }
      (Pipe.nextArrayItemOrObjectProperty (.objF v k .comaP false pn)) r1 rest1 rfl
      (by intro w h; simp [Pipe.nextArrayItemOrObjectProperty] at h) hlit hstr
  · intro c hws
    exact ⟨_, push_ws
      { p with stack := Pipe.nextArrayItemOrObjectProperty f :: r1 :: rest1 }
      c (Pipe.nextArrayItemOrObjectProperty f) (r1 :: rest1) rfl hne hws hlit hstr hopen⟩

/-- Witness for the amended C9 theorem: a concrete array context holding one
value, right after its comma; the closing bracket and close are rejected and
a space is invisible. -/
theorem C9_amended_trailing_comma_witness :
    (∀ v k, Pipe.Frame.arrF (.arr [.num ⟨1, 1⟩]) 0 .comaP false = .arrF v k .comaP false →
      Pipe.parseToken
          (⟨Pipe.LexState.initial, [.arrF (.arr [.num ⟨1, 1⟩]) 1 .valueP false, Pipe.rootFrame],
            [], ⟨false, none⟩, false⟩ : Pipe.PState) ⟨.endArray, ⟨2, 1, 2⟩⟩ =
        .error (Pipe.unexpectedTokenError ⟨.endArray, ⟨2, 1, 2⟩⟩) ∧
      Pipe.close
          (⟨Pipe.LexState.initial, [.arrF (.arr [.num ⟨1, 1⟩]) 1 .valueP false, Pipe.rootFrame],
            [], ⟨false, none⟩, false⟩ : Pipe.PState) =
        .error (.synErr (⟨Pipe.LexState.initial, [.arrF (.arr [.num ⟨1, 1⟩]) 0 .comaP false,
            Pipe.rootFrame], [], ⟨false, none⟩, false⟩ : Pipe.PState).lex.loc
          (jstr "Unterminated array"))) ∧
    (∀ v k pn, Pipe.Frame.arrF (.arr [.num ⟨1, 1⟩]) 0 .comaP false = .objF v k .comaP false pn →
      Pipe.parseToken
          (⟨Pipe.LexState.initial, [.arrF (.arr [.num ⟨1, 1⟩]) 1 .valueP false, Pipe.rootFrame],
            [], ⟨false, none⟩, false⟩ : Pipe.PState) ⟨.endObject, ⟨2, 1, 2⟩⟩ =
        .error (Pipe.unexpectedTokenError ⟨.endObject, ⟨2, 1, 2⟩⟩) ∧
      Pipe.close
          (⟨Pipe.LexState.initial, [.arrF (.arr [.num ⟨1, 1⟩]) 1 .valueP false, Pipe.rootFrame],
            [], ⟨false, none⟩, false⟩ : Pipe.PState) =
        .error (.synErr (⟨Pipe.LexState.initial, [.arrF (.arr [.num ⟨1, 1⟩]) 0 .comaP false,
            Pipe.rootFrame], [], ⟨false, none⟩, false⟩ : Pipe.PState).lex.loc
          (jstr "Unterminated object"))) ∧
    (∀ c, isWsMainChar c = true → ∃ l',
      Pipe.push
          (⟨Pipe.LexState.initial, [.arrF (.arr [.num ⟨1, 1⟩]) 1 .valueP false, Pipe.rootFrame],
            [], ⟨false, none⟩, false⟩ : Pipe.PState) [c] =
        .ok { (⟨Pipe.LexState.initial, [.arrF (.arr [.num ⟨1, 1⟩]) 1 .valueP false, Pipe.rootFrame],
            [], ⟨false, none⟩, false⟩ : Pipe.PState) with lex := l' }) :=
  C9_amended_trailing_comma
    ⟨Pipe.LexState.initial, [.arrF (.arr [.num ⟨1, 1⟩]) 0 .comaP false, Pipe.rootFrame],
      [], ⟨false, none⟩, false⟩
    (.arrF (.arr [.num ⟨1, 1⟩]) 0 .comaP false) [Pipe.rootFrame] ⟨2, 1, 2⟩ ⟨2, 1, 2⟩
    ⟨Pipe.LexState.initial, [.arrF (.arr [.num ⟨1, 1⟩]) 1 .valueP false, Pipe.rootFrame],
      [], ⟨false, none⟩, false⟩
    rfl (List.cons_ne_nil _ _) rfl rfl rfl rfl

/-- pushEvent never changes the stack. -/
theorem pushEvent_stack (p : Pipe.PState) (t : Pipe.EvT) :
    (Pipe.pushEvent p t).stack = p.stack := by
  rw [Pipe.pushEvent]
  split <;> rfl

/-- pushEvent appends one event when tracking and nothing otherwise. -/
theorem pushEvent_events (p : Pipe.PState) (t : Pipe.EvT) :
    (Pipe.pushEvent p t).events =
      p.events ++ (if p.opts.trackEvents then [⟨t, Pipe.getPath p.stack⟩] else []) := by
  rw [Pipe.pushEvent]
  split <;> simp_all

/-- pushEvent never changes the lexer, the options or the placeholder flag. -/
theorem pushEvent_lex (p : Pipe.PState) (t : Pipe.EvT) :
    (Pipe.pushEvent p t).lex = p.lex ∧ (Pipe.pushEvent p t).opts = p.opts ∧
    (Pipe.pushEvent p t).hasPlaceholder = p.hasPlaceholder := by
  rw [Pipe.pushEvent]
  split <;> exact ⟨rfl, rfl, rfl⟩

/-- A successful setIncompleteValue leaves the expected piece of the frame
unchanged. -/
theorem setIncompleteValueF_expectedOf {c2 f' : Pipe.Frame} {x : JsonValue} {l : Loc}
    (h : Pipe.setIncompleteValueF c2 x l = .ok f') : f'.expectedOf = c2.expectedOf := by
  rw [Pipe.setIncompleteValueF] at h
  split at h
  · obtain ⟨g, hg, hcl⟩ := exceptBindOk h
    cases hcl
    cases c2 with
    | strF v => simp [Pipe.frameSetSlot] at hg
    | arrF v k e ie =>
      rw [Pipe.frameSetSlot] at hg
      obtain ⟨w, hw, hok⟩ := exceptBindOk hg
      cases hok
      rfl
    | objF v k e ie pn =>
      rw [Pipe.frameSetSlot] at hg
      obtain ⟨w, hw, hok⟩ := exceptBindOk hg
      cases hok
      rfl
  · cases h

/-- C6: at the end of each push (and at close), when include_incomplete_strings
is enabled and the top of the stack is a string context whose parent is not an
object awaiting a property name, the accumulated buffer followed by the
configured suffix is written into the parent slot through setIncompleteValue;
the effect on the parent frame is exactly that of setValue except that the
expected piece is left unchanged and no event is appended to the event
log. -/
theorem C6_incomplete_surfacing (p : Pipe.PState) (suffix v : JStr) (c2 : Pipe.Frame)
    (rs : List Pipe.Frame) (q' : Pipe.PState)
    (hinc : p.opts.includeIncompleteStrings = some suffix)
    (hstack : p.stack = .strF v :: c2 :: rs)
    (hname : Pipe.expectObjectPropertyName c2 = false)
    (hset : Pipe.setValue { p with stack := c2 :: rs } (.str (v ++ suffix)) p.lex.loc = .ok q') :
    ∃ f', Pipe.setIncompleteValueF c2 (.str (v ++ suffix)) p.lex.loc = .ok f' ∧
      Pipe.includeIncompleteStep p = .ok { p with stack := .strF v :: f' :: rs } ∧
      q'.stack = Pipe.setExpected f' .comaP :: rs ∧
      f'.expectedOf = c2.expectedOf ∧
      q'.events = p.events ++
        (if p.opts.trackEvents then [⟨.setEv, Pipe.getPath q'.stack⟩] else []) := by
  rw [Pipe.setValue] at hset
  simp only [] at hset
  obtain ⟨f', hf', hok⟩ := exceptBindOk hset
  cases hok
  refine ⟨f', hf', ?_, ?_, setIncompleteValueF_expectedOf hf', ?_⟩
  · rw [Pipe.includeIncompleteStep, hinc, hstack]
    simp only [hname, Bool.false_eq_true, if_false, hf', exceptOkBind]
  · rw [pushEvent_stack]
  · simp [pushEvent_events, pushEvent_stack, JsonValue.typeofIsObject]

/-- Witness for the C6 theorem at a concrete state: an in-progress string
inside an array context, with tracking enabled and suffix dots. -/
theorem C6_incomplete_surfacing_witness :
    ∃ f', Pipe.setIncompleteValueF (.arrF (.arr []) 0 .valueP true)
        (.str (jstr "he" ++ jstr "...")) Pipe.LexState.initial.loc = .ok f' ∧
      Pipe.includeIncompleteStep
          (⟨Pipe.LexState.initial,
            [.strF (jstr "he"), .arrF (.arr []) 0 .valueP true, Pipe.rootFrame],
            [], ⟨true, some (jstr "...")⟩, false⟩ : Pipe.PState) =
        .ok { (⟨Pipe.LexState.initial,
            [.strF (jstr "he"), .arrF (.arr []) 0 .valueP true, Pipe.rootFrame],
            [], ⟨true, some (jstr "...")⟩, false⟩ : Pipe.PState) with
          stack := .strF (jstr "he") :: f' :: [Pipe.rootFrame] } ∧
      (⟨Pipe.LexState.initial,
        [.arrF (.arr [.str (jstr "he...")]) 0 .comaP false, Pipe.rootFrame],
        [⟨.setEv, [some (.inl 0)]⟩], ⟨true, some (jstr "...")⟩, false⟩ : Pipe.PState).stack =
        Pipe.setExpected f' .comaP :: [Pipe.rootFrame] ∧
      f'.expectedOf = (Pipe.Frame.arrF (.arr []) 0 .valueP true).expectedOf ∧
      (⟨Pipe.LexState.initial,
        [.arrF (.arr [.str (jstr "he...")]) 0 .comaP false, Pipe.rootFrame],
        [⟨.setEv, [some (.inl 0)]⟩], ⟨true, some (jstr "...")⟩, false⟩ : Pipe.PState).events =
        (⟨Pipe.LexState.initial,
          [.strF (jstr "he"), .arrF (.arr []) 0 .valueP true, Pipe.rootFrame],
          [], ⟨true, some (jstr "...")⟩, false⟩ : Pipe.PState).events ++
        (if (⟨Pipe.LexState.initial,
            [.strF (jstr "he"), .arrF (.arr []) 0 .valueP true, Pipe.rootFrame],
            [], ⟨true, some (jstr "...")⟩, false⟩ : Pipe.PState).opts.trackEvents then
          [⟨.setEv, Pipe.getPath (⟨Pipe.LexState.initial,
            [.arrF (.arr [.str (jstr "he...")]) 0 .comaP false, Pipe.rootFrame],
            [⟨.setEv, [some (.inl 0)]⟩], ⟨true, some (jstr "...")⟩, false⟩ : Pipe.PState).stack⟩]
        else []) :=
  C6_incomplete_surfacing
    ⟨Pipe.LexState.initial, [.strF (jstr "he"), .arrF (.arr []) 0 .valueP true, Pipe.rootFrame],
      [], ⟨true, some (jstr "...")⟩, false⟩
    (jstr "...") (jstr "he") (.arrF (.arr []) 0 .valueP true) [Pipe.rootFrame]
    ⟨Pipe.LexState.initial,
      [.arrF (.arr [.str (jstr "he...")]) 0 .comaP false, Pipe.rootFrame],
      [⟨.setEv, [some (.inl 0)]⟩], ⟨true, some (jstr "...")⟩, false⟩
    rfl rfl rfl (by set_option maxRecDepth 2000 in rfl)

/-- The four-mode updateLocation only changes location fields and the CR
flag. -/
theorem l4_updateLocation_mode (s : L4.St) (c : Nat) :
    (L4.updateLocation s c).mode = s.mode := by
  simp only [L4.updateLocation, L4.updateLocationForNewLine]
  split_ifs <;> rfl

/-- The four-mode updateLocation only changes location fields and the CR
flag. -/
theorem l4_updateLocation_stringBuffer (s : L4.St) (c : Nat) :
    (L4.updateLocation s c).stringBuffer = s.stringBuffer := by
  simp only [L4.updateLocation, L4.updateLocationForNewLine]
  split_ifs <;> rfl

/-- The four-mode updateLocation only changes location fields and the CR
flag. -/
theorem l4_updateLocation_unicodeBuffer (s : L4.St) (c : Nat) :
    (L4.updateLocation s c).unicodeBuffer = s.unicodeBuffer := by
  simp only [L4.updateLocation, L4.updateLocationForNewLine]
  split_ifs <;> rfl

/-- The four-mode updateLocation only changes location fields and the CR
flag. -/
theorem l4_updateLocation_literalBuffer (s : L4.St) (c : Nat) :
    (L4.updateLocation s c).literalBuffer = s.literalBuffer := by
  simp only [L4.updateLocation, L4.updateLocationForNewLine]
  split_ifs <;> rfl

/-- C7 (counterexample): the payload 1zzz is not a valid four-hex-digit
numeral, yet the four-mode lexer accepts the input containing the escape
backslash-u-1zzz: parseInt parses the longest hex prefix 1, the code unit 1
is appended, and the string lexes successfully to an END_STRING token whose
payload is the single code unit 1 instead of failing with Illegal escape
sequence as the claim requires. -/
theorem C7_counterexample :
    L4.runTokens (jstr "\"\\u1zzz\"") = .ok [.startString, .endString [1]] := by
  set_option maxRecDepth 2000 in rfl

/-- C7 (amended): when the fourth character of a unicode escape payload
arrives, the payload is parsed with the JavaScript parseInt semantics at
radix 16 (optional whitespace, sign and 0x prefix, then the longest hex
digit prefix); when parseInt yields a number the code unit ToUint16 of it is
appended to the string buffer and the lexer returns to String mode, and only
when parseInt yields NaN (no hex digit found) does the lexer fail with
Illegal escape sequence citing the four-character payload. -/
theorem C7_amended_parseInt (s : L4.St) (u3 : JStr) (c : Nat)
    (hmode : s.mode = .uniM) (hbuf : s.unicodeBuffer = u3) (hlen : u3.length = 3) :
    L4.lex s c =
      (match jsParseIntHex (u3 ++ [c]) with
       | some n => .ok ({ L4.updateLocation s c with
            unicodeBuffer := u3 ++ [c]
            stringBuffer := s.stringBuffer ++ [toUint16 n]
            mode := .strM }, [])
       | none => .error (.synErr (L4.updateLocation s c).loc
            (jstr "Illegal escape sequence: \\u" ++ (u3 ++ [c])))) := by
  rw [L4.lex]
  rw [show (L4.updateLocation s c).mode = L4.Mode.uniM from (l4_updateLocation_mode s c).trans hmode]
  rw [L4.lexUni4, l4_updateLocation_unicodeBuffer, hbuf]
  rw [show ((u3 ++ [c]).length == 4) = true from by simp [hlen]]
  rw [if_pos rfl]
  cases h : jsParseIntHex (u3 ++ [c]) with
  | some n => simp [l4_updateLocation_stringBuffer]
  | none => simp

/-- Witness for the amended C7 theorem at the concrete payload 0041, whose
parse succeeds with code unit 65. -/
theorem C7_amended_parseInt_witness :
    L4.lex (⟨.uniM, [], jstr "004", none, ⟨0, 1, 0⟩, 0, false⟩ : L4.St) '1'.toNat =
      (match jsParseIntHex (jstr "004" ++ ['1'.toNat]) with
       | some n => .ok ({ L4.updateLocation
            (⟨.uniM, [], jstr "004", none, ⟨0, 1, 0⟩, 0, false⟩ : L4.St) '1'.toNat with
            unicodeBuffer := jstr "004" ++ ['1'.toNat]
            stringBuffer := (⟨.uniM, [], jstr "004", none, ⟨0, 1, 0⟩, 0, false⟩ : L4.St).stringBuffer ++ [toUint16 n]
            mode := .strM }, [])
       | none => .error (.synErr (L4.updateLocation
            (⟨.uniM, [], jstr "004", none, ⟨0, 1, 0⟩, 0, false⟩ : L4.St) '1'.toNat).loc
            (jstr "Illegal escape sequence: \\u" ++ (jstr "004" ++ ['1'.toNat])))) :=
  C7_amended_parseInt ⟨.uniM, [], jstr "004", none, ⟨0, 1, 0⟩, 0, false⟩ (jstr "004")
    '1'.toNat rfl rfl rfl

/-- C8: whenever the buffered literal fails to decode (it is none of null,
true, false and the Number conversion is not finite), the four-mode lexer
fails with Unknown literal value, and the reported location is obtained by
rewinding the current location by the literal length in columns: within the
current line only the column is reduced, and otherwise exactly one prior
line boundary is crossed using the recorded last line length.  The error is
raised identically whether the flush is triggered by a structural character,
an opening quote, whitespace, or by close. -/
theorem C8_unknown_literal_location (s : L4.St) (buf : JStr)
    (hlit : s.literalBuffer = some buf)
    (hdecode : getLiteralBufferValue buf = none) :
    (L4.flushLiteral s = .error (.synErr (L4.getLocationMinusColumns s buf.length)
        (jstr "Unknown literal value: " ++ buf))) ∧
    ((buf.length : Int) ≤ s.loc.column →
      L4.getLocationMinusColumns s buf.length =
        ⟨s.loc.index, s.loc.line, s.loc.column - buf.length⟩) ∧
    (¬ ((buf.length : Int) ≤ s.loc.column) →
      L4.getLocationMinusColumns s buf.length =
        ⟨s.loc.index - buf.length, s.loc.line - 1,
         s.loc.column + s.lastLineLength - buf.length⟩) ∧
    (s.mode = .mainM → ∀ c, (c = '{'.toNat ∨ c = '}'.toNat ∨ c = '['.toNat ∨ c = ']'.toNat ∨
        c = ','.toNat ∨ c = ':'.toNat ∨ c = '"'.toNat ∨ isWsMainChar c = true) →
      L4.lex s c = .error (.synErr
        (L4.getLocationMinusColumns (L4.updateLocation s c) buf.length)
        (jstr "Unknown literal value: " ++ buf))) ∧
    (s.mode = .mainM → L4.close s = .error (.synErr (L4.getLocationMinusColumns s buf.length)
        (jstr "Unknown literal value: " ++ buf))) := by
  have hflush : ∀ t : L4.St, t.literalBuffer = some buf →
      L4.flushLiteral t = .error (.synErr (L4.getLocationMinusColumns t buf.length)
        (jstr "Unknown literal value: " ++ buf)) := by
    intro t ht
    simp only [L4.flushLiteral, ht, hdecode]
  refine ⟨hflush s hlit, ?_, ?_, ?_, ?_⟩
  · intro h
    rw [L4.getLocationMinusColumns, if_pos h]
  · intro h
    rw [L4.getLocationMinusColumns, if_neg h]
  · intro hmode c hc
    have hupd : (L4.updateLocation s c).literalBuffer = some buf := by
      rw [l4_updateLocation_literalBuffer, hlit]
    rw [L4.lex]
    rw [show (L4.updateLocation s c).mode = L4.Mode.mainM from
      (l4_updateLocation_mode s c).trans hmode]
    have hfl := hflush _ hupd
    rcases hc with h | h | h | h | h | h | h | h
    · subst h; rw [L4.lexMain4, if_pos (by decide), hfl]; rfl
    · subst h
      rw [L4.lexMain4, if_neg (by decide), if_pos (by decide), hfl]; rfl
    · subst h
      rw [L4.lexMain4, if_neg (by decide), if_neg (by decide), if_pos (by decide), hfl]; rfl
    · subst h
      rw [L4.lexMain4, if_neg (by decide), if_neg (by decide), if_neg (by decide),
        if_pos (by decide), hfl]; rfl
    · subst h
      rw [L4.lexMain4, if_neg (by decide), if_neg (by decide), if_neg (by decide),
        if_neg (by decide), if_pos (by decide), hfl]; rfl
    · subst h
      rw [L4.lexMain4, if_neg (by decide), if_neg (by decide), if_neg (by decide),
        if_neg (by decide), if_neg (by decide), if_pos (by decide), hfl]; rfl
    · subst h
      rw [L4.lexMain4, if_neg (by decide), if_neg (by decide), if_neg (by decide),
        if_neg (by decide), if_neg (by decide), if_neg (by decide), if_pos (by decide), hfl]; rfl
    · simp only [isWsMainChar, Bool.or_eq_true, beq_iff_eq] at h
      rcases h with ((h | h) | h) | h <;> subst h <;>
        · rw [L4.lexMain4]
          repeat rw [if_neg (by decide)]
          rw [if_pos (by decide), hfl]
  · intro hmode
    rw [L4.close, if_neg (by simp [hmode]), hflush s hlit]

/-- Witness for the C8 theorem at the concrete buffered literal tru (as in
the unit test with the invalid boolean). -/
theorem C8_unknown_literal_location_witness :
    (L4.flushLiteral (⟨.mainM, [], [], some (jstr "tru"), ⟨24, 2, 24⟩, 25, false⟩ : L4.St) =
      .error (.synErr (L4.getLocationMinusColumns
          (⟨.mainM, [], [], some (jstr "tru"), ⟨24, 2, 24⟩, 25, false⟩ : L4.St) (jstr "tru").length)
        (jstr "Unknown literal value: " ++ jstr "tru"))) ∧
    (((jstr "tru").length : Int) ≤ (24 : Int) →
      L4.getLocationMinusColumns
          (⟨.mainM, [], [], some (jstr "tru"), ⟨24, 2, 24⟩, 25, false⟩ : L4.St)
          (jstr "tru").length = ⟨24, 2, 24 - (jstr "tru").length⟩) ∧
    (¬ (((jstr "tru").length : Int) ≤ (24 : Int)) →
      L4.getLocationMinusColumns
          (⟨.mainM, [], [], some (jstr "tru"), ⟨24, 2, 24⟩, 25, false⟩ : L4.St)
          (jstr "tru").length =
        ⟨24 - (jstr "tru").length, 2 - 1, 24 + 25 - (jstr "tru").length⟩) ∧
    ((⟨.mainM, [], [], some (jstr "tru"), ⟨24, 2, 24⟩, 25, false⟩ : L4.St).mode = .mainM →
      ∀ c, (c = '{'.toNat ∨ c = '}'.toNat ∨ c = '['.toNat ∨ c = ']'.toNat ∨
        c = ','.toNat ∨ c = ':'.toNat ∨ c = '"'.toNat ∨ isWsMainChar c = true) →
      L4.lex (⟨.mainM, [], [], some (jstr "tru"), ⟨24, 2, 24⟩, 25, false⟩ : L4.St) c =
        .error (.synErr (L4.getLocationMinusColumns
            (L4.updateLocation (⟨.mainM, [], [], some (jstr "tru"), ⟨24, 2, 24⟩, 25, false⟩ : L4.St) c)
            (jstr "tru").length)
          (jstr "Unknown literal value: " ++ jstr "tru"))) ∧
    ((⟨.mainM, [], [], some (jstr "tru"), ⟨24, 2, 24⟩, 25, false⟩ : L4.St).mode = .mainM →
      L4.close (⟨.mainM, [], [], some (jstr "tru"), ⟨24, 2, 24⟩, 25, false⟩ : L4.St) =
        .error (.synErr (L4.getLocationMinusColumns
            (⟨.mainM, [], [], some (jstr "tru"), ⟨24, 2, 24⟩, 25, false⟩ : L4.St)
            (jstr "tru").length)
          (jstr "Unknown literal value: " ++ jstr "tru"))) :=
  C8_unknown_literal_location ⟨.mainM, [], [], some (jstr "tru"), ⟨24, 2, 24⟩, 25, false⟩
    (jstr "tru") rfl (by rfl)

/-- Once the four-mode lexer is in unicode mode with a buffer of length at
least four, no sequence of characters and flushes can ever leave unicode
mode: the buffer grows and its length never equals four again. -/
theorem l4_stuck (plan : List (Option Nat)) : ∀ (s : L4.St) r,
    s.mode = .uniM → 4 ≤ s.unicodeBuffer.length →
    L4.feedPlan s plan = .ok r → r.1.mode = .uniM ∧ 4 ≤ r.1.unicodeBuffer.length := by
  induction plan with
  | nil =>
    intro s r hm hu h
    cases h
    exact ⟨hm, hu⟩
  | cons o rest ih =>
    intro s r hm hu h
    cases o with
    | some c =>
      rw [L4.feedPlan] at h
      obtain ⟨r1, hr1, h2⟩ := exceptBindOk h
      obtain ⟨r2, hr2, h3⟩ := exceptBindOk h2
      cases h3
      rw [L4.lex, show (L4.updateLocation s c).mode = L4.Mode.uniM from
        (l4_updateLocation_mode s c).trans hm, L4.lexUni4] at hr1
      rw [l4_updateLocation_unicodeBuffer] at hr1
      rw [if_neg (by simp; omega)] at hr1
      cases hr1
      refine ih { L4.updateLocation s c with unicodeBuffer := s.unicodeBuffer ++ [c] } r2
        ((l4_updateLocation_mode s c).trans hm) ?_ hr2
      simp only [List.length_append, List.length_cons, List.length_nil]
      omega
    | none =>
      rw [L4.feedPlan] at h
      rw [show L4.flush s = ({ s with stringBuffer := [] }, [.strChunk s.stringBuffer]) from ?_] at h
      · simp only [Except.map] at h
        cases hr : L4.feedPlan { s with stringBuffer := [] } rest with
        | error e => rw [hr] at h; cases h
        | ok r2 =>
          rw [hr] at h
          cases h
          exact ih { s with stringBuffer := [] } r2 hm hu hr
      · rw [L4.flush, L4.flushStringTok, if_pos (by simp [hm])]
        rfl

/-- strPayloads distributes over append. -/
theorem strPayloads_append (a b : List L4.Tok4) :
    L4.strPayloads (a ++ b) = L4.strPayloads a ++ L4.strPayloads b := by
  simp [L4.strPayloads]

/-- strPayloads of a singleton chunk. -/
theorem strPayloads_chunk (x : JStr) : L4.strPayloads [.strChunk x] = x := by
  simp [L4.strPayloads, L4.strPayload]

/-- The running-total invariant of the four-mode lexer against the
specification decoder: starting inside a string in a state synchronised with
a decoder pending state, feeding any mix of characters and chunk-boundary
flushes that ends back in String mode makes the emitted string payloads plus
the final buffer equal the initial buffer plus the decoded content. -/
theorem l4_decode_total (plan : List (Option Nat)) : ∀ (s : L4.St) (d : Pend)
    (s₁ : L4.St) (toks : List L4.Tok4) (u : JStr),
    L4sync s d →
    L4.feedPlan s plan = .ok (s₁, toks) →
    specDecodeFrom d (L4.charsOf plan) = some u →
    s₁.mode = .strM →
    L4.strPayloads toks ++ s₁.stringBuffer = s.stringBuffer ++ u := by
  induction plan with
  | nil =>
    intro s d s₁ toks u hsync hfeed hdec hmode
    cases hfeed
    cases d with
    | strP =>
      simp only [L4.charsOf, List.filterMap_nil, specDecodeFrom, Option.some.injEq] at hdec
      subst hdec
      simp [L4.strPayloads]
    | escP => simp [L4.charsOf, specDecodeFrom] at hdec
    | uniP got => simp [L4.charsOf, specDecodeFrom] at hdec
  | cons o rest ih =>
    intro s d s₁ toks u hsync hfeed hdec hmode
    cases o with
    | none =>
      have hmm : s.mode ≠ .mainM := by
        cases d with
        | strP => rw [hsync.1]; simp
        | escP => rw [hsync.1]; simp
        | uniP got => rw [hsync.1]; simp
      rw [L4.feedPlan] at hfeed
      rw [show L4.flush s = ({ s with stringBuffer := [] }, [.strChunk s.stringBuffer]) from by
        rw [L4.flush, L4.flushStringTok, if_pos hmm]; rfl] at hfeed
      simp only [Except.map] at hfeed
      cases hr : L4.feedPlan { s with stringBuffer := [] } rest with
      | error e => rw [hr] at hfeed; cases hfeed
      | ok r2 =>
        rw [hr] at hfeed
        cases hfeed
        have hsync' : L4sync { s with stringBuffer := [] } d := by
          cases d with
          | strP => exact hsync
          | escP => exact hsync
          | uniP got => exact hsync
        have hdec' : specDecodeFrom d (L4.charsOf rest) = some u := hdec
        have hIH := ih { s with stringBuffer := [] } d r2.1 r2.2 u hsync' hr hdec' hmode
        rw [strPayloads_append, strPayloads_chunk, List.append_assoc, hIH]
        simp
    | some c =>
      rw [L4.feedPlan] at hfeed
      obtain ⟨r1, hr1, h2⟩ := exceptBindOk hfeed
      obtain ⟨r2, hr2, h3⟩ := exceptBindOk h2
      cases h3
      rw [show L4.charsOf (some c :: rest) = c :: L4.charsOf rest from rfl] at hdec
      rw [L4.lex] at hr1
      cases d with
      | strP =>
        obtain ⟨hm, hu⟩ := hsync
        rw [show (L4.updateLocation s c).mode = L4.Mode.strM from
          (l4_updateLocation_mode s c).trans hm] at hr1
        rw [L4.lexStr4] at hr1
        rw [specDecodeFrom] at hdec
        by_cases hbs : c = '\\'.toNat
        · subst hbs
          rw [if_pos (by decide)] at hr1
          rw [if_pos rfl] at hdec
          cases hr1
          have huok : L4uok { L4.updateLocation s '\\'.toNat with mode := .escM } := by
            simpa only [L4uok, l4_updateLocation_unicodeBuffer] using hu
          have hIH := ih { L4.updateLocation s '\\'.toNat with mode := .escM } .escP
            r2.1 r2.2 u ⟨rfl, huok⟩ hr2 hdec hmode
          simp only [List.nil_append]
          rw [hIH]
          simp [l4_updateLocation_stringBuffer]
        · rw [if_neg (by simpa using hbs)] at hr1
          rw [if_neg hbs] at hdec
          by_cases hq : c = '"'.toNat
          · rw [if_pos hq] at hdec
            cases hdec
          · rw [if_neg (by simpa using hq)] at hr1
            rw [if_neg hq] at hdec
            obtain ⟨u1, hdu, hcons⟩ := Option.map_eq_some'.mp hdec
            subst hcons
            cases hr1
            have huok : L4uok { L4.updateLocation s c with
                stringBuffer := (L4.updateLocation s c).stringBuffer ++ [c] } := by
              simpa only [L4uok, l4_updateLocation_unicodeBuffer] using hu
            have hIH := ih { L4.updateLocation s c with
                stringBuffer := (L4.updateLocation s c).stringBuffer ++ [c] } .strP
              r2.1 r2.2 u1 ⟨(l4_updateLocation_mode s c).trans hm, huok⟩ hr2 hdu hmode
            simp only [List.nil_append]
            rw [hIH]
            simp [l4_updateLocation_stringBuffer]
      | escP =>
        obtain ⟨hm, hu⟩ := hsync
        rw [show (L4.updateLocation s c).mode = L4.Mode.escM from
          (l4_updateLocation_mode s c).trans hm] at hr1
        rw [L4.lexEsc4] at hr1
        rw [specDecodeFrom] at hdec
        by_cases hus : c = 'u'.toNat
        · subst hus
          rw [show escChar 'u'.toNat = none from rfl] at hr1
          rw [if_pos (by decide)] at hr1
          rw [if_pos rfl] at hdec
          cases hr1
          cases hu with
          | inl hnil =>
            have hIH := ih { L4.updateLocation s 'u'.toNat with mode := .uniM } (.uniP [])
              r2.1 r2.2 u ⟨rfl, by
                simpa only [l4_updateLocation_unicodeBuffer] using hnil, by decide⟩
              hr2 hdec hmode
            simp only [List.nil_append]
            rw [hIH]
            simp [l4_updateLocation_stringBuffer]
          | inr hbig =>
            have hstuck := l4_stuck rest { L4.updateLocation s 'u'.toNat with mode := .uniM }
              (r2.1, r2.2) rfl
              (by simpa only [l4_updateLocation_unicodeBuffer] using hbig) hr2
            rw [hmode] at hstuck
            cases hstuck.1
        · rw [if_neg hus] at hdec
          cases he : escChar c with
          | some u0 =>
            rw [he] at hr1 hdec
            obtain ⟨u1, hdu, hcons⟩ := Option.map_eq_some'.mp hdec
            subst hcons
            cases hr1
            have huok : L4uok { L4.updateLocation s c with
                stringBuffer := (L4.updateLocation s c).stringBuffer ++ [u0], mode := .strM } := by
              simpa only [L4uok, l4_updateLocation_unicodeBuffer] using hu
            have hIH := ih { L4.updateLocation s c with
                stringBuffer := (L4.updateLocation s c).stringBuffer ++ [u0], mode := .strM } .strP
              r2.1 r2.2 u1 ⟨rfl, huok⟩ hr2 hdu hmode
            simp only [List.nil_append]
            rw [hIH]
            simp [l4_updateLocation_stringBuffer]
          | none =>
            rw [he] at hdec
            cases hdec
      | uniP got =>
        obtain ⟨hm, hbuf, hlen⟩ := hsync
        rw [show (L4.updateLocation s c).mode = L4.Mode.uniM from
          (l4_updateLocation_mode s c).trans hm] at hr1
        rw [L4.lexUni4, l4_updateLocation_unicodeBuffer, hbuf] at hr1
        rw [specDecodeFrom] at hdec
        by_cases h4 : (got ++ [c]).length = 4
        · rw [if_pos (by simpa using h4)] at hr1
          rw [if_pos h4] at hdec
          cases hp : jsParseIntHex (got ++ [c]) with
          | some n =>
            rw [hp] at hr1 hdec
            obtain ⟨u1, hdu, hcons⟩ := Option.map_eq_some'.mp hdec
            subst hcons
            cases hr1
            have huok : L4uok { L4.updateLocation s c with
                unicodeBuffer := got ++ [c]
                stringBuffer := (L4.updateLocation s c).stringBuffer ++ [toUint16 n]
                mode := .strM } := by
              right
              simp [h4]
            have hIH := ih { L4.updateLocation s c with
                unicodeBuffer := got ++ [c]
                stringBuffer := (L4.updateLocation s c).stringBuffer ++ [toUint16 n]
                mode := .strM } .strP
              r2.1 r2.2 u1 ⟨rfl, huok⟩ hr2 hdu hmode
            simp only [List.nil_append]
            rw [hIH]
            simp [l4_updateLocation_stringBuffer]
          | none =>
            rw [hp] at hr1
            cases hr1
        · rw [if_neg (by simpa using h4)] at hr1
          rw [if_neg h4] at hdec
          cases hr1
          have hIH := ih { L4.updateLocation s c with unicodeBuffer := got ++ [c] }
            (.uniP (got ++ [c])) r2.1 r2.2 u
            ⟨(l4_updateLocation_mode s c).trans hm, rfl, by
              simp only [List.length_append, List.length_cons, List.length_nil]
              simp only [List.length_append, List.length_cons, List.length_nil] at h4
              omega⟩ hr2 hdec hmode
          simp only [List.nil_append]
          rw [hIH]
          simp [l4_updateLocation_stringBuffer]

/-- feedPlan over an append decomposes sequentially. -/
theorem feedPlan_append (a : List (Option Nat)) : ∀ (b : List (Option Nat)) (s : L4.St),
    L4.feedPlan s (a ++ b) =
      (do
        let r1 ← L4.feedPlan s a
        let r2 ← L4.feedPlan r1.1 b
        .ok (r2.1, r1.2 ++ r2.2)) := by
  induction a with
  | nil =>
    intro b s
    simp [L4.feedPlan, exceptOkBind]
    cases L4.feedPlan s b <;> rfl
  | cons o rest ih =>
    intro b s
    cases o with
    | some c =>
      show L4.feedPlan s (some c :: (rest ++ b)) = _
      rw [L4.feedPlan, L4.feedPlan]
      cases h1 : L4.lex s c with
      | error e => rfl
      | ok r1 =>
        simp only [exceptOkBind, ih b r1.1]
        cases h2 : L4.feedPlan r1.1 rest with
        | error e => rfl
        | ok r2 =>
          simp only [exceptOkBind]
          cases h3 : L4.feedPlan r2.1 b with
          | error e => rfl
          | ok r3 => simp [exceptOkBind, List.append_assoc]
    | none =>
      show L4.feedPlan s (none :: (rest ++ b)) = _
      rw [L4.feedPlan, L4.feedPlan]
      simp only [Except.map, ih b (L4.flush s).1]
      cases h2 : L4.feedPlan (L4.flush s).1 rest with
      | error e => rfl
      | ok r2 =>
        simp only [exceptOkBind]
        cases h3 : L4.feedPlan r2.1 b with
        | error e => rfl
        | ok r3 => simp [exceptOkBind, List.append_assoc]

/-- feedPlan over a pure character list is lexAll. -/
theorem feedPlan_chars (ch : JStr) : ∀ s : L4.St,
    L4.feedPlan s (ch.map some) = L4.lexAll s ch := by
  induction ch with
  | nil => intro s; rfl
  | cons c rest ih =>
    intro s
    show L4.feedPlan s (some c :: rest.map some) = _
    rw [L4.feedPlan, L4.lexAll]
    cases h1 : L4.lex s c with
    | error e => rfl
    | ok r1 => simp only [exceptOkBind, ih r1.1]

/-- Feeding chunks is feeding the corresponding flattened plan. -/
theorem feedChunks_eq_feedPlan (chunks : List JStr) : ∀ s : L4.St,
    L4.feedChunks s chunks = L4.feedPlan s (L4.planOf chunks) := by
  induction chunks with
  | nil => intro s; rfl
  | cons ch rest ih =>
    intro s
    show L4.feedChunks s (ch :: rest) = L4.feedPlan s (((ch.map some ++ [none]) ++ L4.planOf rest))
    rw [L4.feedChunks, feedPlan_append, feedPlan_append, feedPlan_chars]
    cases h1 : L4.lexAll s ch with
    | error e => rfl
    | ok r1 =>
      simp only [exceptOkBind]
      rw [show L4.feedPlan r1.1 [none] =
        .ok ((L4.flush r1.1).1, (L4.flush r1.1).2 ++ []) from rfl]
      simp only [exceptOkBind, List.append_nil, ih (L4.flush r1.1).1]

/-- The characters of the plan of a chunk list are its concatenation. -/
theorem charsOf_planOf (chunks : List JStr) :
    L4.charsOf (L4.planOf chunks) = chunks.flatten := by
  induction chunks with
  | nil => rfl
  | cons ch rest ih =>
    show L4.charsOf ((ch.map some ++ [none]) ++ L4.planOf rest) = ch ++ rest.flatten
    rw [L4.charsOf, List.filterMap_append, List.filterMap_append]
    rw [show List.filterMap id (ch.map some) = ch from by simp]
    rw [show List.filterMap id [(none : Option Nat)] = [] from rfl]
    rw [List.append_nil]
    exact congrArg _ ih

/-- C5: for every string literal whose body is spread over any number of
chunks, with any mix of plain characters and escape sequences: the
four-mode lexer, started just inside the string with an empty buffer,
consumes the complete chunks (flushing at every boundary) and then the
final partial chunk in which the closing quote arrives, with no flush
before the quote.  If the quote is reached in String mode, it emits an
END_STRING token carrying the buffer accumulated since the last flush, and
the concatenation of the payloads of all STRING_CHUNK tokens followed by
that END_STRING payload equals the decoded string content with every
escape sequence replaced by the character it denotes. -/
theorem C5_string_reassembly (chunks : List JStr) (tail : JStr)
    (s sm s₁ : L4.St) (toks1 toks2 : List L4.Tok4) (u : JStr)
    (hmode0 : s.mode = .strM) (hbuf0 : s.stringBuffer = []) (huok : L4uok s)
    (hfeed : L4.feedChunks s chunks = .ok (sm, toks1))
    (htail : L4.lexAll sm tail = .ok (s₁, toks2))
    (hdec : specStringDecode (chunks.flatten ++ tail) = some u)
    (hmode : s₁.mode = .strM) :
    ∃ s₂, L4.lex s₁ '"'.toNat = .ok (s₂, [.endString s₁.stringBuffer]) ∧
      L4.strPayloads (toks1 ++ toks2) ++ s₁.stringBuffer = u := by
  rw [feedChunks_eq_feedPlan] at hfeed
  rw [← feedPlan_chars] at htail
  have hplan : L4.feedPlan s (L4.planOf chunks ++ tail.map some) =
      .ok (s₁, toks1 ++ toks2) := by
    rw [feedPlan_append, hfeed, exceptOkBind, htail, exceptOkBind]
  have hchars : L4.charsOf (L4.planOf chunks ++ tail.map some) =
      chunks.flatten ++ tail := by
    rw [show L4.charsOf (L4.planOf chunks ++ tail.map some) =
      L4.charsOf (L4.planOf chunks) ++ L4.charsOf (tail.map some) from
      List.filterMap_append _ _ _]
    rw [charsOf_planOf]
    rw [show L4.charsOf (tail.map some) = tail from by simp [L4.charsOf]]
  have htot := l4_decode_total (L4.planOf chunks ++ tail.map some) s .strP s₁
    (toks1 ++ toks2) u ⟨hmode0, huok⟩ hplan (by rw [hchars]; exact hdec) hmode
  rw [hbuf0, List.nil_append] at htot
  have hlex : L4.lex s₁ '"'.toNat =
      .ok ({ L4.updateLocation s₁ '"'.toNat with stringBuffer := [], mode := .mainM },
        [.endString s₁.stringBuffer]) := by
    rw [L4.lex]
    rw [show (L4.updateLocation s₁ '"'.toNat).mode = L4.Mode.strM from
      (l4_updateLocation_mode s₁ '"'.toNat).trans hmode]
    show Except.ok (L4.lexStr4 (L4.updateLocation s₁ '"'.toNat) '"'.toNat) = _
    rw [L4.lexStr4, if_neg (by decide), if_pos (by decide), L4.flushStringTok]
    rw [if_pos (show (L4.updateLocation s₁ '"'.toNat).mode ≠ L4.Mode.mainM from by
      rw [(l4_updateLocation_mode s₁ '"'.toNat).trans hmode]; simp)]
    rw [if_pos rfl, l4_updateLocation_stringBuffer]
  exact ⟨_, hlex, htot⟩

/-- Witness for the C5 theorem: the body of the string literal
a-backslash-n-b with the escape sequence cut at the chunk boundary and the
closing quote arriving inside the final chunk right after n-b, with no
flush before it; the END_STRING token carries the nonempty payload
newline-b, and the payloads reassemble to the decoded content a, newline,
b. -/
theorem C5_string_reassembly_witness :
    ∃ s₂, L4.lex (⟨.strM, [10, 98], [], none, ⟨5, 1, 5⟩, 0, false⟩ : L4.St) '"'.toNat =
        .ok (s₂,
          [.endString (⟨.strM, [10, 98], [], none, ⟨5, 1, 5⟩, 0, false⟩ : L4.St).stringBuffer]) ∧
      L4.strPayloads ([.strChunk [97]] ++ []) ++
        (⟨.strM, [10, 98], [], none, ⟨5, 1, 5⟩, 0, false⟩ : L4.St).stringBuffer =
        [97, 10, 98] :=
  C5_string_reassembly [[97, 92]] [110, 98] ⟨.strM, [], [], none, ⟨1, 1, 1⟩, 0, false⟩
    ⟨.escM, [], [], none, ⟨3, 1, 3⟩, 0, false⟩
    ⟨.strM, [10, 98], [], none, ⟨5, 1, 5⟩, 0, false⟩
    [.strChunk [97]] [] [97, 10, 98] rfl rfl (Or.inl rfl) rfl rfl rfl rfl

/-!
C10: equivalence of the two lexer variants.
-/

/-- C10, counterexample: the two lexer variants neither produce the same
sequences of token types and payloads nor fail on the same inputs.  On the
three-character input consisting of the letter a between quotes, the
escape-buffer lexer emits START_STRING, STRING_CHUNK, END_STRING (type
codes 8, 9, 10) while the four-mode lexer emits START_STRING and a
payload-carrying END_STRING (type codes 8, 10); on the four-character input
whose body is the escaped quote, the escape-buffer lexer fails with
Incomplete escape sequence while the four-mode lexer accepts the input. -/
theorem C10_counterexample :
    EscL.runTokens (jstr "\"a\"") = .ok [.startString, .strChunk [97], .endString] ∧
    L4.runTokens (jstr "\"a\"") = .ok [.startString, .endString [97]] ∧
    (EscL.runTokens (jstr "\"a\"")).map (List.map escTypeCode) = .ok [8, 9, 10] ∧
    (L4.runTokens (jstr "\"a\"")).map (List.map l4TypeCode) = .ok [8, 10] ∧
    ([8, 9, 10] : List Nat) ≠ [8, 10] ∧
    EscL.runTokens (jstr "\"\\\"\"") =
      .error (.synErrI 3 (jstr "Incomplete escape sequence: \\")) ∧
    L4.runTokens (jstr "\"\\\"\"") = .ok [.startString, .endString [34]] :=
  ⟨rfl, rfl, rfl, rfl, by decide, rfl, rfl⟩

/-- l4Normalize distributes over concatenation. -/
theorem l4Normalize_append (a b : List L4.Tok4) :
    l4Normalize (a ++ b) = l4Normalize a ++ l4Normalize b := by
  simp [l4Normalize]

/-- The pending-literal flushes of the two lexers correspond whenever the
literal buffers agree: both succeed with the same token list and untouched
other fields, or both fail with the same message. -/
theorem flushLit_sim (t : L4.St) (e : EscL.St) (h : e.literalBuffer = t.literalBuffer) :
    (∃ t' e' ts,
      L4.flushLiteral t = .ok (t', ts) ∧
      EscL.flushState e = .ok (e', l4Normalize ts) ∧
      t'.mode = t.mode ∧ t'.stringBuffer = t.stringBuffer ∧ t'.literalBuffer = none ∧
      e'.escapeSequenceBuffer = e.escapeSequenceBuffer ∧
      e'.stringBuffer = e.stringBuffer ∧ e'.literalBuffer = none) ∨
    (∃ m l li, L4.flushLiteral t = .error (.synErr l m) ∧
      EscL.flushState e = .error (.synErrI li m)) := by
  rcases hl : t.literalBuffer with _ | buf
  · left
    refine ⟨t, e, [], ?_, ?_, rfl, rfl, hl, rfl, rfl, h.trans hl⟩
    · rw [L4.flushLiteral, hl]
    · rw [EscL.flushState, h, hl]; rfl
  · rcases hv : getLiteralBufferValue buf with _ | v
    · right
      refine ⟨jstr "Unknown literal value: " ++ buf,
        L4.getLocationMinusColumns t buf.length,
        e.literalBufferStartLocation.getD e.loc, ?_, ?_⟩
      · simp only [L4.flushLiteral, hl, hv]
      · simp only [EscL.flushState, h, hl, hv]
    · left
      refine ⟨{ t with literalBuffer := none }, { e with literalBuffer := none },
        [.lit v], ?_, ?_, rfl, rfl, rfl, rfl, rfl, rfl⟩
      · simp only [L4.flushLiteral, hl, hv]
      · simp only [EscL.flushState, h, hl, hv]; rfl

/-- Inversion of the result correspondence: a successful four-mode run
forces a successful escape-buffer run with normalised tokens. -/
theorem resSim_ok_left {r4 : L4.St × List L4.Tok4}
    {y : Except Err (EscL.St × List EscL.TokE)} (h : ResSim (.ok r4) y) :
    ∃ re, y = .ok re ∧ SimE r4.1 re.1 ∧ re.2 = l4Normalize r4.2 := by
  rcases y with ey | re
  · rcases ey with ⟨l2, m2⟩ | ⟨li2, m2⟩ | m2 | _ | _ | _ <;> exact h.elim
  · exact ⟨re, rfl, h⟩

/-- Inversion of the result correspondence: a failing four-mode run forces a
failing escape-buffer run with the same message. -/
theorem resSim_error_left {e4 : Err}
    {y : Except Err (EscL.St × List EscL.TokE)} (h : ResSim (.error e4) y) :
    ∃ l m, e4 = .synErr l m ∧ ∃ li, y = .error (.synErrI li m) := by
  rcases y with ey | re
  · rcases e4 with ⟨l, m⟩ | ⟨li, m⟩ | m | _ | _ | _ <;>
      rcases ey with ⟨l2, m2⟩ | ⟨li2, m2⟩ | m2 | _ | _ | _ <;>
      first
        | exact ⟨l, m, rfl, li2, by rw [h]⟩
        | exact h.elim
  · rcases e4 with ⟨l, m⟩ | ⟨li, m⟩ | m | _ | _ | _ <;> exact h.elim


/-- Main-mode correspondence for a structural character: flush the pending
literal in both lexers, then append matching tokens. -/
theorem mainFlushTok_sim (t4 : L4.St) (e0 : EscL.St)
    (h : e0.literalBuffer = t4.literalBuffer) (hm4 : t4.mode = .mainM)
    (hsb0 : e0.stringBuffer = none) (hesc0 : e0.escapeSequenceBuffer = none)
    (tok4 : L4.Tok4) (toke : EscL.TokE) (htok : l4Normalize [tok4] = [toke]) :
    ResSim (do let r ← L4.flushLiteral t4; .ok (r.1, r.2 ++ [tok4]))
           (do let r ← EscL.flushState e0; .ok (r.1, r.2 ++ [toke])) := by
  rcases flushLit_sim t4 e0 h with
    ⟨t', e', ts, hf4, hfe, hm', hsb', hlb', hesc', hesb', helb'⟩ | ⟨m, l, li, hf4, hfe⟩
  · rw [hf4, hfe, exceptOkBind, exceptOkBind]
    exact ⟨⟨hesc'.trans hesc0, helb'.trans hlb'.symm,
      Or.inl ⟨hm'.trans hm4, hesb'.trans hsb0⟩⟩,
      by rw [l4Normalize_append, htok]⟩
  · rw [hf4, hfe, exceptErrBind, exceptErrBind]; exact rfl

/-- Main-mode correspondence for the opening quote: flush the pending
literal, open the string buffer and emit START_STRING in both lexers. -/
theorem mainQuote_sim (t4 : L4.St) (e0 : EscL.St)
    (h : e0.literalBuffer = t4.literalBuffer)
    (hesc0 : e0.escapeSequenceBuffer = none) :
    ResSim (do let r ← L4.flushLiteral t4
               .ok ({ r.1 with stringBuffer := [], mode := .strM }, r.2 ++ [.startString]))
           (do let r ← EscL.flushState e0
               .ok ({ r.1 with stringBuffer := some [] }, r.2 ++ [.startString])) := by
  rcases flushLit_sim t4 e0 h with
    ⟨t', e', ts, hf4, hfe, hm', hsb', hlb', hesc', hesb', helb'⟩ | ⟨m, l, li, hf4, hfe⟩
  · rw [hf4, hfe, exceptOkBind, exceptOkBind]
    exact ⟨⟨hesc'.trans hesc0, helb'.trans hlb'.symm,
      Or.inr ⟨rfl, rfl, hlb'⟩⟩,
      by rw [l4Normalize_append]; rfl⟩
  · rw [hf4, hfe, exceptErrBind, exceptErrBind]; exact rfl

/-- Main-mode correspondence for whitespace: both lexers only flush the
pending literal. -/
theorem mainWs_sim (t4 : L4.St) (e0 : EscL.St)
    (h : e0.literalBuffer = t4.literalBuffer) (hm4 : t4.mode = .mainM)
    (hsb0 : e0.stringBuffer = none) (hesc0 : e0.escapeSequenceBuffer = none) :
    ResSim (L4.flushLiteral t4) (EscL.flushState e0) := by
  rcases flushLit_sim t4 e0 h with
    ⟨t', e', ts, hf4, hfe, hm', hsb', hlb', hesc', hesb', helb'⟩ | ⟨m, l, li, hf4, hfe⟩
  · rw [hf4, hfe]
    exact ⟨⟨hesc'.trans hesc0, helb'.trans hlb'.symm,
      Or.inl ⟨hm'.trans hm4, hesb'.trans hsb0⟩⟩, rfl⟩
  · rw [hf4, hfe]; exact rfl

/-- flushStringTok with the terminating flag in STRING mode: emit END_STRING
with the buffered content. -/
theorem flushStringTok_end (s : L4.St) (h : s.mode = .strM) :
    L4.flushStringTok s true = ({ s with stringBuffer := [] }, [.endString s.stringBuffer]) := by
  have hne : s.mode ≠ L4.Mode.mainM := by rw [h]; exact fun hx => by cases hx
  rw [L4.flushStringTok, if_pos hne]
  rfl

set_option maxHeartbeats 2000000 in
/-- One-character simulation: on any character other than a backslash, the
four-mode lexer and the escape-buffer lexer step from related states to
related results. -/
theorem simE_step (t : L4.St) (e : EscL.St) (c : Nat) (hsim : SimE t e)
    (hc : c ≠ 92) : ResSim (L4.lex t c) (EscL.lexChar e c) := by
  obtain ⟨hesc, hlit, hmode⟩ := hsim
  have hLl : (L4.updateLocation t c).literalBuffer = t.literalBuffer :=
    l4_updateLocation_literalBuffer t c
  have hLm := l4_updateLocation_mode t c
  have hLs := l4_updateLocation_stringBuffer t c
  have hlit4 : EscL.St.literalBuffer { e with loc := e.loc + 1 } =
      (L4.updateLocation t c).literalBuffer := by rw [hLl]; exact hlit
  rcases hmode with ⟨hm, hsb⟩ | ⟨hm, hsb, hln⟩
  · -- MAIN mode
    simp only [L4.lex, hLm.trans hm, L4.lexMain4, EscL.lexChar, hsb]
    split_ifs with hc1 hc2 hc3 hc4 hc5 hc6 hc7 hc8
    · exact mainFlushTok_sim (L4.updateLocation t c)
        ⟨none, e.escapeSequenceBuffer, e.literalBuffer, e.loc + 1, e.literalBufferStartLocation⟩
        hlit4 (hLm.trans hm) rfl hesc L4.Tok4.startObject EscL.TokE.startObject rfl
    · exact mainFlushTok_sim (L4.updateLocation t c)
        ⟨none, e.escapeSequenceBuffer, e.literalBuffer, e.loc + 1, e.literalBufferStartLocation⟩
        hlit4 (hLm.trans hm) rfl hesc L4.Tok4.endObject EscL.TokE.endObject rfl
    · exact mainFlushTok_sim (L4.updateLocation t c)
        ⟨none, e.escapeSequenceBuffer, e.literalBuffer, e.loc + 1, e.literalBufferStartLocation⟩
        hlit4 (hLm.trans hm) rfl hesc L4.Tok4.startArray EscL.TokE.startArray rfl
    · exact mainFlushTok_sim (L4.updateLocation t c)
        ⟨none, e.escapeSequenceBuffer, e.literalBuffer, e.loc + 1, e.literalBufferStartLocation⟩
        hlit4 (hLm.trans hm) rfl hesc L4.Tok4.endArray EscL.TokE.endArray rfl
    · exact mainFlushTok_sim (L4.updateLocation t c)
        ⟨none, e.escapeSequenceBuffer, e.literalBuffer, e.loc + 1, e.literalBufferStartLocation⟩
        hlit4 (hLm.trans hm) rfl hesc L4.Tok4.comaT EscL.TokE.comaT rfl
    · exact mainFlushTok_sim (L4.updateLocation t c)
        ⟨none, e.escapeSequenceBuffer, e.literalBuffer, e.loc + 1, e.literalBufferStartLocation⟩
        hlit4 (hLm.trans hm) rfl hesc L4.Tok4.colonT EscL.TokE.colonT rfl
    · exact mainQuote_sim (L4.updateLocation t c)
        ⟨none, e.escapeSequenceBuffer, e.literalBuffer, e.loc + 1, e.literalBufferStartLocation⟩ hlit4 hesc
    · exact mainWs_sim (L4.updateLocation t c)
        ⟨none, e.escapeSequenceBuffer, e.literalBuffer, e.loc + 1, e.literalBufferStartLocation⟩ hlit4 (hLm.trans hm) rfl hesc
    · rcases hl : t.literalBuffer with _ | buf
      · simp only [hLl.trans hl, hlit.trans hl]
        exact ⟨⟨hesc, rfl, Or.inl ⟨rfl, rfl⟩⟩, rfl⟩
      · simp only [hLl.trans hl, hlit.trans hl]
        exact ⟨⟨hesc, rfl, Or.inl ⟨rfl, rfl⟩⟩, rfl⟩
  · -- STRING mode
    simp only [L4.lex, hLm.trans hm, L4.lexStr4, EscL.lexChar, hsb, hesc]
    split_ifs with h92p hq
    · exact absurd (by simpa using h92p) hc
    · have hc34 : c = 34 := by simpa using hq
      subst hc34
      rw [flushStringTok_end _ (hLm.trans hm)]
      simp only [EscL.flushString]
      exact ⟨⟨rfl, hlit.trans hLl.symm, Or.inl ⟨rfl, rfl⟩⟩,
        by rw [hLs]; rfl⟩
    · have hfe : EscL.flushState ⟨some t.stringBuffer, none, e.literalBuffer, e.loc + 1,
          e.literalBufferStartLocation⟩ =
          .ok (⟨some t.stringBuffer, none, e.literalBuffer, e.loc + 1,
            e.literalBufferStartLocation⟩, []) := by
        simp only [EscL.flushState, hlit.trans hln]
      rw [hfe, exceptOkBind]
      exact ⟨⟨rfl, hlit.trans hLl.symm,
        Or.inr ⟨rfl, by rw [hLs], hLl.trans hln⟩⟩, rfl⟩

/-- Whole-input simulation between the two lexers on backslash-free
inputs. -/
theorem simE_lexAll (input : JStr) : ∀ (t : L4.St) (e : EscL.St), SimE t e →
    (∀ c ∈ input, c ≠ 92) → ResSim (L4.lexAll t input) (EscL.lexAll e input) := by
  induction input with
  | nil => exact fun t e hsim _ => ⟨hsim, rfl⟩
  | cons c cs ih =>
    intro t e hsim hnb
    have hstep := simE_step t e c hsim (hnb c (List.mem_cons_self c cs))
    simp only [L4.lexAll, EscL.lexAll]
    rcases h4 : L4.lex t c with e4 | r4
    · rw [h4] at hstep
      obtain ⟨l, m, he4, li, hee⟩ := resSim_error_left hstep
      rw [hee, he4]
      exact rfl
    · rw [h4] at hstep
      obtain ⟨re, hee, hsim1, hts⟩ := resSim_ok_left hstep
      have hrest := ih r4.1 re.1 hsim1 (fun x hx => hnb x (List.mem_cons_of_mem c hx))
      rcases h4r : L4.lexAll r4.1 cs with e4r | r4r
      · rw [h4r] at hrest
        obtain ⟨l, m, he4, li, hee2⟩ := resSim_error_left hrest
        rw [hee, exceptOkBind, exceptOkBind, h4r, hee2, he4]
        exact rfl
      · rw [h4r] at hrest
        obtain ⟨re2, hee2, hsim2, hts2⟩ := resSim_ok_left hrest
        rw [hee, exceptOkBind, exceptOkBind, h4r, hee2, exceptOkBind, exceptOkBind]
        exact ⟨hsim2, by rw [hts, hts2, l4Normalize_append]⟩

/-- The close calls of the two lexers correspond from related states. -/
theorem simE_close (t : L4.St) (e : EscL.St) (hsim : SimE t e) :
    ResSim (L4.close t) (EscL.close e) := by
  obtain ⟨hesc, hlit, hmode⟩ := hsim
  rcases hmode with ⟨hm, hsb⟩ | ⟨hm, hsb, hln⟩
  · rw [L4.close, if_neg (show ¬(t.mode ≠ L4.Mode.mainM) from fun hx => hx hm), EscL.close]
    rcases flushLit_sim t e hlit with
      ⟨t', e', ts, hf4, hfe, hm', hsb', hlb', hesc', hesb', helb'⟩ | ⟨m, l, li, hf4, hfe⟩
    · rw [hf4, hfe, exceptOkBind]
      simp only [hesb'.trans hsb]
      exact ⟨⟨hesc'.trans hesc, helb'.trans hlb'.symm,
        Or.inl ⟨hm'.trans hm, hesb'.trans hsb⟩⟩, rfl⟩
    · rw [hf4, hfe, exceptErrBind]
      exact rfl
  · rw [L4.close,
      if_pos (show t.mode ≠ L4.Mode.mainM from by rw [hm]; exact fun hx => by cases hx),
      EscL.close]
    have hfe : EscL.flushState e = .ok (e, []) := by
      rw [EscL.flushState, hlit.trans hln]
    rw [hfe, exceptOkBind]
    simp only [hsb]
    exact rfl

/-- C10, amended: restricted to inputs containing no backslash (so that no
escape sequence occurs), the two lexer variants are equivalent up to the
END_STRING payload convention: on every such input, either both runs
succeed and the escape-buffer token list is the normalisation of the
four-mode token list (each payload-carrying END_STRING split into a
STRING_CHUNK followed by a bare END_STRING, all other tokens identical),
or both runs fail with a SyntaxError carrying the same message.  On inputs
with escape sequences the two variants genuinely diverge, as the
counterexample shows. -/
theorem C10_amended_equiv (input : JStr) (hnb : ∀ c ∈ input, c ≠ 92) :
    (∃ fs, L4.runTokens input = .ok fs ∧ EscL.runTokens input = .ok (l4Normalize fs)) ∨
    (∃ m l li, L4.runTokens input = .error (.synErr l m) ∧
               EscL.runTokens input = .error (.synErrI li m)) := by
  have h0 : SimE L4.initial EscL.initial := ⟨rfl, rfl, Or.inl ⟨rfl, rfl⟩⟩
  have hlex := simE_lexAll input L4.initial EscL.initial h0 hnb
  rcases h1 : L4.lexAll L4.initial input with e1 | r1
  · rw [h1] at hlex
    obtain ⟨l, m, he1, li, hee⟩ := resSim_error_left hlex
    right
    refine ⟨m, l, li, ?_, ?_⟩
    · rw [L4.runTokens, h1, he1]; rfl
    · rw [EscL.runTokens, hee]; rfl
  · rw [h1] at hlex
    obtain ⟨re1, hee1, hsim1, hts1⟩ := resSim_ok_left hlex
    have hcl := simE_close r1.1 re1.1 hsim1
    rcases h2 : L4.close r1.1 with e2 | r2
    · rw [h2] at hcl
      obtain ⟨l, m, he2, li, hee2⟩ := resSim_error_left hcl
      right
      refine ⟨m, l, li, ?_, ?_⟩
      · rw [L4.runTokens, h1, exceptOkBind, h2, he2]; rfl
      · rw [EscL.runTokens, hee1, exceptOkBind, hee2]; rfl
    · rw [h2] at hcl
      obtain ⟨re2, hee2, hsim2, hts2⟩ := resSim_ok_left hcl
      left
      refine ⟨r1.2 ++ r2.2, ?_, ?_⟩
      · rw [L4.runTokens, h1, exceptOkBind, h2]; rfl
      · rw [EscL.runTokens, hee1, exceptOkBind, hee2, exceptOkBind,
          hts1, hts2, l4Normalize_append]

/-- Witness for the amended C10 equivalence at a concrete backslash-free
input. -/
theorem C10_amended_equiv_witness :
    (∀ c ∈ jstr "[1, \"ab\"]", c ≠ 92) ∧
    ((∃ fs, L4.runTokens (jstr "[1, \"ab\"]") = .ok fs ∧
        EscL.runTokens (jstr "[1, \"ab\"]") = .ok (l4Normalize fs)) ∨
     (∃ m l li, L4.runTokens (jstr "[1, \"ab\"]") = .error (.synErr l m) ∧
        EscL.runTokens (jstr "[1, \"ab\"]") = .error (.synErrI li m))) :=
  ⟨by decide, C10_amended_equiv (jstr "[1, \"ab\"]") (by decide)⟩

/-!
C1: chunking invariance of the production pipeline.  The parser part of the
pipeline neither reads nor writes the lexer state, so parsing commutes with
replacing the lexer field; this is captured by computing the stack and event
effect of each token once, for every lexer field at once.
-/

/-- parseTokens distributes over concatenation of token lists. -/
theorem parseTokens_append (a b : List Pipe.Tok) : ∀ p : Pipe.PState,
    Pipe.parseTokens p (a ++ b) =
      Pipe.parseTokens p a >>= fun m => Pipe.parseTokens m b := by
  induction a with
  | nil => intro p; rfl
  | cons t ts ih =>
    intro p
    show Pipe.parseTokens p (t :: (ts ++ b)) = _
    simp only [Pipe.parseTokens]
    cases h : Pipe.parseToken p t with
    | error e => simp only [exceptErrBind]
    | ok m => simp only [exceptOkBind]; exact ih m

/-- The stack and event effect of setValue is independent of the lexer
field, which is passed through unchanged. -/
theorem setValue_core (st : List Pipe.Frame) (ev : List Pipe.Event) (o : Pipe.POpts)
    (ph : Bool) (x : JsonValue) (loc : Loc) :
    ∃ r : Except Err (List Pipe.Frame × List Pipe.Event),
      ∀ L, Pipe.setValue ⟨L, st, ev, o, ph⟩ x loc =
        r.map fun y => ⟨L, y.1, y.2, o, ph⟩ := by
  cases st with
  | nil => exact ⟨.error .jsTypeError, fun L => rfl⟩
  | cons f rest =>
    cases h : Pipe.setIncompleteValueF f x loc with
    | error e =>
      refine ⟨.error e, fun L => ?_⟩
      simp only [Pipe.setValue, h, exceptErrBind, Except.map]
    | ok f2 =>
      refine ⟨.ok (Pipe.setExpected f2 .comaP :: rest,
        if o.trackEvents then
          ev ++ [⟨if x.typeofIsObject then .beginEv else .setEv,
            Pipe.getPath (Pipe.setExpected f2 .comaP :: rest)⟩]
        else ev), fun L => ?_⟩
      simp only [Pipe.setValue, h, exceptOkBind, Pipe.pushEvent, Except.map]
      cases ho : o.trackEvents <;> simp [ho]

/-- The stack and event effect of closeArrayOrObject is independent of the
lexer field. -/
theorem closeAO_core (st : List Pipe.Frame) (ev : List Pipe.Event) (o : Pipe.POpts)
    (ph : Bool) :
    ∃ r : Except Err (List Pipe.Frame × List Pipe.Event),
      ∀ L, Pipe.closeArrayOrObject ⟨L, st, ev, o, ph⟩ =
        r.map fun y => ⟨L, y.1, y.2, o, ph⟩ := by
  cases st with
  | nil => exact ⟨.error .jsTypeError, fun L => rfl⟩
  | cons f rest =>
    cases ph with
    | false =>
      cases rest with
      | nil =>
        refine ⟨.ok ([], if o.trackEvents then ev ++ [⟨.endEv, Pipe.getPath []⟩] else ev),
          fun L => ?_⟩
        cases ho : o.trackEvents <;>
          simp [Pipe.closeArrayOrObject, exceptOkBind, Pipe.pushEvent, Except.map, ho]
      | cons parent rs =>
        rcases hv : (if Pipe.frameIsEmpty f then f
            else Pipe.nextArrayItemOrObjectProperty f).valueOf with e | v
        · refine ⟨.error e, fun L => ?_⟩
          simp [Pipe.closeArrayOrObject, exceptOkBind, exceptErrBind, hv, Except.map]
        · rcases hset : Pipe.frameSetSlot parent v with e | parent2
          · refine ⟨.error e, fun L => ?_⟩
            simp [Pipe.closeArrayOrObject, exceptOkBind, exceptErrBind, hv, hset,
              Except.map]
          · refine ⟨.ok (parent2 :: rs,
              if o.trackEvents then ev ++ [⟨.endEv, Pipe.getPath (parent2 :: rs)⟩] else ev),
              fun L => ?_⟩
            cases ho : o.trackEvents <;>
              simp [Pipe.closeArrayOrObject, exceptOkBind, Pipe.pushEvent, hv, hset,
                Except.map, ho]
    | true =>
      rcases htr : Pipe.trimFrame (if Pipe.frameIsEmpty f then f
          else Pipe.nextArrayItemOrObjectProperty f) with e | f2
      · refine ⟨.error e, fun L => ?_⟩
        simp [Pipe.closeArrayOrObject, exceptErrBind, htr, Except.map]
      · cases rest with
        | nil =>
          refine ⟨.ok ([], if o.trackEvents then ev ++ [⟨.endEv, Pipe.getPath []⟩] else ev),
            fun L => ?_⟩
          cases ho : o.trackEvents <;>
            simp [Pipe.closeArrayOrObject, exceptOkBind, Pipe.pushEvent, htr, Except.map, ho]
        | cons parent rs =>
          rcases hv : f2.valueOf with e | v
          · refine ⟨.error e, fun L => ?_⟩
            simp [Pipe.closeArrayOrObject, exceptOkBind, exceptErrBind, htr, hv, Except.map]
          · rcases hset : Pipe.frameSetSlot parent v with e | parent2
            · refine ⟨.error e, fun L => ?_⟩
              simp [Pipe.closeArrayOrObject, exceptOkBind, exceptErrBind, htr, hv, hset,
                Except.map]
            · refine ⟨.ok (parent2 :: rs,
                if o.trackEvents then ev ++ [⟨.endEv, Pipe.getPath (parent2 :: rs)⟩] else ev),
                fun L => ?_⟩
              cases ho : o.trackEvents <;>
                simp [Pipe.closeArrayOrObject, exceptOkBind, Pipe.pushEvent, htr, hv, hset,
                  Except.map, ho]

/-- The stack and event effect of one parser token is independent of the
lexer field, which is passed through unchanged. -/
theorem parseToken_core (st : List Pipe.Frame) (ev : List Pipe.Event) (o : Pipe.POpts)
    (ph : Bool) (tk : Pipe.Tok) :
    ∃ r : Except Err (List Pipe.Frame × List Pipe.Event),
      ∀ L, Pipe.parseToken ⟨L, st, ev, o, ph⟩ tk =
        r.map fun y => ⟨L, y.1, y.2, o, ph⟩ := by
  rcases tk with ⟨tv, tloc⟩
  cases st with
  | nil => exact ⟨.error .jsTypeError, fun L => rfl⟩
  | cons ctx rest =>
    cases tv with
    | lit v =>
      obtain ⟨r, hr⟩ := setValue_core (ctx :: rest) ev o ph v tloc
      exact ⟨r, fun L => hr L⟩
    | startObject =>
      rcases hslot : Pipe.frameGetSlot ctx with e | slot
      · refine ⟨.error e, fun L => ?_⟩
        simp only [Pipe.parseToken, hslot, exceptErrBind, Except.map]
      · rcases slot with _ | sv
        · obtain ⟨r1, hr1⟩ := setValue_core (ctx :: rest) ev o ph (JsonValue.obj []) tloc
          rcases r1 with e | y
          · refine ⟨.error e, fun L => ?_⟩
            simp only [Pipe.parseToken, hslot, exceptOkBind]
            rw [hr1 L]; rfl
          · refine ⟨.ok (Pipe.Frame.objF (JsonValue.obj []) none .propertyName true [] :: y.1,
              y.2), fun L => ?_⟩
            simp only [Pipe.parseToken, hslot, exceptOkBind]
            rw [hr1 L]; rfl
        · obtain ⟨r1, hr1⟩ := setValue_core (ctx :: rest) ev o ph
            (if sv.jsTruthy then sv else JsonValue.obj []) tloc
          rcases r1 with e | y
          · refine ⟨.error e, fun L => ?_⟩
            simp only [Pipe.parseToken, hslot, exceptOkBind]
            rw [hr1 L]; rfl
          · refine ⟨.ok (Pipe.Frame.objF (if sv.jsTruthy then sv else JsonValue.obj [])
              none .propertyName true [] :: y.1, y.2), fun L => ?_⟩
            simp only [Pipe.parseToken, hslot, exceptOkBind]
            rw [hr1 L]; rfl
    | startArray =>
      rcases hslot : Pipe.frameGetSlot ctx with e | slot
      · refine ⟨.error e, fun L => ?_⟩
        simp only [Pipe.parseToken, hslot, exceptErrBind, Except.map]
      · rcases slot with _ | sv
        · obtain ⟨r1, hr1⟩ := setValue_core (ctx :: rest) ev o ph (JsonValue.arr []) tloc
          rcases r1 with e | y
          · refine ⟨.error e, fun L => ?_⟩
            simp only [Pipe.parseToken, hslot, exceptOkBind]
            rw [hr1 L]; rfl
          · refine ⟨.ok (Pipe.Frame.arrF (JsonValue.arr []) 0 .valueP true :: y.1,
              y.2), fun L => ?_⟩
            simp only [Pipe.parseToken, hslot, exceptOkBind]
            rw [hr1 L]; rfl
        · obtain ⟨r1, hr1⟩ := setValue_core (ctx :: rest) ev o ph
            (if sv.jsTruthy then sv else JsonValue.arr []) tloc
          rcases r1 with e | y
          · refine ⟨.error e, fun L => ?_⟩
            simp only [Pipe.parseToken, hslot, exceptOkBind]
            rw [hr1 L]; rfl
          · refine ⟨.ok (Pipe.Frame.arrF (if sv.jsTruthy then sv else JsonValue.arr [])
              0 .valueP true :: y.1, y.2), fun L => ?_⟩
            simp only [Pipe.parseToken, hslot, exceptOkBind]
            rw [hr1 L]; rfl
    | endObject =>
      cases ctx with
      | objF v k e ie pn =>
        by_cases he : e = (if ie then Pipe.Piece.propertyName else Pipe.Piece.comaP)
        · obtain ⟨r, hr⟩ := closeAO_core (Pipe.Frame.objF v k e ie pn :: rest) ev o ph
          refine ⟨r, fun L => ?_⟩
          simp only [Pipe.parseToken, if_pos he]
          exact hr L
        · refine ⟨.error (Pipe.unexpectedTokenError ⟨.endObject, tloc⟩), fun L => ?_⟩
          simp only [Pipe.parseToken, if_neg he, Except.map]
      | arrF v k e ie =>
        exact ⟨.error (Pipe.unexpectedTokenError ⟨.endObject, tloc⟩), fun L => rfl⟩
      | strF v =>
        exact ⟨.error (Pipe.unexpectedTokenError ⟨.endObject, tloc⟩), fun L => rfl⟩
    | endArray =>
      cases ctx with
      | arrF v k e ie =>
        by_cases hc : ie = false ∧ e = Pipe.Piece.valueP
        · refine ⟨.error (Pipe.unexpectedTokenError ⟨.endArray, tloc⟩), fun L => ?_⟩
          simp only [Pipe.parseToken, if_pos hc, Except.map]
        · obtain ⟨r, hr⟩ := closeAO_core (Pipe.Frame.arrF v k e ie :: rest) ev o ph
          refine ⟨r, fun L => ?_⟩
          simp only [Pipe.parseToken, if_neg hc]
          exact hr L
      | objF v k e ie pn =>
        exact ⟨.error (Pipe.unexpectedTokenError ⟨.endArray, tloc⟩), fun L => rfl⟩
      | strF v =>
        exact ⟨.error (Pipe.unexpectedTokenError ⟨.endArray, tloc⟩), fun L => rfl⟩
    | colonT =>
      cases ctx with
      | arrF v k e ie =>
        exact ⟨.error (Pipe.unexpectedTokenError ⟨.colonT, tloc⟩), fun L => rfl⟩
      | objF v k e ie pn =>
        by_cases he : e = Pipe.Piece.colonP
        · refine ⟨.ok (Pipe.Frame.objF v k .valueP ie pn :: rest, ev), fun L => ?_⟩
          simp only [Pipe.parseToken, if_pos he, Except.map]
        · refine ⟨.error (Pipe.unexpectedTokenError ⟨.colonT, tloc⟩), fun L => ?_⟩
          simp only [Pipe.parseToken, if_neg he, Except.map]
      | strF v =>
        exact ⟨.error .assertionFailed, fun L => rfl⟩
    | comaT =>
      cases ctx with
      | strF v =>
        exact ⟨.error .assertionFailed, fun L => rfl⟩
      | arrF v k e ie =>
        by_cases hc : (Pipe.Frame.arrF v k e ie).expectedOf = some Pipe.Piece.comaP
        · refine ⟨.ok (Pipe.nextArrayItemOrObjectProperty (.arrF v k e ie) :: rest, ev),
            fun L => ?_⟩
          simp only [Pipe.parseToken, if_pos hc, Except.map]
        · refine ⟨.error (Pipe.unexpectedTokenError ⟨.comaT, tloc⟩), fun L => ?_⟩
          simp only [Pipe.parseToken, if_neg hc, Except.map]
      | objF v k e ie pn =>
        by_cases hc : (Pipe.Frame.objF v k e ie pn).expectedOf = some Pipe.Piece.comaP
        · refine ⟨.ok (Pipe.nextArrayItemOrObjectProperty (.objF v k e ie pn) :: rest, ev),
            fun L => ?_⟩
          simp only [Pipe.parseToken, if_pos hc, Except.map]
        · refine ⟨.error (Pipe.unexpectedTokenError ⟨.comaT, tloc⟩), fun L => ?_⟩
          simp only [Pipe.parseToken, if_neg hc, Except.map]
    | startString =>
      cases hcs : (Pipe.canSetValue ctx || Pipe.expectObjectPropertyName ctx) with
      | true =>
        refine ⟨.ok (Pipe.Frame.strF [] :: ctx :: rest, ev), fun L => ?_⟩
        simp [Pipe.parseToken, hcs, Except.map]
      | false =>
        refine ⟨.error (Pipe.unexpectedTokenError ⟨.startString, tloc⟩), fun L => ?_⟩
        simp [Pipe.parseToken, hcs, Except.map]
    | strChunk s =>
      cases ctx with
      | strF v =>
        exact ⟨.ok (Pipe.Frame.strF (v ++ s) :: rest, ev), fun L => rfl⟩
      | arrF v k e ie =>
        exact ⟨.error .assertionFailed, fun L => rfl⟩
      | objF v k e ie pn =>
        exact ⟨.error .assertionFailed, fun L => rfl⟩
    | endString =>
      cases ctx with
      | arrF v k e ie =>
        exact ⟨.error .assertionFailed, fun L => rfl⟩
      | objF v k e ie pn =>
        exact ⟨.error .assertionFailed, fun L => rfl⟩
      | strF v =>
        cases rest with
        | nil => exact ⟨.error .jsTypeError, fun L => rfl⟩
        | cons parent rs =>
          cases hpn : Pipe.expectObjectPropertyName parent with
          | true =>
            cases parent with
            | objF pv pk pe pie ppn =>
              refine ⟨.ok (Pipe.Frame.objF pv (some v) .colonP pie ppn :: rs, ev),
                fun L => ?_⟩
              simp [Pipe.parseToken, hpn, Except.map]
            | arrF pv pk pe pie => simp [Pipe.expectObjectPropertyName] at hpn
            | strF pv => simp [Pipe.expectObjectPropertyName] at hpn
          | false =>
            obtain ⟨r, hr⟩ := setValue_core (parent :: rs) ev o ph (.str v) tloc
            refine ⟨r, fun L => ?_⟩
            simp only [Pipe.parseToken, hpn, Bool.false_eq_true, if_false]
            exact hr L

/-- The stack and event effect of a token list is independent of the lexer
field, which is passed through unchanged. -/
theorem parseTokens_core (ts : List Pipe.Tok) : ∀ (st : List Pipe.Frame)
    (ev : List Pipe.Event) (o : Pipe.POpts) (ph : Bool),
    ∃ r : Except Err (List Pipe.Frame × List Pipe.Event),
      ∀ L, Pipe.parseTokens ⟨L, st, ev, o, ph⟩ ts =
        r.map fun y => ⟨L, y.1, y.2, o, ph⟩ := by
  induction ts with
  | nil => exact fun st ev o ph => ⟨.ok (st, ev), fun L => rfl⟩
  | cons t ts ih =>
    intro st ev o ph
    obtain ⟨r1, hr1⟩ := parseToken_core st ev o ph t
    rcases r1 with e | y
    · refine ⟨.error e, fun L => ?_⟩
      simp only [Pipe.parseTokens]
      rw [hr1 L]
      rfl
    · obtain ⟨r2, hr2⟩ := ih y.1 y.2 o ph
      refine ⟨r2, fun L => ?_⟩
      simp only [Pipe.parseTokens]
      rw [hr1 L]
      simp only [Except.map, exceptOkBind]
      exact hr2 L

/-- A successful parseTokens run commutes with replacing the lexer field and
leaves the lexer, options and placeholder flag unchanged. -/
theorem parseTokens_okSwap {p q : Pipe.PState} {ts : List Pipe.Tok}
    (h : Pipe.parseTokens p ts = .ok q) (L : Pipe.LexState) :
    Pipe.parseTokens { p with lex := L } ts = .ok { q with lex := L } ∧
    q.lex = p.lex ∧ q.opts = p.opts ∧ q.hasPlaceholder = p.hasPlaceholder := by
  rcases p with ⟨pl, pst, pev, po, pph⟩
  obtain ⟨r, hr⟩ := parseTokens_core ts pst pev po pph
  rw [hr pl] at h
  rcases r with e | y
  · exact absurd h (by simp [Except.map])
  · simp only [Except.map] at h
    have hq := Except.ok.inj h
    rw [← hq]
    refine ⟨?_, rfl, rfl, rfl⟩
    rw [hr L]
    rfl

/-- A failing parseTokens run fails identically for every lexer field. -/
theorem parseTokens_errSwap {p : Pipe.PState} {ts : List Pipe.Tok} {e : Err}
    (h : Pipe.parseTokens p ts = .error e) (L : Pipe.LexState) :
    Pipe.parseTokens { p with lex := L } ts = .error e := by
  rcases p with ⟨pl, pst, pev, po, pph⟩
  obtain ⟨r, hr⟩ := parseTokens_core ts pst pev po pph
  rw [hr pl] at h
  rcases r with e2 | y
  · simp only [Except.map] at h
    rw [hr L, ← h]
    rfl
  · exact absurd h (by simp [Except.map])

/-- Interleaved character processing distributes over concatenation. -/
theorem stepChars_append (a b : JStr) : ∀ p : Pipe.PState,
    Pipe.stepChars p (a ++ b) =
      Pipe.stepChars p a >>= fun m => Pipe.stepChars m b := by
  induction a with
  | nil => intro p; rfl
  | cons c cs ih =>
    intro p
    show Pipe.stepChars p (c :: (cs ++ b)) = _
    simp only [Pipe.stepChars]
    cases h : Pipe.stepChar p c with
    | error e => simp only [exceptErrBind]
    | ok m => simp only [exceptOkBind]; exact ih m

/-- Interleaved processing succeeds exactly when the phased processing
(lex everything, then parse all tokens) succeeds, with the same result. -/
theorem stepChars_decomp (ch : JStr) : ∀ (p p' : Pipe.PState),
    Pipe.stepChars p ch = .ok p' ↔
    ∃ r, Pipe.lexChars p.lex ch = .ok r ∧
      Pipe.parseTokens { p with lex := r.1 } r.2 = .ok p' := by
  induction ch with
  | nil =>
    intro p p'
    constructor
    · intro h
      have hpp := Except.ok.inj h
      refine ⟨(p.lex, []), rfl, ?_⟩
      rw [← hpp]
      rfl
    · rintro ⟨r, hr, hp⟩
      have hr2 := Except.ok.inj hr
      rw [← hr2] at hp
      exact hp
  | cons c cs ih =>
    intro p p'
    constructor
    · intro h
      simp only [Pipe.stepChars] at h
      obtain ⟨p1, h1, h2⟩ := exceptBindOk h
      rw [Pipe.stepChar] at h1
      obtain ⟨r1, hl1, hp1⟩ := exceptBindOk h1
      obtain ⟨r2, hl2, hp2⟩ := (ih p1 p').mp h2
      obtain ⟨-, hlex1, -, -⟩ := parseTokens_okSwap hp1 p.lex
      have hlex1a : p1.lex = r1.1 := hlex1
      refine ⟨(r2.1, r1.2 ++ r2.2), ?_, ?_⟩
      · rw [lexChars_cons, hl1, exceptOkBind,
          show Pipe.lexChars r1.1 cs = .ok r2 from hlex1a ▸ hl2, exceptOkBind]
      · rw [parseTokens_append]
        obtain ⟨hswap, -, -, -⟩ := parseTokens_okSwap hp1 r2.1
        rw [show Pipe.parseTokens { p with lex := r2.1 } r1.2 =
            .ok { p1 with lex := r2.1 } from hswap, exceptOkBind]
        exact hp2
    · rintro ⟨r, hlex, hpt⟩
      rw [lexChars_cons] at hlex
      obtain ⟨r1, hl1, hrest⟩ := exceptBindOk hlex
      obtain ⟨r2, hl2, hok⟩ := exceptBindOk hrest
      have hr := Except.ok.inj hok
      rw [← hr] at hpt
      rw [parseTokens_append] at hpt
      obtain ⟨m, hm1, hm2⟩ := exceptBindOk hpt
      obtain ⟨hswap, hml, -, -⟩ := parseTokens_okSwap hm1 r1.1
      have hstep : Pipe.stepChar p c = .ok { m with lex := r1.1 } := by
        rw [Pipe.stepChar, hl1, exceptOkBind]
        exact (show Pipe.parseTokens { p with lex := r1.1 } r1.2 =
          .ok { m with lex := r1.1 } from hswap)
      simp only [Pipe.stepChars]
      rw [hstep, exceptOkBind]
      apply (ih _ p').mpr
      have hmeq : ({ m with lex := r2.1 } : Pipe.PState) = m := by
        rcases m with ⟨a, b, c2, d, e2⟩
        simp only at hml
        rw [hml]
      refine ⟨r2, hl2, ?_⟩
      have hgoal : Pipe.parseTokens ({ m with lex := r2.1 } : Pipe.PState) r2.2 = .ok p' := by
        rw [hmeq]; exact hm2
      exact hgoal

/-- The string-split coupling is symmetric. -/
theorem eqES_symm {p q : Pipe.PState} (h : Pipe.EqES p q) : Pipe.EqES q p := by
  obtain ⟨sb, tb, v1, v2, rest, hsb, hql, hps, hqs, hcat, hev, ho, hph⟩ := h
  refine ⟨tb, sb, v2, v1, rest, ?_, ?_, hqs, hps, hcat.symm, hev.symm, ho.symm, hph.symm⟩
  · rw [hql]
  · rw [hql]
    rcases hl : p.lex with ⟨a, b, c, d, e, f, g⟩
    rw [hl] at hsb
    simp only at hsb
    rw [hsb]

/-- The string-split coupling is transitive. -/
theorem eqES_trans {p q r : Pipe.PState} (h1 : Pipe.EqES p q) (h2 : Pipe.EqES q r) :
    Pipe.EqES p r := by
  obtain ⟨sb, tb, v1, v2, rest, hsb, hql, hps, hqs, hcat, hev, ho, hph⟩ := h1
  obtain ⟨sb2, tb2, w1, w2, rest2, hsb2, hrl, hqs2, hrs, hcat2, hev2, ho2, hph2⟩ := h2
  have hcons : Pipe.Frame.strF v2 :: rest = Pipe.Frame.strF w1 :: rest2 := by
    rw [← hqs, hqs2]
  have hh := List.cons.inj hcons
  have hv2w1 : v2 = w1 := Pipe.Frame.strF.inj hh.1
  have hrr : rest = rest2 := hh.2
  have hsb2a : tb = sb2 := by
    rw [hql] at hsb2
    simpa using hsb2
  refine ⟨sb, tb2, v1, w2, rest, hsb, ?_, hps, by rw [hrs, hrr], ?_, hev.trans hev2,
    ho.trans ho2, hph.trans hph2⟩
  · rw [hrl, hql]
  · rw [hcat, hv2w1, hsb2a, hcat2]

/-- Fields of a successful literal flush: only the literal buffer and the
carriage-return flag change. -/
theorem flushState_ok_fields {s : Pipe.LexState} {r : Pipe.LexState × List Pipe.Tok}
    (h : Pipe.flushState s = .ok r) :
    r.1.stringBuffer = s.stringBuffer ∧ r.1.escapeSequenceBuffer = s.escapeSequenceBuffer ∧
    r.1.literalBuffer = none ∧ r.1.isClosed = s.isClosed ∧ r.1.loc = s.loc := by
  rcases hl : s.literalBuffer with _ | buf
  · simp only [Pipe.flushState, hl] at h
    rw [← Except.ok.inj h]
    exact ⟨rfl, rfl, rfl, rfl, rfl⟩
  · rcases hv : getLiteralBufferValue buf with _ | v
    · simp only [Pipe.flushState, hl, hv] at h
      exact Except.noConfusion h
    · simp only [Pipe.flushState, hl, hv] at h
      rw [← Except.ok.inj h]
      exact ⟨rfl, rfl, rfl, rfl, rfl⟩

/-- updateLocation commutes with replacing the string buffer. -/
theorem updateLocation_setSB (s : Pipe.LexState) (b : Option JStr) (c : Nat) :
    Pipe.updateLocation { s with stringBuffer := b } c =
      { Pipe.updateLocation s c with stringBuffer := b } := by
  simp only [Pipe.updateLocation]
  split_ifs <;> rfl

/-- With the include option disabled the incomplete-string tail does
nothing. -/
theorem includeStep_none {p : Pipe.PState}
    (h : p.opts.includeIncompleteStrings = none) :
    Pipe.includeIncompleteStep p = .ok p := by
  rw [Pipe.includeIncompleteStep, h]

/-- The chunk-boundary work always succeeds on a well-formed state with the
include option disabled, and moves the buffered string content into the top
string frame, an EqES-shaped change. -/
theorem boundary_ok {p : Pipe.PState} (hwf : Pipe.Wf p)
    (hinc : p.opts.includeIncompleteStrings = none) :
    ∃ pb, Pipe.boundary p = .ok pb ∧ Pipe.Wf pb ∧ (pb = p ∨ Pipe.EqES pb p) ∧
      pb.opts = p.opts := by
  obtain ⟨hcl, hstr⟩ := hwf
  rcases hsb : p.lex.stringBuffer with _ | sb
  · refine ⟨p, ?_, ⟨hcl, hstr⟩, Or.inl rfl, rfl⟩
    rw [Pipe.boundary]
    rw [show Pipe.flushString p.lex = (p.lex, []) from by rw [Pipe.flushString, hsb]]
    rw [show Pipe.parseTokens { p with lex := p.lex } [] = .ok p from rfl, exceptOkBind]
    exact includeStep_none hinc
  · obtain ⟨hlit, v1, rest, hstack⟩ := hstr sb hsb
    refine ⟨{ p with
        lex := { p.lex with stringBuffer := some [] }
        stack := .strF (v1 ++ sb) :: rest }, ?_, ?_, ?_, rfl⟩
    · rw [Pipe.boundary]
      rw [show Pipe.flushString p.lex = ({ p.lex with stringBuffer := some [] },
        [⟨.strChunk sb, p.lex.loc⟩]) from by rw [Pipe.flushString, hsb]]
      have hpt : Pipe.parseTokens { p with lex := { p.lex with stringBuffer := some [] } }
          [⟨.strChunk sb, p.lex.loc⟩] =
          .ok { p with
            lex := { p.lex with stringBuffer := some [] }
            stack := .strF (v1 ++ sb) :: rest } := by
        simp only [Pipe.parseTokens, Pipe.parseToken, hstack, exceptOkBind]
      rw [hpt, exceptOkBind]
      exact includeStep_none hinc
    · exact ⟨hcl, fun sb0 hsb0 => ⟨hlit, v1 ++ sb, rest, rfl⟩⟩
    · right
      refine ⟨[], sb, v1 ++ sb, v1, rest, rfl, ?_, rfl, hstack, by simp, rfl, rfl, rfl⟩
      show p.lex = { { p.lex with stringBuffer := some [] } with stringBuffer := some sb }
      rcases hpl : p.lex with ⟨a, b2, c2, d2, e2, f2, g2⟩
      rw [hpl] at hsb
      simp only at hsb
      rw [hsb]

/-- Parsing a single START_STRING token that succeeds leaves a fresh string
context on top of the stack. -/
theorem parse_start_inv {m p' : Pipe.PState} {l : Loc}
    (h : Pipe.parseTokens m [⟨.startString, l⟩] = .ok p') :
    ∃ rest, p'.stack = .strF [] :: rest := by
  simp only [Pipe.parseTokens] at h
  obtain ⟨p2, hp2, hok⟩ := exceptBindOk h
  rcases hst : m.stack with _ | ⟨ctx, rest⟩
  · simp only [Pipe.parseToken, hst] at hp2
    exact Except.noConfusion hp2
  · simp only [Pipe.parseToken, hst] at hp2
    by_cases hc : (Pipe.canSetValue ctx || Pipe.expectObjectPropertyName ctx) = true
    · rw [if_pos hc] at hp2
      refine ⟨ctx :: rest, ?_⟩
      rw [← Except.ok.inj hok, ← Except.ok.inj hp2]
    · rw [if_neg hc] at hp2
      exact Except.noConfusion hp2

/-- One interleaved character step preserves well-formedness. -/
theorem wf_step {p p' : Pipe.PState} {c : Nat} (hwf : Pipe.Wf p)
    (h : Pipe.stepChar p c = .ok p') : Pipe.Wf p' := by
  obtain ⟨hcl, hstr⟩ := hwf
  rw [Pipe.stepChar] at h
  obtain ⟨r1, hlex, hpt⟩ := exceptBindOk h
  have hplex : p'.lex = r1.1 := (parseTokens_okSwap hpt p.lex).2.1
  rcases hsb : p.lex.stringBuffer with _ | sb
  · simp only [Pipe.lexChar, updateLocation_stringBuffer, hsb, Pipe.lexMain] at hlex
    split_ifs at hlex with h1 h2 h3 h4 h5 h6 h7 h8
    case pos =>
      rw [Pipe.flushStateAndPushToken] at hlex
      obtain ⟨rf, hf, hok⟩ := exceptBindOk hlex
      obtain ⟨hfs, hfe, hfl, hfc, hfo⟩ := flushState_ok_fields hf
      have hr1 : r1.1 = rf.1 := by rw [← Except.ok.inj hok]
      constructor
      · rw [hplex, hr1, hfc, updateLocation_isClosed]; exact hcl
      · intro sb0 hsb0
        rw [hplex, hr1, hfs, updateLocation_stringBuffer, hsb] at hsb0
        exact Option.noConfusion hsb0
    iterate 5
      (rw [Pipe.flushStateAndPushToken] at hlex
       obtain ⟨rf, hf, hok⟩ := exceptBindOk hlex
       obtain ⟨hfs, hfe, hfl, hfc, hfo⟩ := flushState_ok_fields hf
       have hr1 : r1.1 = rf.1 := by rw [← Except.ok.inj hok]
       constructor
       · rw [hplex, hr1, hfc, updateLocation_isClosed]; exact hcl
       · intro sb0 hsb0
         rw [hplex, hr1, hfs, updateLocation_stringBuffer, hsb] at hsb0
         exact Option.noConfusion hsb0)
    case pos =>
      obtain ⟨rf, hf, hok⟩ := exceptBindOk hlex
      obtain ⟨hfs, hfe, hfl, hfc, hfo⟩ := flushState_ok_fields hf
      have hr1 : r1 = ({ rf.1 with stringBuffer := some [] },
          rf.2 ++ [⟨.startString, ({ rf.1 with stringBuffer := some [] } :
            Pipe.LexState).loc⟩]) := (Except.ok.inj hok).symm
      simp only [hr1] at hpt
      rw [parseTokens_append] at hpt
      obtain ⟨m, hm, hlast⟩ := exceptBindOk hpt
      obtain ⟨rest2, hstack2⟩ := parse_start_inv hlast
      constructor
      · rw [hplex]
        simp only [hr1]
        rw [hfc, updateLocation_isClosed]; exact hcl
      · intro sb0 hsb0
        refine ⟨?_, [], rest2, hstack2⟩
        rw [hplex]
        simp only [hr1]
        exact hfl
    case pos =>
      obtain ⟨rf, hf, hok⟩ := exceptBindOk hlex
      obtain ⟨hfs, hfe, hfl, hfc, hfo⟩ := flushState_ok_fields hf
      have hr1 : r1.1 = rf.1 := by rw [← Except.ok.inj hok]
      constructor
      · rw [hplex, hr1, hfc, updateLocation_isClosed]; exact hcl
      · intro sb0 hsb0
        rw [hplex, hr1, hfs, updateLocation_stringBuffer, hsb] at hsb0
        exact Option.noConfusion hsb0
    case neg =>
      rcases hlb : (Pipe.updateLocation p.lex c).literalBuffer with _ | b
      · simp only [hlb] at hlex
        have hr1 := (Except.ok.inj hlex).symm
        constructor
        · rw [hplex]
          simp only [hr1, updateLocation_isClosed]
          exact hcl
        · intro sb0 hsb0
          rw [hplex] at hsb0
          simp only [hr1, updateLocation_stringBuffer, hsb] at hsb0
          exact Option.noConfusion hsb0
      · simp only [hlb] at hlex
        have hr1 := (Except.ok.inj hlex).symm
        constructor
        · rw [hplex]
          simp only [hr1, updateLocation_isClosed]
          exact hcl
        · intro sb0 hsb0
          rw [hplex] at hsb0
          simp only [hr1, updateLocation_stringBuffer, hsb] at hsb0
          exact Option.noConfusion hsb0
  · obtain ⟨hlit, v1, rest, hstack⟩ := hstr sb hsb
    have hUl : (Pipe.updateLocation p.lex c).literalBuffer = none := by
      rw [updateLocation_literalBuffer, hlit]
    simp only [Pipe.lexChar, updateLocation_stringBuffer, hsb] at hlex
    rcases hesc : p.lex.escapeSequenceBuffer with _ | eb
    · simp only [updateLocation_escBuffer, hesc, Pipe.lexString] at hlex
      split_ifs at hlex with hbs hq
      · rw [flushState_noLit hUl, exceptOkBind] at hlex
        have hr1 := (Except.ok.inj hlex).symm
        simp only [hr1] at hpt
        have hp' : p' = { p with lex := r1.1 } := by
          simp only [hr1]
          exact (Except.ok.inj hpt).symm
        constructor
        · rw [hp']
          simp only [hr1, updateLocation_isClosed]
          exact hcl
        · intro sb0 hsb0
          rw [hp']
          refine ⟨?_, v1, rest, hstack⟩
          simp only [hr1, updateLocation_literalBuffer]
          exact hlit
      · rw [show Pipe.flushString (Pipe.updateLocation p.lex c) =
          ({ Pipe.updateLocation p.lex c with stringBuffer := some [] },
           [⟨.strChunk sb, (Pipe.updateLocation p.lex c).loc⟩]) from by
            rw [Pipe.flushString, updateLocation_stringBuffer, hsb]] at hlex
        have hr1 := (Except.ok.inj hlex).symm
        constructor
        · rw [hplex]
          simp only [hr1, updateLocation_isClosed]
          exact hcl
        · intro sb0 hsb0
          rw [hplex] at hsb0
          simp only [hr1] at hsb0
          exact Option.noConfusion hsb0
      · rw [flushState_noLit hUl, exceptOkBind] at hlex
        have hr1 := (Except.ok.inj hlex).symm
        simp only [hr1] at hpt
        have hp' : p' = { p with lex := r1.1 } := by
          simp only [hr1]
          exact (Except.ok.inj hpt).symm
        constructor
        · rw [hp']
          simp only [hr1, updateLocation_isClosed]
          exact hcl
        · intro sb0 hsb0
          rw [hp']
          refine ⟨?_, v1, rest, hstack⟩
          simp only [hr1, updateLocation_literalBuffer]
          exact hlit
    · simp only [updateLocation_escBuffer, hesc, Pipe.lexEscape] at hlex
      split_ifs at hlex with hq
      cases hgc : getCharFromEscapeSequence (eb ++ [c]) with
      | unit u =>
        simp only [hgc] at hlex
        have hr1 := (Except.ok.inj hlex).symm
        simp only [hr1] at hpt
        have hp' : p' = { p with lex := r1.1 } := by
          simp only [hr1]
          exact (Except.ok.inj hpt).symm
        constructor
        · rw [hp']
          simp only [hr1, updateLocation_isClosed]
          exact hcl
        · intro sb0 hsb0
          rw [hp']
          refine ⟨?_, v1, rest, hstack⟩
          simp only [hr1, updateLocation_literalBuffer]
          exact hlit
      | pending =>
        simp only [hgc] at hlex
        have hr1 := (Except.ok.inj hlex).symm
        simp only [hr1] at hpt
        have hp' : p' = { p with lex := r1.1 } := by
          simp only [hr1]
          exact (Except.ok.inj hpt).symm
        constructor
        · rw [hp']
          simp only [hr1, updateLocation_isClosed]
          exact hcl
        · intro sb0 hsb0
          rw [hp']
          refine ⟨?_, v1, rest, hstack⟩
          simp only [hr1, updateLocation_literalBuffer]
          exact hlit
      | illegal =>
        simp only [hgc] at hlex
        exact Except.noConfusion hlex


/-- lexChar on a clean in-string state: a backslash opens an escape
sequence. -/
theorem lexChar_str_bs {s : Pipe.LexState} {b : JStr} (hsb : s.stringBuffer = some b)
    (hesc : s.escapeSequenceBuffer = none) (hlit : s.literalBuffer = none) {c : Nat}
    (hbs : (c == '\\'.toNat) = true) :
    Pipe.lexChar s c = .ok
      ({ Pipe.updateLocation s c with
          lastCharIsCR := false
          escapeSequenceBuffer := some [] }, []) := by
  have hUlit : (Pipe.updateLocation s c).literalBuffer = none := by
    rw [updateLocation_literalBuffer, hlit]
  simp only [Pipe.lexChar, updateLocation_stringBuffer, hsb, updateLocation_escBuffer, hesc,
    Pipe.lexString]
  rw [if_pos hbs, flushState_noLit hUlit, exceptOkBind]
  simp [updateLocation_stringBuffer, hsb, updateLocation_escBuffer, hesc]

/-- lexChar on a clean in-string state: a double quote terminates the
string, emitting the buffered chunk and END_STRING. -/
theorem lexChar_str_quote {s : Pipe.LexState} {b : JStr} (hsb : s.stringBuffer = some b)
    (hesc : s.escapeSequenceBuffer = none) {c : Nat}
    (hbs : ¬(c == '\\'.toNat) = true) (hq34 : (c == '"'.toNat) = true) :
    Pipe.lexChar s c = .ok
      ({ Pipe.updateLocation s c with stringBuffer := none },
       [⟨.strChunk b, (Pipe.updateLocation s c).loc⟩,
        ⟨.endString, (Pipe.updateLocation s c).loc⟩]) := by
  simp only [Pipe.lexChar, updateLocation_stringBuffer, hsb, updateLocation_escBuffer, hesc,
    Pipe.lexString]
  rw [if_neg hbs, if_pos hq34]
  rw [show Pipe.flushString (Pipe.updateLocation s c) =
    ({ Pipe.updateLocation s c with stringBuffer := some [] },
     [⟨.strChunk b, (Pipe.updateLocation s c).loc⟩]) from by
      rw [Pipe.flushString, updateLocation_stringBuffer, hsb]]
  simp [updateLocation_stringBuffer, hsb, updateLocation_escBuffer, hesc]

/-- lexChar on a clean in-string state: an ordinary character is appended to
the string buffer. -/
theorem lexChar_str_other {s : Pipe.LexState} {b : JStr} (hsb : s.stringBuffer = some b)
    (hesc : s.escapeSequenceBuffer = none) (hlit : s.literalBuffer = none) {c : Nat}
    (hbs : ¬(c == '\\'.toNat) = true) (hq34 : ¬(c == '"'.toNat) = true) :
    Pipe.lexChar s c = .ok
      ({ Pipe.updateLocation s c with
          lastCharIsCR := false
          stringBuffer := some (b ++ [c]) }, []) := by
  have hUlit : (Pipe.updateLocation s c).literalBuffer = none := by
    rw [updateLocation_literalBuffer, hlit]
  simp only [Pipe.lexChar, updateLocation_stringBuffer, hsb, updateLocation_escBuffer, hesc,
    Pipe.lexString]
  rw [if_neg hbs, if_neg hq34, flushState_noLit hUlit, exceptOkBind]
  simp [updateLocation_stringBuffer, hsb, updateLocation_escBuffer, hesc]

/-- lexChar inside an escape sequence: a double quote aborts. -/
theorem lexChar_esc_quote {s : Pipe.LexState} {b eb : JStr} (hsb : s.stringBuffer = some b)
    (hesc : s.escapeSequenceBuffer = some eb) {c : Nat} (hq34 : (c == '"'.toNat) = true) :
    Pipe.lexChar s c = .error
      (.synErr (Pipe.updateLocation s c).loc
        (jstr "Incomplete escape sequence: \\" ++ eb)) := by
  simp only [Pipe.lexChar, updateLocation_stringBuffer, hsb, updateLocation_escBuffer, hesc,
    Pipe.lexEscape]
  rw [if_pos hq34]

/-- lexChar inside an escape sequence: a resolved escape appends the decoded
code unit. -/
theorem lexChar_esc_unit {s : Pipe.LexState} {b eb : JStr} (hsb : s.stringBuffer = some b)
    (hesc : s.escapeSequenceBuffer = some eb) {c u : Nat}
    (hq34 : ¬(c == '"'.toNat) = true)
    (hgc : getCharFromEscapeSequence (eb ++ [c]) = .unit u) :
    Pipe.lexChar s c = .ok
      ({ Pipe.updateLocation s c with
          stringBuffer := some (b ++ [u])
          escapeSequenceBuffer := none }, []) := by
  simp only [Pipe.lexChar, updateLocation_stringBuffer, hsb, updateLocation_escBuffer, hesc,
    Pipe.lexEscape, hgc]
  rw [if_neg hq34]

/-- lexChar inside an escape sequence: an unfinished escape accumulates. -/
theorem lexChar_esc_pending {s : Pipe.LexState} {b eb : JStr} (hsb : s.stringBuffer = some b)
    (hesc : s.escapeSequenceBuffer = some eb) {c : Nat}
    (hq34 : ¬(c == '"'.toNat) = true)
    (hgc : getCharFromEscapeSequence (eb ++ [c]) = .pending) :
    Pipe.lexChar s c = .ok
      ({ Pipe.updateLocation s c with
          escapeSequenceBuffer := some (eb ++ [c]) }, []) := by
  simp only [Pipe.lexChar, updateLocation_stringBuffer, hsb, updateLocation_escBuffer, hesc,
    Pipe.lexEscape, hgc]
  rw [if_neg hq34]

/-- lexChar inside an escape sequence: an invalid escape fails. -/
theorem lexChar_esc_illegal {s : Pipe.LexState} {b eb : JStr} (hsb : s.stringBuffer = some b)
    (hesc : s.escapeSequenceBuffer = some eb) {c : Nat}
    (hq34 : ¬(c == '"'.toNat) = true)
    (hgc : getCharFromEscapeSequence (eb ++ [c]) = .illegal) :
    Pipe.lexChar s c = .error
      (.synErr (Pipe.updateLocation s c).loc
        (jstr "Illegal escape sequence: \\" ++ jsArrayStr (eb ++ [c]))) := by
  simp only [Pipe.lexChar, updateLocation_stringBuffer, hsb, updateLocation_escBuffer, hesc,
    Pipe.lexEscape, hgc]
  rw [if_neg hq34]

/-- One interleaved character step preserves the string-split coupling:
from EqES-related well-formed states, both runs succeed with related states
or both fail. -/
theorem eqES_step {p q : Pipe.PState} {c : Nat} (heq : Pipe.EqES p q)
    (hwfp : Pipe.Wf p) (hwfq : Pipe.Wf q) :
    Pipe.RelRes (Pipe.stepChar p c) (Pipe.stepChar q c) := by
  obtain ⟨sb, tb, v1, v2, rest, hsb, hql, hps, hqs, hcat, hev, ho, hph⟩ := heq
  have hclp : p.lex.isClosed = false := hwfp.1
  have hlit : p.lex.literalBuffer = none := (hwfp.2 sb hsb).1
  have hqsb : q.lex.stringBuffer = some tb := by rw [hql]
  have hqlit : q.lex.literalBuffer = none := by rw [hql]; exact hlit
  have hUq : Pipe.updateLocation q.lex c =
      { Pipe.updateLocation p.lex c with stringBuffer := some tb } := by
    rw [hql, updateLocation_setSB]
  have hqesc0 : q.lex.escapeSequenceBuffer = p.lex.escapeSequenceBuffer := by rw [hql]
  rcases hesc : p.lex.escapeSequenceBuffer with _ | eb
  · have hqesc := hqesc0.trans hesc
    by_cases hbs : (c == '\\'.toNat) = true
    · rw [Pipe.stepChar, Pipe.stepChar, lexChar_str_bs hsb hesc hlit hbs,
        lexChar_str_bs hqsb hqesc hqlit hbs, hUq, exceptOkBind, exceptOkBind,
        parseTokens_nil, parseTokens_nil]
      refine ⟨⟨?_, ?_⟩, ⟨?_, ?_⟩, Or.inr ⟨sb, tb, v1, v2, rest, ?_, rfl, hps, hqs, hcat,
        hev, ho, hph⟩⟩
      · simp only [updateLocation_isClosed]; exact hclp
      · intro sb0 hsb0
        exact ⟨by simp only [updateLocation_literalBuffer]; exact hlit, v1, rest, hps⟩
      · simp only [updateLocation_isClosed]; exact hclp
      · intro sb0 hsb0
        exact ⟨by simp only [updateLocation_literalBuffer]; exact hlit, v2, rest, hqs⟩
      · simp only [updateLocation_stringBuffer]; exact hsb
    · by_cases hq34 : (c == '"'.toNat) = true
      · have hWl : ({ Pipe.updateLocation q.lex c with stringBuffer := none } :
            Pipe.LexState) = { Pipe.updateLocation p.lex c with stringBuffer := none } := by
          rw [hUq]
        have hstep_eq : Pipe.stepChar p c = Pipe.stepChar q c := by
          rw [Pipe.stepChar, Pipe.stepChar, lexChar_str_quote hsb hesc hbs hq34,
            lexChar_str_quote hqsb hqesc hbs hq34, exceptOkBind, exceptOkBind]
          simp only [Pipe.parseTokens]
          rw [show Pipe.parseToken
              { p with lex := { Pipe.updateLocation p.lex c with stringBuffer := none } }
              ⟨.strChunk sb, (Pipe.updateLocation p.lex c).loc⟩ = .ok
              { p with
                lex := { Pipe.updateLocation p.lex c with stringBuffer := none }
                stack := .strF (v1 ++ sb) :: rest } from by
            simp only [Pipe.parseToken, hps]]
          rw [show Pipe.parseToken
              { q with lex := { Pipe.updateLocation q.lex c with stringBuffer := none } }
              ⟨.strChunk tb, (Pipe.updateLocation q.lex c).loc⟩ = .ok
              { q with
                lex := { Pipe.updateLocation q.lex c with stringBuffer := none }
                stack := .strF (v2 ++ tb) :: rest } from by
            simp only [Pipe.parseToken, hqs]]
          rw [exceptOkBind, exceptOkBind]
          rw [show ({ p with
              lex := { Pipe.updateLocation p.lex c with stringBuffer := none }
              stack := .strF (v1 ++ sb) :: rest } : Pipe.PState) =
            { q with
              lex := { Pipe.updateLocation q.lex c with stringBuffer := none }
              stack := .strF (v2 ++ tb) :: rest } from by
            rw [Pipe.PState.mk.injEq]
            exact ⟨hWl.symm, by rw [hcat], hev, ho, hph⟩]
          rw [show (Pipe.updateLocation p.lex c).loc = (Pipe.updateLocation q.lex c).loc
            from by rw [hUq]]
        rw [hstep_eq]
        cases hr : Pipe.stepChar q c with
        | error e => exact ⟨⟩
        | ok x =>
          have hwx : Pipe.Wf x := wf_step hwfq hr
          exact ⟨hwx, hwx, Or.inl rfl⟩
      · rw [Pipe.stepChar, Pipe.stepChar, lexChar_str_other hsb hesc hlit hbs hq34,
          lexChar_str_other hqsb hqesc hqlit hbs hq34, hUq, exceptOkBind, exceptOkBind,
          parseTokens_nil, parseTokens_nil]
        refine ⟨⟨?_, ?_⟩, ⟨?_, ?_⟩, Or.inr ⟨sb ++ [c], tb ++ [c], v1, v2, rest, ?_, rfl,
          hps, hqs, ?_, hev, ho, hph⟩⟩
        · simp only [updateLocation_isClosed]; exact hclp
        · intro sb0 hsb0
          exact ⟨by simp only [updateLocation_literalBuffer]; exact hlit, v1, rest, hps⟩
        · simp only [updateLocation_isClosed]; exact hclp
        · intro sb0 hsb0
          exact ⟨by simp only [updateLocation_literalBuffer]; exact hlit, v2, rest, hqs⟩
        · rfl
        · rw [← List.append_assoc, ← List.append_assoc, hcat]
  · have hqesc := hqesc0.trans hesc
    by_cases hq34 : (c == '"'.toNat) = true
    · rw [Pipe.stepChar, Pipe.stepChar, lexChar_esc_quote hsb hesc hq34,
        lexChar_esc_quote hqsb hqesc hq34, exceptErrBind, exceptErrBind]
      exact ⟨⟩
    · cases hgc : getCharFromEscapeSequence (eb ++ [c]) with
      | unit u =>
        rw [Pipe.stepChar, Pipe.stepChar, lexChar_esc_unit hsb hesc hq34 hgc,
          lexChar_esc_unit hqsb hqesc hq34 hgc, hUq, exceptOkBind, exceptOkBind,
          parseTokens_nil, parseTokens_nil]
        refine ⟨⟨?_, ?_⟩, ⟨?_, ?_⟩, Or.inr ⟨sb ++ [u], tb ++ [u], v1, v2, rest, ?_, rfl,
          hps, hqs, ?_, hev, ho, hph⟩⟩
        · simp only [updateLocation_isClosed]; exact hclp
        · intro sb0 hsb0
          exact ⟨by simp only [updateLocation_literalBuffer]; exact hlit, v1, rest, hps⟩
        · simp only [updateLocation_isClosed]; exact hclp
        · intro sb0 hsb0
          exact ⟨by simp only [updateLocation_literalBuffer]; exact hlit, v2, rest, hqs⟩
        · rfl
        · rw [← List.append_assoc, ← List.append_assoc, hcat]
      | pending =>
        rw [Pipe.stepChar, Pipe.stepChar, lexChar_esc_pending hsb hesc hq34 hgc,
          lexChar_esc_pending hqsb hqesc hq34 hgc, hUq, exceptOkBind, exceptOkBind,
          parseTokens_nil, parseTokens_nil]
        refine ⟨⟨?_, ?_⟩, ⟨?_, ?_⟩, Or.inr ⟨sb, tb, v1, v2, rest, ?_, rfl, hps, hqs, hcat,
          hev, ho, hph⟩⟩
        · simp only [updateLocation_isClosed]; exact hclp
        · intro sb0 hsb0
          exact ⟨by simp only [updateLocation_literalBuffer]; exact hlit, v1, rest, hps⟩
        · simp only [updateLocation_isClosed]; exact hclp
        · intro sb0 hsb0
          exact ⟨by simp only [updateLocation_literalBuffer]; exact hlit, v2, rest, hqs⟩
        · simp only [updateLocation_stringBuffer]; exact hsb
      | illegal =>
        rw [Pipe.stepChar, Pipe.stepChar, lexChar_esc_illegal hsb hesc hq34 hgc,
          lexChar_esc_illegal hqsb hqesc hq34 hgc, exceptErrBind, exceptErrBind]
        exact ⟨⟩

/-- One interleaved character step preserves the simulation relation. -/
theorem stepChar_rel {p q : Pipe.PState} (c : Nat) (hrel : Pipe.Rel p q) :
    Pipe.RelRes (Pipe.stepChar p c) (Pipe.stepChar q c) := by
  obtain ⟨hwfp, hwfq, heq⟩ := hrel
  rcases heq with rfl | heq
  · cases hr : Pipe.stepChar p c with
    | error e => exact ⟨⟩
    | ok x =>
      have hwx := wf_step hwfp hr
      exact ⟨hwx, hwx, Or.inl rfl⟩
  · exact eqES_step heq hwfp hwfq

/-- Interleaved processing of a character list preserves the simulation
relation. -/
theorem stepChars_rel (ch : JStr) : ∀ {p q : Pipe.PState}, Pipe.Rel p q →
    Pipe.RelRes (Pipe.stepChars p ch) (Pipe.stepChars q ch) := by
  induction ch with
  | nil => intro p q h; exact h
  | cons c cs ih =>
    intro p q h
    have h1 := stepChar_rel c h
    simp only [Pipe.stepChars]
    cases hp : Pipe.stepChar p c with
    | error e =>
      rw [hp] at h1
      cases hq : Pipe.stepChar q c with
      | error e2 => rw [exceptErrBind, exceptErrBind]; exact ⟨⟩
      | ok y => rw [hq] at h1; exact h1.elim
    | ok x =>
      rw [hp] at h1
      cases hq : Pipe.stepChar q c with
      | error e2 => rw [hq] at h1; exact h1.elim
      | ok y =>
        rw [hq] at h1
        rw [exceptOkBind, exceptOkBind]
        exact ih h1

/-- A successful interleaved step leaves the options unchanged. -/
theorem stepChar_opts {p p' : Pipe.PState} {c : Nat} (h : Pipe.stepChar p c = .ok p') :
    p'.opts = p.opts := by
  rw [Pipe.stepChar] at h
  obtain ⟨r1, hl, hpt⟩ := exceptBindOk h
  exact (parseTokens_okSwap hpt p.lex).2.2.1

/-- A successful interleaved run leaves the options unchanged. -/
theorem stepChars_opts (ch : JStr) : ∀ {p p' : Pipe.PState},
    Pipe.stepChars p ch = .ok p' → p'.opts = p.opts := by
  induction ch with
  | nil => intro p p' h; rw [← Except.ok.inj h]
  | cons c cs ih =>
    intro p p' h
    simp only [Pipe.stepChars] at h
    obtain ⟨m, hm, hrest⟩ := exceptBindOk h
    exact (ih hrest).trans (stepChar_opts hm)

/-- The chunk-boundary work on the chunked side preserves the relation to
the unchunked side. -/
theorem rel_boundary_left {p q : Pipe.PState} (hrel : Pipe.Rel p q)
    (hinc : p.opts.includeIncompleteStrings = none) :
    ∃ pb, Pipe.boundary p = .ok pb ∧ Pipe.Rel pb q ∧ pb.opts = p.opts := by
  obtain ⟨hwfp, hwfq, heq⟩ := hrel
  obtain ⟨pb, hb, hwb, hd, hopts⟩ := boundary_ok hwfp hinc
  refine ⟨pb, hb, ⟨hwb, hwfq, ?_⟩, hopts⟩
  rcases hd with rfl | hdes
  · exact heq
  · rcases heq with rfl | heq
    · exact Or.inr hdes
    · exact Or.inr (eqES_trans hdes heq)

/-- The final boundary work on the unchunked side preserves the relation. -/
theorem rel_boundary_right {p q : Pipe.PState} (hrel : Pipe.Rel p q)
    (hinc : q.opts.includeIncompleteStrings = none) :
    ∃ qb, Pipe.boundary q = .ok qb ∧ Pipe.Rel p qb ∧ qb.opts = q.opts := by
  obtain ⟨hwfp, hwfq, heq⟩ := hrel
  obtain ⟨qb, hb, hwb, hd, hopts⟩ := boundary_ok hwfq hinc
  refine ⟨qb, hb, ⟨hwfp, hwb, ?_⟩, hopts⟩
  rcases hd with rfl | hdes
  · exact heq
  · rcases heq with rfl | heq
    · exact Or.inr (eqES_symm hdes)
    · exact Or.inr (eqES_trans heq (eqES_symm hdes))

/-- A state still inside a string fails to close. -/
theorem close_err_of_str {p : Pipe.PState} {sb : JStr} (hsb : p.lex.stringBuffer = some sb)
    (hlit : p.lex.literalBuffer = none) :
    ∃ e, Pipe.close p = .error e := by
  refine ⟨.synErr p.lex.loc (jstr "Unterminated string"), ?_⟩
  rw [Pipe.close, Pipe.lexClose, flushState_noLit (show Pipe.LexState.literalBuffer
      { p.lex with isClosed := true } = none from hlit), exceptOkBind]
  simp only [hsb]
  rw [exceptErrBind]

/-- From related states the two close calls either both succeed with the
same final state or both fail. -/
theorem close_rel {p q : Pipe.PState} (hrel : Pipe.Rel p q) :
    (∃ x, Pipe.close p = .ok x ∧ Pipe.close q = .ok x) ∨
    ((∃ e, Pipe.close p = .error e) ∧ (∃ e, Pipe.close q = .error e)) := by
  obtain ⟨hwfp, hwfq, heq⟩ := hrel
  rcases heq with rfl | heq
  · cases hc : Pipe.close p with
    | error e => exact Or.inr ⟨⟨e, rfl⟩, ⟨e, rfl⟩⟩
    | ok x => exact Or.inl ⟨x, rfl, rfl⟩
  · obtain ⟨sb, tb, v1, v2, rest, hsb, hql, hps, hqs, hcat, hev, ho, hph⟩ := heq
    have hlitp : p.lex.literalBuffer = none := (hwfp.2 sb hsb).1
    have hlitq : q.lex.literalBuffer = none := by rw [hql]; exact hlitp
    have hqsb : q.lex.stringBuffer = some tb := by rw [hql]
    exact Or.inr ⟨close_err_of_str hsb hlitp, close_err_of_str hqsb hlitq⟩

/-- The boundary work written without the intermediate let binding. -/
theorem boundary_eq (m : Pipe.PState) :
    Pipe.boundary m = (do
      let pp ← Pipe.parseTokens { m with lex := (Pipe.flushString m.lex).1 }
        (Pipe.flushString m.lex).2
      Pipe.includeIncompleteStep pp) := rfl

/-- A push on an open lexer succeeds exactly when the interleaved run of its
characters followed by the boundary work succeeds, with the same result. -/
theorem push_ok_iff {p x : Pipe.PState} (ch : JStr) (hcl : p.lex.isClosed = false) :
    Pipe.push p ch = .ok x ↔
    ∃ m, Pipe.stepChars p ch = .ok m ∧ Pipe.boundary m = .ok x := by
  rw [Pipe.push,
    if_neg (show ¬(p.lex.isClosed = true) from by rw [hcl]; exact fun hx => Bool.noConfusion hx)]
  constructor
  · intro h
    obtain ⟨r1, hl, hrest⟩ := exceptBindOk h
    obtain ⟨pp, hpt, hinc2⟩ := exceptBindOk hrest
    rw [parseTokens_append] at hpt
    obtain ⟨m2, hm2, hm3⟩ := exceptBindOk hpt
    obtain ⟨hswap, hm2lex, -, -⟩ := parseTokens_okSwap hm2 r1.1
    have hm2lex2 : m2.lex = (Pipe.flushString r1.1).1 := hm2lex
    have hm2eq : ({ m2 with lex := (Pipe.flushString r1.1).1 } : Pipe.PState) = m2 := by
      rcases m2 with ⟨a, b, c2, d, e2⟩
      simp only at hm2lex2
      rw [hm2lex2]
    have hsteps : Pipe.stepChars p ch = .ok { m2 with lex := r1.1 } :=
      (stepChars_decomp ch p _).mpr ⟨r1, hl,
        show Pipe.parseTokens { p with lex := r1.1 } r1.2 = .ok { m2 with lex := r1.1 }
          from hswap⟩
    refine ⟨{ m2 with lex := r1.1 }, hsteps, ?_⟩
    rw [boundary_eq]
    show (do
      let pp ← Pipe.parseTokens { m2 with lex := (Pipe.flushString r1.1).1 }
        (Pipe.flushString r1.1).2
      Pipe.includeIncompleteStep pp) = .ok x
    rw [hm2eq, hm3, exceptOkBind]
    exact hinc2
  · rintro ⟨m, hsteps, hb⟩
    obtain ⟨r1, hl, hm⟩ := (stepChars_decomp ch p m).mp hsteps
    have hmlex : m.lex = r1.1 := (parseTokens_okSwap hm p.lex).2.1
    rw [boundary_eq] at hb
    obtain ⟨pp, hpt, hinc2⟩ := exceptBindOk hb
    rw [hl, exceptOkBind]
    show (do
      let pp ← Pipe.parseTokens { p with lex := (Pipe.flushString r1.1).1 }
        (r1.2 ++ (Pipe.flushString r1.1).2)
      Pipe.includeIncompleteStep pp) = .ok x
    rw [parseTokens_append]
    obtain ⟨hswap, -, -, -⟩ := parseTokens_okSwap hm (Pipe.flushString r1.1).1
    rw [show Pipe.parseTokens { p with lex := (Pipe.flushString r1.1).1 } r1.2 =
      .ok { m with lex := (Pipe.flushString r1.1).1 } from hswap, exceptOkBind]
    rw [show Pipe.parseTokens { m with lex := (Pipe.flushString r1.1).1 }
        (Pipe.flushString r1.1).2 = .ok pp from by
      have hfl : Pipe.flushString m.lex = Pipe.flushString r1.1 := by rw [hmlex]
      rw [← hfl]
      exact hpt, exceptOkBind]
    exact hinc2

/-- Interleaved processing of a character list preserves well-formedness. -/
theorem wf_steps (ch : JStr) : ∀ {p p' : Pipe.PState}, Pipe.Wf p →
    Pipe.stepChars p ch = .ok p' → Pipe.Wf p' := by
  induction ch with
  | nil => intro p p' hwf h; rw [← Except.ok.inj h]; exact hwf
  | cons c cs ih =>
    intro p p' hwf h
    simp only [Pipe.stepChars] at h
    obtain ⟨m, hm, hrest⟩ := exceptBindOk h
    exact ih (wf_step hwf hm) hrest

/-- With the incomplete-string option off, folding push over the chunk list
agrees with the interleaved chunk chain. -/
theorem foldPush_iff : ∀ (cs : List JStr) {p x : Pipe.PState}, Pipe.Wf p →
    p.opts.includeIncompleteStrings = none →
    (List.foldlM Pipe.push p cs = .ok x ↔ Pipe.chainC p cs = .ok x) := by
  intro cs
  induction cs with
  | nil => intro p x hwf hinc; exact Iff.rfl
  | cons ch rest ih =>
    intro p x hwf hinc
    rw [List.foldlM_cons]
    simp only [Pipe.chainC]
    constructor
    · intro h
      obtain ⟨p2, hpush, hrest⟩ := exceptBindOk h
      obtain ⟨m, hsc, hbd⟩ := (push_ok_iff ch hwf.1).mp hpush
      have hwm := wf_steps ch hwf hsc
      have hincm : m.opts.includeIncompleteStrings = none := by
        rw [stepChars_opts ch hsc]; exact hinc
      obtain ⟨pb, hb, hwb, -, hob⟩ := boundary_ok hwm hincm
      have hpb : pb = p2 := Except.ok.inj (hb.symm.trans hbd)
      rw [hsc, exceptOkBind, hbd, exceptOkBind]
      have hwp2 : Pipe.Wf p2 := hpb ▸ hwb
      have hincp2 : p2.opts.includeIncompleteStrings = none := by
        rw [show p2.opts = m.opts from hpb ▸ hob]; exact hincm
      exact (ih hwp2 hincp2).mp hrest
    · intro h
      obtain ⟨m, hsc, h2⟩ := exceptBindOk h
      obtain ⟨p2, hbd, hrest⟩ := exceptBindOk h2
      have hpush : Pipe.push p ch = .ok p2 := (push_ok_iff ch hwf.1).mpr ⟨m, hsc, hbd⟩
      rw [hpush, exceptOkBind]
      have hwm := wf_steps ch hwf hsc
      have hincm : m.opts.includeIncompleteStrings = none := by
        rw [stepChars_opts ch hsc]; exact hinc
      obtain ⟨pb, hb, hwb, -, hob⟩ := boundary_ok hwm hincm
      have hpb : pb = p2 := Except.ok.inj (hb.symm.trans hbd)
      have hwp2 : Pipe.Wf p2 := hpb ▸ hwb
      have hincp2 : p2.opts.includeIncompleteStrings = none := by
        rw [show p2.opts = m.opts from hpb ▸ hob]; exact hincm
      exact (ih hwp2 hincp2).mpr hrest

/-- The interleaved chunk chain on the chunked side simulates the single
interleaved run of the concatenated characters on the unchunked side. -/
theorem chain_rel : ∀ (cs : List JStr) {p q : Pipe.PState}, Pipe.Rel p q →
    p.opts.includeIncompleteStrings = none →
    Pipe.RelRes (Pipe.chainC p cs) (Pipe.stepChars q cs.flatten) := by
  intro cs
  induction cs with
  | nil => intro p q hrel hinc; exact hrel
  | cons ch rest ih =>
    intro p q hrel hinc
    simp only [Pipe.chainC, List.flatten_cons]
    rw [stepChars_append]
    have h1 := stepChars_rel ch hrel
    cases hp : Pipe.stepChars p ch with
    | error e =>
      rw [hp] at h1
      cases hq : Pipe.stepChars q ch with
      | error e2 => rw [exceptErrBind, exceptErrBind]; exact ⟨⟩
      | ok M => rw [hq] at h1; exact h1.elim
    | ok m =>
      rw [hp] at h1
      cases hq : Pipe.stepChars q ch with
      | error e2 => rw [hq] at h1; exact h1.elim
      | ok M =>
        rw [hq] at h1
        have hincm : m.opts.includeIncompleteStrings = none := by
          rw [stepChars_opts ch hp]; exact hinc
        obtain ⟨pb, hbd, hrelb, hob⟩ := rel_boundary_left h1 hincm
        rw [exceptOkBind, exceptOkBind, hbd, exceptOkBind]
        have hincb : pb.opts.includeIncompleteStrings = none := by
          rw [hob]; exact hincm
        exact ih hrelb hincb

/-- Core of chunking invariance: from a well-formed start state with the
incomplete-string option off, running the chunk list through push and close
yields a given result exactly when running the concatenation as a single
chunk does. -/
theorem chunking_core {p0 : Pipe.PState} (chunks : List JStr)
    (hwf : Pipe.Wf p0) (hinc : p0.opts.includeIncompleteStrings = none)
    (r : Option JsonValue × List Pipe.Event) :
    ((do
      let p ← List.foldlM Pipe.push p0 chunks
      let p2 ← Pipe.close p
      (Except.ok (p2.getValue, p2.events) :
        Except Err (Option JsonValue × List Pipe.Event))) = .ok r ↔
     (do
      let p ← List.foldlM Pipe.push p0 [chunks.flatten]
      let p2 ← Pipe.close p
      (Except.ok (p2.getValue, p2.events) :
        Except Err (Option JsonValue × List Pipe.Event))) = .ok r) := by
  have hrel := chain_rel chunks (p := p0) (q := p0) ⟨hwf, hwf, Or.inl rfl⟩ hinc
  rw [List.foldlM_cons]
  cases hc : Pipe.chainC p0 chunks with
  | error e =>
    rw [hc] at hrel
    have hL : ∀ y, List.foldlM Pipe.push p0 chunks ≠ .ok y := by
      intro y hy
      have h2 := (foldPush_iff chunks hwf hinc).mp hy
      rw [hc] at h2
      exact Except.noConfusion h2
    cases hsc : Pipe.stepChars p0 chunks.flatten with
    | ok M => rw [hsc] at hrel; exact hrel.elim
    | error e2 =>
      have hR : ∀ y, Pipe.push p0 chunks.flatten ≠ .ok y := by
        intro y hy
        obtain ⟨m, hm, -⟩ := (push_ok_iff chunks.flatten hwf.1).mp hy
        rw [hsc] at hm
        exact Except.noConfusion hm
      cases hF : List.foldlM Pipe.push p0 chunks with
      | ok y => exact absurd hF (hL y)
      | error e3 =>
        cases hP : Pipe.push p0 chunks.flatten with
        | ok y => exact absurd hP (hR y)
        | error e4 =>
          simp only [exceptErrBind]
          exact iff_of_false (fun hx => Except.noConfusion hx)
            (fun hx => Except.noConfusion hx)
  | ok pf =>
    rw [hc] at hrel
    cases hsc : Pipe.stepChars p0 chunks.flatten with
    | error e2 => rw [hsc] at hrel; exact hrel.elim
    | ok M =>
      rw [hsc] at hrel
      have hF : List.foldlM Pipe.push p0 chunks = .ok pf :=
        (foldPush_iff chunks hwf hinc).mpr hc
      have hincM : M.opts.includeIncompleteStrings = none := by
        rw [stepChars_opts chunks.flatten hsc]; exact hinc
      obtain ⟨Q, hbQ, hrelQ, -⟩ := rel_boundary_right hrel hincM
      have hP : Pipe.push p0 chunks.flatten = .ok Q :=
        (push_ok_iff chunks.flatten hwf.1).mpr ⟨M, hsc, hbQ⟩
      rw [hF, hP, exceptOkBind, exceptOkBind]
      rw [show List.foldlM Pipe.push Q ([] : List JStr) = Except.ok Q from rfl,
        exceptOkBind]
      rcases close_rel hrelQ with ⟨x, hcp, hcq⟩ | ⟨⟨e1, h1⟩, ⟨e2, h2⟩⟩
      · rw [hcp, hcq]
      · rw [h1, h2, exceptErrBind, exceptErrBind]
        exact iff_of_false (fun hx => Except.noConfusion hx)
          (fun hx => Except.noConfusion hx)

/-- C1: chunking invariance.  With the include-incomplete-strings option
off, for every optional placeholder, every chunk list and every result,
pushing the chunks in order and closing yields a given value-and-events
result exactly when pushing the concatenation of all chunks in one single
push and closing does. -/
theorem C1_chunking_invariance (opts : Pipe.POpts) (ph : Option JsonValue)
    (chunks : List JStr) (r : Option JsonValue × List Pipe.Event)
    (hinc : opts.includeIncompleteStrings = none) :
    Pipe.runChunks opts ph chunks = .ok r ↔
    Pipe.runChunks opts ph [chunks.flatten] = .ok r := by
  cases ph with
  | none =>
    have hwf : Pipe.Wf (Pipe.PState.initial opts) :=
      ⟨rfl, fun sb h => Option.noConfusion h⟩
    exact chunking_core chunks hwf hinc r
  | some v =>
    have hwf : Pipe.Wf ((Pipe.PState.initial opts).withPlaceholder v) :=
      ⟨rfl, fun sb h => Option.noConfusion h⟩
    exact chunking_core chunks hwf hinc r

/-- C1 witness: the chunked and whole-input runs of a concrete array with a
string split across the chunk boundary, instantiating the chunking
invariance theorem at that input. -/
theorem C1_chunking_invariance_witness :
    (⟨false, none⟩ : Pipe.POpts).includeIncompleteStrings = none ∧
    Pipe.runChunks ⟨false, none⟩ none [jstr "[1, \"a", jstr "b\"]"] =
      .ok (some (.arr [.num ⟨1, 1⟩, .str (jstr "ab")]), []) ∧
    (Pipe.runChunks ⟨false, none⟩ none [jstr "[1, \"a", jstr "b\"]"] =
       .ok (some (.arr [.num ⟨1, 1⟩, .str (jstr "ab")]), []) ↔
     Pipe.runChunks ⟨false, none⟩ none
       [List.flatten [jstr "[1, \"a", jstr "b\"]"]] =
       .ok (some (.arr [.num ⟨1, 1⟩, .str (jstr "ab")]), [])) :=
  ⟨rfl, by set_option maxRecDepth 4000 in rfl,
   C1_chunking_invariance ⟨false, none⟩ none [jstr "[1, \"a", jstr "b\"]"]
     (some (.arr [.num ⟨1, 1⟩, .str (jstr "ab")]), []) rfl⟩
